import Mathlib

/-!
Formal verification of the order-execution and movement-planning core of the
Wormhole-Control turn-based strategy simulation.

The Python source is shallowly embedded in Lean 4:
* Python `float` values are modelled as exact rationals (`ℚ`).  All the
  comparisons the code performs on square roots (`math.sqrt`) are rendered by
  their exact algebraic equivalents on squares (monotonicity of the real
  square root), so the embedded predicates agree with the idealised
  real-number reading of the code.
* Python `int` is `ℤ` (or `ℕ` where the source maintains non-negativity).
* Python dictionaries are association lists; `dict[k]` accesses that can raise
  `KeyError` are modelled with `Option`, a `none` result standing for the
  raised exception.
* In-place object mutation is modelled by explicit state passing.
-/

namespace WormholeControl

/-! ## geometry.py -/

/-- `geometry.Vector` / `Position`: a 2D coordinate with rational components
(modelling the Python floats exactly). -/
structure Position where
  x : ℚ
  y : ℚ
deriving DecidableEq, Repr

/-- `geometry.distance_sq`: squared Euclidean distance between two positions. -/
def distance_sq (p1 p2 : Position) : ℚ :=
  (p1.x - p2.x) ^ 2 + (p1.y - p2.y) ^ 2

/-- `geometry.hex_distance` on axial hex coordinates `(q, r)` (Python ints). -/
def hex_distance (a b : ℤ × ℤ) : ℤ :=
  ((a.1 - b.1).natAbs + (a.1 + a.2 - b.1 - b.2).natAbs + (a.2 - b.2).natAbs) / 2

/-- `geometry.Circle`. -/
structure Circle where
  center : Position
  radius : ℚ
deriving DecidableEq, Repr

/-- `geometry.is_point_in_circle`: the source compares squared distance with
the squared radius (`distance_sq(point, circle.center) <= circle.radius**2`). -/
def is_point_in_circle (point : Position) (circle : Circle) : Bool :=
  distance_sq point circle.center ≤ circle.radius ^ 2

/-- `geometry.do_circles_intersect`: strict comparison of the squared center
distance with the squared sum of radii. -/
def do_circles_intersect (c1 c2 : Circle) : Bool :=
  distance_sq c1.center c2.center < (c1.radius + c2.radius) ^ 2

/-- `geometry.is_circle_contained`: the source checks
`distance(inner.center, outer.center) + inner.radius <= outer.radius`.
Since `distance = √distance_sq ≥ 0`, this holds exactly when the radius
difference is non-negative and dominates the squared distance; the embedding
uses that exact square-root-free rendering. -/
def is_circle_contained (inner outer : Circle) : Bool :=
  0 ≤ outer.radius - inner.radius ∧
    distance_sq inner.center outer.center ≤ (outer.radius - inner.radius) ^ 2

/-- The property C9 asserts for all points and circles, written with the real
Euclidean distance the code's `math.sqrt`-based helpers denote. -/
def CircleClaimC9 : Prop :=
  (∀ (p : Position) (c : Circle),
      is_point_in_circle p c = true ↔
        Real.sqrt ((distance_sq p c.center : ℚ)) ≤ (c.radius : ℝ)) ∧
  (∀ c1 c2 : Circle,
      do_circles_intersect c1 c2 = true ↔
        Real.sqrt ((distance_sq c1.center c2.center : ℚ)) <
          (c1.radius : ℝ) + (c2.radius : ℝ))

/-! ## entities.py: celestial bodies -/

/-- Axial hex coordinate `(q, r)` (`utils.HexCoord`). -/
abbrev HexCoord := ℤ × ℤ

/-- The concrete subclass of `entities.CelestialBody` an object belongs to. -/
inductive BodyKind where
  | planet | moon | asteroid | star | debrisField | asteroidField
  | iceField | nebula | storm | comet
deriving DecidableEq, Repr

/-- A celestial body (`entities.CelestialBody` and its subclasses); owners are
referenced by player id, `none` meaning an unowned body. -/
structure CelestialBody where
  id : ℕ
  kind : BodyKind
  in_system : String
  in_hex : HexCoord
  position : Position
  inhibition_field_radius : ℚ
  owner : Option ℕ
  population : ℚ
  max_population : ℚ
  population_growth_rate : ℚ
deriving DecidableEq, Repr

/-- `Planet.update_population` (identical for moons and asteroids): owned
bodies below the cap grow multiplicatively, clamped at `max_population`. -/
def CelestialBody.update_population (b : CelestialBody) : CelestialBody :=
  if b.owner.isSome ∧ b.population < b.max_population then
    let grown := b.population + b.population * b.population_growth_rate
    { b with population := if grown > b.max_population then b.max_population else grown }
  else b

/-! ## unit_components.py: ColonyComponent -/

/-- `unit_components.ColonyComponent`. -/
structure ColonyComponent where
  population_cargo : ℤ
  max_cargo : ℤ
deriving DecidableEq, Repr

/-- `ColonyComponent.load_population`: mutation of the component and the planet
is modelled by returning the success flag together with both updated records. -/
def ColonyComponent.load_population (col : ColonyComponent) (unitOwner : ℕ)
    (planet : CelestialBody) (amount : ℤ) :
    Bool × ColonyComponent × CelestialBody :=
  if planet.owner ≠ some unitOwner then (false, col, planet)
  else if planet.population < (amount : ℚ) then (false, col, planet)
  else if col.population_cargo + amount > col.max_cargo then (false, col, planet)
  else (true,
    { col with population_cargo := col.population_cargo + amount },
    { planet with population := planet.population - (amount : ℚ) })

/-- `ColonyComponent.unload_population`: an unowned planet is first claimed for
the unit's owner, then the cargo is transferred. -/
def ColonyComponent.unload_population (col : ColonyComponent) (unitOwner : ℕ)
    (planet : CelestialBody) (amount : ℤ) :
    Bool × ColonyComponent × CelestialBody :=
  if col.population_cargo < amount then (false, col, planet)
  else
    let planet1 :=
      if planet.owner = none then { planet with owner := some unitOwner } else planet
    if planet1.owner ≠ some unitOwner then (false, col, planet1)
    else (true,
      { col with population_cargo := col.population_cargo - amount },
      { planet1 with population := planet1.population + (amount : ℚ) })

/-! ## pathfinding.py: multi-stage hex jump waypoints -/

/-- Python's built-in `round`: nearest integer, ties to the even integer. -/
def pyround (x : ℚ) : ℤ :=
  if x - ⌊x⌋ < 1/2 then ⌊x⌋
  else if 1/2 < x - ⌊x⌋ then ⌊x⌋ + 1
  else if 2 ∣ ⌊x⌋ then ⌊x⌋ else ⌊x⌋ + 1

/-- Fractional cube coordinates `(x, y, z)` used by the hex interpolation. -/
abbrev Cube := ℚ × ℚ × ℚ

/-- `pathfinding._axial_to_cube`. -/
def _axial_to_cube (h : HexCoord) : Cube :=
  ((h.1 : ℚ), -(h.1 : ℚ) - (h.2 : ℚ), (h.2 : ℚ))

/-- `pathfinding._cube_round`: round each component to the nearest integer,
then recompute the component with the largest rounding error so that the
three components sum to zero again. -/
def _cube_round (c : Cube) : ℤ × ℤ × ℤ :=
  if |(pyround c.1 : ℚ) - c.1| > |(pyround c.2.1 : ℚ) - c.2.1| ∧
      |(pyround c.1 : ℚ) - c.1| > |(pyround c.2.2 : ℚ) - c.2.2| then
    (-pyround c.2.1 - pyround c.2.2, pyround c.2.1, pyround c.2.2)
  else if |(pyround c.2.1 : ℚ) - c.2.1| > |(pyround c.2.2 : ℚ) - c.2.2| then
    (pyround c.1, -pyround c.1 - pyround c.2.2, pyround c.2.2)
  else
    (pyround c.1, pyround c.2.1, -pyround c.1 - pyround c.2.1)

/-- `pathfinding._cube_to_axial`. -/
def _cube_to_axial (c : ℤ × ℤ × ℤ) : HexCoord := (c.1, c.2.2)

/-- `pathfinding._cube_lerp`. -/
def _cube_lerp (a b : Cube) (t : ℚ) : Cube :=
  (a.1 + (b.1 - a.1) * t,
   a.2.1 + (b.2.1 - a.2.1) * t,
   a.2.2 + (b.2.2 - a.2.2) * t)

/-- One step of the waypoint accumulation in `find_hex_jump_path`
(`if not path or path[-1] != waypoint_hex: path.append(waypoint_hex)`). -/
def dedupAppend (path : List HexCoord) (w : HexCoord) : List HexCoord :=
  if path.getLast? ≠ some w then path ++ [w] else path

/-- The final fix-up of `find_hex_jump_path`: force the last waypoint to be
exactly the destination hex. -/
def forceFinal (path : List HexCoord) (end_hex : HexCoord) : List HexCoord :=
  match path.getLast? with
  | none => [end_hex]
  | some last =>
    if last = end_hex then path
    else if hex_distance last end_hex = 0 then path.dropLast ++ [end_hex]
    else path ++ [end_hex]

/-- The list of rounded interpolation points `i = 1 .. n` of the
`for i in range(1, int(num_segments) + 1)` loop of `find_hex_jump_path`. -/
def hexJumpRaw (start_hex end_hex : HexCoord) (n : ℤ) : List HexCoord :=
  (List.range n.toNat).map fun i : ℕ =>
    _cube_to_axial (_cube_round (_cube_lerp (_axial_to_cube start_hex)
      (_axial_to_cube end_hex) (((i : ℚ) + 1) / (n : ℚ))))

/-- `pathfinding.find_hex_jump_path`: split a jump from `start_hex` to
`end_hex` into waypoints by rounding evenly spaced points of the cube-space
segment (`math.ceil(total_distance / max_range)` is modelled by the exact
rational ceiling). -/
def find_hex_jump_path (start_hex end_hex : HexCoord) (max_range : ℤ) :
    List HexCoord :=
  if hex_distance start_hex end_hex ≤ max_range then [end_hex]
  else
    forceFinal
      ((hexJumpRaw start_hex end_hex
          ⌈(hex_distance start_hex end_hex : ℚ) / (max_range : ℚ)⌉).foldl
        dedupAppend [])
      end_hex


/-- Proof-side helper: the fractional-cube reading of the hex distance,
`(|x| + |y| + |z|) / 2`. -/
def cnorm (c : Cube) : ℚ := (|c.1| + |c.2.1| + |c.2.2|) / 2

/-- Proof-side helper: componentwise difference of cube vectors. -/
def csub (u v : Cube) : Cube := (u.1 - v.1, u.2.1 - v.2.1, u.2.2 - v.2.2)

/-- Proof-side helper: an integer cube as a fractional cube. -/
def castCube (c : ℤ × ℤ × ℤ) : Cube := ((c.1 : ℚ), (c.2.1 : ℚ), (c.2.2 : ℚ))

/-- The property claim C1 asserts of `find_hex_jump_path a b r`: the waypoint
list ends exactly at `b` and every consecutive pair of hexes, including the
pair formed by `a` and the first waypoint, is at hex-distance at most `r`. -/
def HexJumpPathClaim (a b : HexCoord) (r : ℤ) : Prop :=
  (find_hex_jump_path a b r).getLast? = some b ∧
    List.Chain (fun u v => hex_distance u v ≤ r) a (find_hex_jump_path a b r)



/-! ## pathfinding.py: find_intersystem_path (Dijkstra over the system graph) -/

/-- The system adjacency graph `Dict[str, List[str]]`, embedded as an
association list (first binding wins, as a Python dict has unique keys). -/
abbrev Graph := List (String × List String)

/-- Python dict lookup. -/
def dictLookup {α : Type} : List (String × α) → String → Option α
  | [], _ => none
  | (k, v) :: tl, key => if k = key then some v else dictLookup tl key

/-- The keys of a dict, in insertion order. -/
def dictKeys {α : Type} (d : List (String × α)) : List String := d.map Prod.fst

/-- An edge of the graph: `w` is listed among the successors of `u`. -/
def Edge (g : Graph) (u w : String) : Prop :=
  ∃ ns, dictLookup g u = some ns ∧ w ∈ ns

/-- A walk of `k` hops through the graph. -/
inductive IsWalk (g : Graph) : String → String → ℕ → Prop where
  | refl (v : String) : IsWalk g v v 0
  | step {u w v : String} {k : ℕ} :
      Edge g u w → IsWalk g w v k → IsWalk g u v (k + 1)

/-- Well-formedness of the adjacency list: every listed neighbour is itself a
key of the dict (exactly the situation in the game, whose graph is built from
wormhole pairs between existing systems). -/
def ClosedGraph (g : Graph) : Prop :=
  ∀ kv ∈ g, ∀ w ∈ kv.2, (dictLookup g w).isSome

/-- The mutable state of the Dijkstra main loop: the `distances` dict (`none`
stands for `float('inf')`), the `predecessors` dict, and the priority queue.
The queue is kept as a multiset of `(distance, node)` pairs from which the
lexicographic minimum is extracted, exactly the order `heapq` pops tuples. -/
structure DijkstraState where
  dist : String → Option ℕ
  pred : String → Option String
  pq : List (ℕ × String)

/-- Python tuple comparison `(d1, n1) <= (d2, n2)`. -/
def pairLeB (a b : ℕ × String) : Bool :=
  decide (a.1 < b.1) || (a.1 == b.1 && decide (a.2 ≤ b.2))

/-- The minimum entry of the queue, found by folding the pairwise minimum. -/
def minPairFold (x : ℕ × String) (tl : List (ℕ × String)) : ℕ × String :=
  tl.foldl (fun acc y => if pairLeB acc y then acc else y) x

/-- Remove the first occurrence of an entry. -/
def removeFirstPair : List (ℕ × String) → (ℕ × String) → List (ℕ × String)
  | [], _ => []
  | x :: tl, m => if x = m then tl else x :: removeFirstPair tl m

/-- `heapq.heappop`: extract the minimal entry of the queue (`none` on an
empty queue, ending the `while priority_queue` loop). -/
def popMin : List (ℕ × String) → Option ((ℕ × String) × List (ℕ × String))
  | [] => none
  | x :: tl =>
    some (minPairFold x tl, removeFirstPair (x :: tl) (minPairFold x tl))

/-- `distance_to_neighbor < distances[neighbor]` (`inf` when `none`). -/
def ltDist (n : ℕ) : Option ℕ → Bool
  | none => true
  | some m => decide (n < m)

/-- `current_distance > distances[current_node]`: the stale-entry test. -/
def gtDist (n : ℕ) : Option ℕ → Bool
  | none => false
  | some m => decide (n > m)

/-- One step of the `for neighbor in graph[current_node]` relaxation loop;
`none` models the `KeyError` raised by `distances[neighbor]` when a listed
neighbour is not a key of the `distances` dict (whose keys are the graph's). -/
def relaxNeighbor (graph : Graph) (current_distance : ℕ) (current_node : String)
    (st : DijkstraState) (neighbor : String) : Option DijkstraState :=
  if (dictLookup graph neighbor).isSome then
    if ltDist (current_distance + 1) (st.dist neighbor) then
      some { dist := fun v => if v = neighbor
               then some (current_distance + 1) else st.dist v,
             pred := fun v => if v = neighbor
               then some current_node else st.pred v,
             pq := (current_distance + 1, neighbor) :: st.pq }
    else some st
  else none

/-- The whole relaxation loop over the neighbour list. -/
def relaxAll (graph : Graph) (d : ℕ) (u : String) :
    List String → DijkstraState → Option DijkstraState
  | [], st => some st
  | w :: ws, st =>
    match relaxNeighbor graph d u st w with
    | none => none
    | some st' => relaxAll graph d u ws st'

/-- The `while node_trace is not None` back-tracking loop of the return path,
built directly in start-to-end order (the source appends and then reverses);
the fuel argument makes the loop — finite in every state the algorithm
reaches — structurally terminating. -/
def reconstructPath (pred : String → Option String) : ℕ → String → List String
  | 0, node => [node]
  | fuel + 1, node =>
    match pred node with
    | none => [node]
    | some p => reconstructPath pred fuel p ++ [node]

/-- Number of keys still at distance `inf`: the leading component of the
termination measure of the main loop. -/
def noneCount (graph : Graph) (dist : String → Option ℕ) : ℕ :=
  ((dictKeys graph).filter (fun v => (dist v).isNone)).length

/-- Sum of the finite tentative distances: the middle component of the
termination measure (every relaxation lowers it or fills an `inf` slot). -/
def sumDist (graph : Graph) (dist : String → Option ℕ) : ℕ :=
  ((dictKeys graph).map (fun v => (dist v).getD 0)).sum


/-! ### Priority queue and measure lemmas for the Dijkstra loop -/

theorem pairLeB_fst_le {a b : ℕ × String} (h : pairLeB a b = true) : a.1 ≤ b.1 := by
  unfold pairLeB at h
  simp only [Bool.or_eq_true, Bool.and_eq_true, decide_eq_true_eq, beq_iff_eq] at h
  rcases h with h | ⟨h, -⟩ <;> omega

theorem not_pairLeB_fst_le {a b : ℕ × String} (h : pairLeB a b = false) : b.1 ≤ a.1 := by
  unfold pairLeB at h
  simp only [Bool.or_eq_false_iff, Bool.and_eq_false_iff, decide_eq_false_iff_not] at h
  omega

theorem minPairFold_spec :
    ∀ (tl : List (ℕ × String)) (x : ℕ × String),
      minPairFold x tl ∈ x :: tl ∧ ∀ q ∈ x :: tl, (minPairFold x tl).1 ≤ q.1
  | [], x => by
    refine ⟨by simp [minPairFold], ?_⟩
    intro q hq
    simp only [List.mem_cons, List.not_mem_nil, or_false] at hq
    simp [hq, minPairFold]
  | y :: ys, x => by
    have ih := minPairFold_spec ys (if pairLeB x y then x else y)
    have hfold : minPairFold x (y :: ys) =
        minPairFold (if pairLeB x y then x else y) ys := by
      unfold minPairFold
      rw [List.foldl_cons]
    constructor
    · rw [hfold]
      rcases List.mem_cons.mp ih.1 with h | h
      · rw [h]
        split_ifs <;> simp
      · simp [List.mem_cons, h]
    · intro q hq
      rw [hfold]
      have hmin_le : (minPairFold (if pairLeB x y then x else y) ys).1 ≤
          (if pairLeB x y then x else y).1 := ih.2 _ (List.mem_cons_self _ _)
      have hxy : (if pairLeB x y then x else y).1 ≤ x.1 ∧
          (if pairLeB x y then x else y).1 ≤ y.1 := by
        split_ifs with hc
        · exact ⟨le_refl _, pairLeB_fst_le hc⟩
        · exact ⟨not_pairLeB_fst_le (by simpa using hc), le_refl _⟩
      rcases List.mem_cons.mp hq with h | h
      · subst h
        omega
      rcases List.mem_cons.mp h with h' | h'
      · subst h'
        omega
      · exact ih.2 q (List.mem_cons_of_mem _ h')

theorem removeFirstPair_perm :
    ∀ (l : List (ℕ × String)) (m : ℕ × String), m ∈ l →
      l.Perm (m :: removeFirstPair l m)
  | [], m, h => by simp at h
  | x :: tl, m, h => by
    unfold removeFirstPair
    by_cases hx : x = m
    · rw [if_pos hx, hx]
    · rw [if_neg hx]
      have hm : m ∈ tl := by
        rcases List.mem_cons.mp h with h' | h'
        · exact absurd h'.symm hx
        · exact h'
      exact ((removeFirstPair_perm tl m hm).cons x).trans
        (List.Perm.swap m x (removeFirstPair tl m))

theorem popMin_spec {l : List (ℕ × String)} {p : ℕ × String}
    {rest : List (ℕ × String)} (h : popMin l = some (p, rest)) :
    p ∈ l ∧ l.Perm (p :: rest) ∧ ∀ q ∈ l, p.1 ≤ q.1 := by
  cases l with
  | nil => simp [popMin] at h
  | cons x tl =>
    unfold popMin at h
    rw [Option.some.injEq, Prod.mk.injEq] at h
    obtain ⟨hp, hrest⟩ := h
    have hspec := minPairFold_spec tl x
    subst hp
    refine ⟨hspec.1, ?_, hspec.2⟩
    rw [← hrest]
    exact removeFirstPair_perm _ _ hspec.1

theorem popMin_length {l : List (ℕ × String)} {p : ℕ × String}
    {rest : List (ℕ × String)} (h : popMin l = some (p, rest)) :
    rest.length + 1 = l.length := by
  have := (popMin_spec h).2.1.length_eq
  simp at this
  omega

theorem popMin_none {l : List (ℕ × String)} (h : popMin l = none) : l = [] := by
  cases l with
  | nil => rfl
  | cons x tl => simp [popMin] at h

theorem dictLookup_isSome_mem {α : Type} {d : List (String × α)} {k : String}
    (h : (dictLookup d k).isSome = true) : k ∈ dictKeys d := by
  induction d with
  | nil => simp [dictLookup] at h
  | cons kv tl ih =>
    obtain ⟨k', v⟩ := kv
    unfold dictLookup at h
    by_cases hk : k' = k
    · subst hk
      simp [dictKeys]
    · rw [if_neg hk] at h
      simp only [dictKeys, List.map_cons, List.mem_cons]
      exact Or.inr (ih h)

theorem filterNone_le (l : List String) (f g : String → Option ℕ)
    (hmono : ∀ v, (f v).isNone = true → (g v).isNone = true) :
    (l.filter fun v => (f v).isNone).length ≤
      (l.filter fun v => (g v).isNone).length := by
  induction l with
  | nil => simp
  | cons a tl ih =>
    rw [List.filter_cons, List.filter_cons]
    by_cases ha : (f a).isNone = true
    · rw [if_pos (by simpa using ha), if_pos (by simpa using hmono a ha)]
      simpa using ih
    · rw [if_neg (by simpa using ha)]
      by_cases hb : (g a).isNone = true
      · rw [if_pos (by simpa using hb)]
        simp only [List.length_cons]
        omega
      · rw [if_neg (by simpa using hb)]
        exact ih

theorem filterNone_lt (l : List String) (f g : String → Option ℕ)
    (hmono : ∀ v, (f v).isNone = true → (g v).isNone = true)
    (w : String) (hw : w ∈ l) (hgw : (g w).isNone = true)
    (hfw : (f w).isNone = false) :
    (l.filter fun v => (f v).isNone).length <
      (l.filter fun v => (g v).isNone).length := by
  induction l with
  | nil => simp at hw
  | cons a tl ih =>
    rw [List.filter_cons, List.filter_cons]
    by_cases haw : a = w
    · subst haw
      rw [if_neg (by simp [hfw]), if_pos (by simpa using hgw)]
      have := filterNone_le tl f g hmono
      simp only [List.length_cons]
      omega
    · have hw' : w ∈ tl := by
        rcases List.mem_cons.mp hw with h | h
        · exact absurd h.symm haw
        · exact h
      by_cases ha : (f a).isNone = true
      · rw [if_pos (by simpa using ha), if_pos (by simpa using hmono a ha)]
        simpa using ih hw'
      · rw [if_neg (by simpa using ha)]
        by_cases hb : (g a).isNone = true
        · rw [if_pos (by simpa using hb)]
          have := ih hw'
          simp only [List.length_cons]
          omega
        · rw [if_neg (by simpa using hb)]
          exact ih hw'


/-- The first two components of the loop's termination measure. -/
def distMeasure (graph : Graph) (dist : String → Option ℕ) : ℕ × ℕ :=
  (noneCount graph dist, sumDist graph dist)

/-- Strict lexicographic comparison of measures. -/
def MeasureLt (a b : ℕ × ℕ) : Prop := a.1 < b.1 ∨ (a.1 = b.1 ∧ a.2 < b.2)

theorem MeasureLt_trans {a b c : ℕ × ℕ} (h1 : MeasureLt a b) (h2 : MeasureLt b c) :
    MeasureLt a c := by
  unfold MeasureLt at *
  omega

theorem relaxNeighbor_measure {graph : Graph} {d : ℕ} {u : String}
    {st : DijkstraState} {w : String} {st' : DijkstraState}
    (h : relaxNeighbor graph d u st w = some st') :
    st' = st ∨ MeasureLt (distMeasure graph st'.dist) (distMeasure graph st.dist) := by
  unfold relaxNeighbor at h
  split_ifs at h with hkey hlt
  · right
    rw [Option.some.injEq] at h
    subst h
    have hw : w ∈ dictKeys graph := dictLookup_isSome_mem hkey
    cases hdw : st.dist w with
    | none =>
      left
      unfold distMeasure noneCount
      refine filterNone_lt _ _ _ ?_ w hw (by simp [hdw]) (by simp)
      intro v hv
      by_cases hvw : v = w
      · subst hvw
        simp at hv
      · simpa [hvw] using hv
    | some m =>
      right
      have hlt' : d + 1 < m := by
        rw [hdw] at hlt
        simpa [ltDist] using hlt
      constructor
      · unfold distMeasure noneCount
        refine le_antisymm ?_ ?_
        · refine filterNone_le _ _ _ ?_
          intro v hv
          by_cases hvw : v = w
          · subst hvw
            simp at hv
          · simpa [hvw] using hv
        · refine filterNone_le _ _ _ ?_
          intro v hv
          by_cases hvw : v = w
          · subst hvw
            rw [hdw] at hv
            simp at hv
          · simpa [hvw] using hv
      · unfold distMeasure sumDist
        refine List.sum_lt_sum _ _ ?_ ⟨w, hw, ?_⟩
        · intro v hv
          by_cases hvw : v = w
          · subst hvw
            simp [hdw]
            omega
          · simp [hvw]
        · simp [hdw]
          omega
  · left
    rw [Option.some.injEq] at h
    exact h.symm

theorem relaxAll_measure {graph : Graph} {d : ℕ} {u : String} :
    ∀ {ws : List String} {st st' : DijkstraState},
      relaxAll graph d u ws st = some st' →
      st' = st ∨ MeasureLt (distMeasure graph st'.dist) (distMeasure graph st.dist)
  | [], st, st', h => by
    unfold relaxAll at h
    rw [Option.some.injEq] at h
    exact Or.inl h.symm
  | w :: ws, st, st', h => by
    unfold relaxAll at h
    cases hrn : relaxNeighbor graph d u st w with
    | none => rw [hrn] at h; exact absurd h (by simp)
    | some st1 =>
      rw [hrn] at h
      rcases relaxAll_measure h with heq | hlt
      · subst heq
        exact relaxNeighbor_measure hrn
      · rcases relaxNeighbor_measure hrn with heq1 | hlt1
        · subst heq1
          exact Or.inr hlt
        · exact Or.inr (MeasureLt_trans hlt hlt1)

/-- The `while priority_queue` main loop of `find_intersystem_path`.  One
iteration pops the minimal `(distance, node)` entry; `distances[current_node]`
raises `KeyError` (result `none`) if the popped node is not a key; a stale
entry is skipped; reaching `end_node` reconstructs the path through the
predecessor chain; otherwise every listed neighbour is relaxed (which itself
crashes on a neighbour that is not a key) and the loop continues. -/
def dijkstraLoop (graph : Graph) (end_node : String) (st : DijkstraState) :
    Option (Option (List String)) :=
  match hpop : popMin st.pq with
  | none => some none
  | some ((d, u), rest) =>
    if (dictLookup graph u).isNone then none
    else if gtDist d (st.dist u) then
      dijkstraLoop graph end_node ⟨st.dist, st.pred, rest⟩
    else if u = end_node then
      some (some (reconstructPath st.pred (graph.length + d) u))
    else
      match dictLookup graph u with
      | none => dijkstraLoop graph end_node ⟨st.dist, st.pred, rest⟩
      | some ns =>
        match hra : relaxAll graph d u ns ⟨st.dist, st.pred, rest⟩ with
        | none => none
        | some st' => dijkstraLoop graph end_node st'
termination_by (noneCount graph st.dist, sumDist graph st.dist, st.pq.length)
decreasing_by
  · have := popMin_length hpop
    exact Prod.Lex.right _ (Prod.Lex.right _ (by omega))
  · have := popMin_length hpop
    exact Prod.Lex.right _ (Prod.Lex.right _ (by omega))
  · rcases relaxAll_measure hra with heq | hlt
    · subst heq
      have := popMin_length hpop
      exact Prod.Lex.right _ (Prod.Lex.right _ (by dsimp only; omega))
    · rcases hlt with hlt | ⟨heq, hlt⟩
      · exact Prod.Lex.left _ _ hlt
      · rw [show (noneCount graph st'.dist) = noneCount graph st.dist from heq]
        exact Prod.Lex.right _ (Prod.Lex.left _ _ hlt)

/-- `find_intersystem_path(graph, start_node, end_node)`.  The outer `Option`
layer records abnormal termination (`none` = an uncaught `KeyError`), the
inner one is the function's own `Optional[Path]` result. -/
def find_intersystem_path (graph : Graph) (start_node end_node : String) :
    Option (Option (List String)) :=
  if (dictLookup graph start_node).isNone ∨ (dictLookup graph end_node).isNone then
    some none
  else if start_node = end_node then
    some (some [start_node])
  else
    dijkstraLoop graph end_node
      { dist := fun v => if v = start_node then some 0 else none,
        pred := fun _ => none,
        pq := [(0, start_node)] }


/-! ### Walks, shortest walks, and the Dijkstra loop invariant -/

/-- `n` is the least number of hops of any walk from `s` to `v`. -/
def MinWalk (g : Graph) (s v : String) (n : ℕ) : Prop :=
  IsWalk g s v n ∧ ∀ k, IsWalk g s v k → n ≤ k

theorem walk_zero {g : Graph} {a b : String} (h : IsWalk g a b 0) : a = b := by
  cases h
  rfl

theorem walk_snoc {g : Graph} :
    ∀ {k : ℕ} {a b : String}, IsWalk g a b (k + 1) →
      ∃ w, IsWalk g a w k ∧ Edge g w b
  | 0, a, b, h => by
    cases h with
    | step he hw =>
      have := walk_zero hw
      subst this
      exact ⟨a, IsWalk.refl a, he⟩
  | k + 1, a, b, h => by
    cases h with
    | step he hw =>
      obtain ⟨w', hw', he'⟩ := walk_snoc hw
      exact ⟨w', IsWalk.step he hw', he'⟩

theorem walk_push {g : Graph} {s u : String} {k : ℕ} (h : IsWalk g s u k) :
    ∀ {w : String}, Edge g u w → IsWalk g s w (k + 1) := by
  induction h with
  | refl v => exact fun he => IsWalk.step he (IsWalk.refl _)
  | step he _ ih => exact fun he' => IsWalk.step he (ih he')

theorem chain_to_walk {g : Graph} :
    ∀ (l : List String) {a b : String}, List.Chain' (Edge g) l →
      l.head? = some a → l.getLast? = some b → IsWalk g a b (l.length - 1)
  | [], a, b, _, hh, _ => by simp at hh
  | [x], a, b, _, hh, hl => by
    simp at hh hl
    subst hh
    subst hl
    exact IsWalk.refl _
  | x :: y :: tl, a, b, hc, hh, hl => by
    simp only [List.head?_cons, Option.some.injEq] at hh
    subst hh
    rw [List.chain'_cons] at hc
    have hl' : (y :: tl).getLast? = some b := by
      rw [List.getLast?_cons_cons] at hl
      exact hl
    have ih := chain_to_walk (y :: tl) (a := y) hc.2 (by simp) hl'
    have hstep := IsWalk.step hc.1 ih
    simpa using hstep

/-- `u` has been relaxed: every one of its listed neighbours has a finite
tentative distance at most one more than `u`'s. -/
def Relaxed (g : Graph) (st : DijkstraState) (u : String) : Prop :=
  ∀ ns, dictLookup g u = some ns → ∀ w ∈ ns,
    ∃ nu m, st.dist u = some nu ∧ st.dist w = some m ∧ m ≤ nu + 1

/-- The part of the Dijkstra loop invariant that is preserved by every single
relaxation step, relative to the ghost list `P` of settled nodes. -/
structure InvNR (g : Graph) (s : String) (P : List String)
    (st : DijkstraState) : Prop where
  start0 : st.dist s = some 0
  startpred : st.pred s = none
  dist_sound : ∀ v n, st.dist v = some n → IsWalk g s v n
  dist_key : ∀ v n, st.dist v = some n → (dictLookup g v).isSome = true
  dist_zero : ∀ v, st.dist v = some 0 → v = s
  pq_sound : ∀ p ∈ st.pq, IsWalk g s p.2 p.1 ∧ (dictLookup g p.2).isSome = true
  pq_dist : ∀ p ∈ st.pq, ∃ n, st.dist p.2 = some n ∧ n ≤ p.1
  entry : ∀ v n, st.dist v = some n → v ∈ P ∨ (n, v) ∈ st.pq
  proc_min : ∀ u ∈ P, ∃ n, st.dist u = some n ∧ MinWalk g s u n
  pred_sound : ∀ v p, st.pred v = some p → Edge g p v ∧
    ∃ n m, st.dist v = some n ∧ st.dist p = some m ∧ m + 1 ≤ n
  pred_dist : ∀ v n, st.dist v = some n → v ≠ s → ∃ p, st.pred v = some p

/-- The full loop invariant: additionally, every settled node is relaxed. -/
structure Inv (g : Graph) (s : String) (P : List String)
    (st : DijkstraState) : Prop where
  core : InvNR g s P st
  relaxed : ∀ u ∈ P, Relaxed g st u

theorem init_Inv (g : Graph) (s : String) (hs : (dictLookup g s).isSome = true) :
    Inv g s [] { dist := fun v => if v = s then some 0 else none,
                 pred := fun _ => none, pq := [(0, s)] } := by
  refine ⟨?_, by intro u hu; simp at hu⟩
  constructor
  case start0 => simp
  case startpred => rfl
  case dist_sound =>
    intro v n hv
    dsimp at hv
    by_cases hvs : v = s
    · subst hvs
      simp at hv
      subst hv
      exact IsWalk.refl v
    · simp [hvs] at hv
  case dist_key =>
    intro v n hv
    dsimp at hv
    by_cases hvs : v = s
    · subst hvs
      exact hs
    · simp [hvs] at hv
  case dist_zero =>
    intro v hv
    dsimp at hv
    by_cases hvs : v = s
    · exact hvs
    · simp [hvs] at hv
  case pq_sound =>
    intro p hp
    simp only [List.mem_singleton] at hp
    subst hp
    exact ⟨IsWalk.refl s, hs⟩
  case pq_dist =>
    intro p hp
    simp only [List.mem_singleton] at hp
    subst hp
    exact ⟨0, by simp, le_refl 0⟩
  case entry =>
    intro v n hv
    dsimp at hv
    by_cases hvs : v = s
    · subst hvs
      simp at hv
      subst hv
      simp
    · simp [hvs] at hv
  case proc_min => intro u hu; simp at hu
  case pred_sound => intro v p hp; simp at hp
  case pred_dist =>
    intro v n hv hvs
    dsimp at hv
    simp [hvs] at hv


theorem dictLookup_mem {α : Type} {d : List (String × α)} {k : String} {v : α}
    (h : dictLookup d k = some v) : (k, v) ∈ d := by
  induction d with
  | nil => simp [dictLookup] at h
  | cons kv tl ih =>
    obtain ⟨k', v'⟩ := kv
    unfold dictLookup at h
    by_cases hk : k' = k
    · subst hk
      rw [if_pos rfl, Option.some.injEq] at h
      subst h
      exact List.mem_cons_self _ _
    · rw [if_neg hk] at h
      exact List.mem_cons_of_mem _ (ih h)

theorem relax_step {g : Graph} {s : String} {Q : List String} {d : ℕ}
    {u w : String} {st : DijkstraState} (hInv : InvNR g s Q st)
    (hedge : Edge g u w) (hkey : (dictLookup g w).isSome = true)
    (hud : st.dist u = some d) :
    ∃ st', relaxNeighbor g d u st w = some st' ∧ InvNR g s Q st' ∧
      st'.dist u = some d ∧ (∃ m, st'.dist w = some m ∧ m ≤ d + 1) ∧
      (∀ v n, st.dist v = some n → ∃ m, st'.dist v = some m ∧ m ≤ n) := by
  by_cases hlt : ltDist (d + 1) (st.dist w) = true
  case neg =>
    have hfalse : ltDist (d + 1) (st.dist w) = false := Bool.eq_false_iff.mpr hlt
    obtain ⟨m, hm⟩ : ∃ m, st.dist w = some m := by
      cases hdw : st.dist w with
      | none => rw [hdw] at hfalse; simp [ltDist] at hfalse
      | some m => exact ⟨m, rfl⟩
    have hmle : m ≤ d + 1 := by
      rw [hm] at hfalse
      simp [ltDist] at hfalse
      omega
    refine ⟨st, ?_, hInv, hud, ⟨m, hm, hmle⟩, fun v n h => ⟨n, h, le_refl n⟩⟩
    unfold relaxNeighbor
    rw [if_pos hkey, if_neg hlt]
  case pos =>
    have hwu : w ≠ u := by
      intro h
      subst h
      rw [hud] at hlt
      simp [ltDist] at hlt
    have hws2 : w ≠ s := by
      intro h
      subst h
      rw [hInv.start0] at hlt
      simp [ltDist] at hlt
    have hsw : ¬ s = w := fun h => hws2 h.symm
    have huw : ¬ u = w := fun h => hwu h.symm
    have hwalkw : IsWalk g s w (d + 1) := walk_push (hInv.dist_sound u d hud) hedge
    refine ⟨⟨fun v => if v = w then some (d + 1) else st.dist v,
             fun v => if v = w then some u else st.pred v,
             (d + 1, w) :: st.pq⟩, ?_, ?_, ?_, ?_, ?_⟩
    · unfold relaxNeighbor
      rw [if_pos hkey, if_pos hlt]
    · constructor
      case start0 =>
        dsimp only
        rw [if_neg hsw]
        exact hInv.start0
      case startpred =>
        dsimp only
        rw [if_neg hsw]
        exact hInv.startpred
      case dist_sound =>
        intro v n
        dsimp only
        by_cases hvw : v = w
        · subst hvw
          rw [if_pos rfl]
          intro h
          injection h with h
          subst h
          exact hwalkw
        · rw [if_neg hvw]
          exact hInv.dist_sound v n
      case dist_key =>
        intro v n
        dsimp only
        by_cases hvw : v = w
        · subst hvw
          intro _
          exact hkey
        · rw [if_neg hvw]
          exact hInv.dist_key v n
      case dist_zero =>
        intro v
        dsimp only
        by_cases hvw : v = w
        · subst hvw
          rw [if_pos rfl]
          intro h
          injection h with h
          omega
        · rw [if_neg hvw]
          exact hInv.dist_zero v
      case pq_sound =>
        intro p hp
        dsimp only at hp
        rcases List.mem_cons.mp hp with h | h
        · subst h
          exact ⟨hwalkw, hkey⟩
        · exact hInv.pq_sound p h
      case pq_dist =>
        intro p hp
        dsimp only at hp ⊢
        rcases List.mem_cons.mp hp with h | h
        · subst h
          exact ⟨d + 1, by rw [if_pos rfl], le_refl _⟩
        · obtain ⟨n, hn, hnle⟩ := hInv.pq_dist p h
          by_cases hpw : p.2 = w
          · have hlt' : d + 1 < n := by
              rw [hpw] at hn
              rw [hn] at hlt
              simpa [ltDist] using hlt
            exact ⟨d + 1, by rw [if_pos hpw], by omega⟩
          · exact ⟨n, by rw [if_neg hpw]; exact hn, hnle⟩
      case entry =>
        intro v n
        dsimp only
        by_cases hvw : v = w
        · subst hvw
          rw [if_pos rfl]
          intro h
          injection h with h
          subst h
          exact Or.inr (List.mem_cons_self _ _)
        · rw [if_neg hvw]
          intro h
          rcases hInv.entry v n h with hP | hq
          · exact Or.inl hP
          · exact Or.inr (List.mem_cons_of_mem _ hq)
      case proc_min =>
        intro u' hu'
        obtain ⟨n, hn, hmin'⟩ := hInv.proc_min u' hu'
        have hu'w : u' ≠ w := by
          intro h
          subst h
          rw [hn] at hlt
          simp [ltDist] at hlt
          have := hmin'.2 _ hwalkw
          omega
        exact ⟨n, by dsimp only; rw [if_neg hu'w]; exact hn, hmin'⟩
      case pred_sound =>
        intro v p
        dsimp only
        by_cases hvw : v = w
        · subst hvw
          rw [if_pos rfl, if_pos rfl]
          intro h
          injection h with h
          subst h
          exact ⟨hedge, d + 1, d, rfl, by rw [if_neg huw]; exact hud, le_refl _⟩
        · rw [if_neg hvw, if_neg hvw]
          intro h
          obtain ⟨he, n, m, hn, hm, hle⟩ := hInv.pred_sound v p h
          refine ⟨he, n, ?_⟩
          by_cases hpw : p = w
          · subst hpw
            have hlt' : d + 1 < m := by
              rw [hm] at hlt
              simpa [ltDist] using hlt
            exact ⟨d + 1, hn, by rw [if_pos rfl], by omega⟩
          · exact ⟨m, hn, by rw [if_neg hpw]; exact hm, hle⟩
      case pred_dist =>
        intro v n
        dsimp only
        by_cases hvw : v = w
        · subst hvw
          intro _ _
          exact ⟨u, by rw [if_pos rfl]⟩
        · rw [if_neg hvw, if_neg hvw]
          exact hInv.pred_dist v n
    · dsimp only
      rw [if_neg huw]
      exact hud
    · exact ⟨d + 1, by dsimp only; rw [if_pos rfl], le_refl _⟩
    · intro v n h
      dsimp only
      by_cases hvw : v = w
      · subst hvw
        have hlt' : d + 1 < n := by
          rw [h] at hlt
          simpa [ltDist] using hlt
        exact ⟨d + 1, by rw [if_pos rfl], by omega⟩
      · exact ⟨n, by rw [if_neg hvw]; exact h, le_refl n⟩

theorem relaxAll_invariant {g : Graph} {s : String} {Q : List String} {d : ℕ}
    {u : String} :
    ∀ (ws : List String) (st : DijkstraState), InvNR g s Q st →
      (∀ w ∈ ws, Edge g u w) → (∀ w ∈ ws, (dictLookup g w).isSome = true) →
      st.dist u = some d →
      ∃ st', relaxAll g d u ws st = some st' ∧ InvNR g s Q st' ∧
        st'.dist u = some d ∧
        (∀ w ∈ ws, ∃ m, st'.dist w = some m ∧ m ≤ d + 1) ∧
        (∀ v n, st.dist v = some n → ∃ m, st'.dist v = some m ∧ m ≤ n)
  | [], st, hInv, _, _, hud =>
    ⟨st, rfl, hInv, hud, by simp, fun v n h => ⟨n, h, le_refl n⟩⟩
  | w :: ws, st, hInv, hws, hkeys, hud => by
    obtain ⟨st1, hrn, hInv1, hud1, ⟨m, hm, hmle⟩, hanti1⟩ :=
      relax_step hInv (hws w (by simp)) (hkeys w (by simp)) hud
    obtain ⟨st', hra, hInv', hud', hbound, hanti⟩ :=
      relaxAll_invariant ws st1 hInv1
        (fun w' hw' => hws w' (List.mem_cons_of_mem _ hw'))
        (fun w' hw' => hkeys w' (List.mem_cons_of_mem _ hw')) hud1
    refine ⟨st', ?_, hInv', hud', ?_, ?_⟩
    · unfold relaxAll
      rw [hrn]
      exact hra
    · intro w' hw'
      rcases List.mem_cons.mp hw' with h | h
      · subst h
        obtain ⟨m', hm', hle'⟩ := hanti w' m hm
        exact ⟨m', hm', le_trans hle' hmle⟩
      · exact hbound w' h
    · intro v n hv
      obtain ⟨m1, hm1, h1⟩ := hanti1 v n hv
      obtain ⟨m2, hm2, h2⟩ := hanti v m1 hm1
      exact ⟨m2, hm2, le_trans h2 h1⟩


theorem stale_Inv {g : Graph} {s : String} {P : List String}
    {st : DijkstraState} {d : ℕ} {u : String} {rest : List (ℕ × String)}
    (hInv : Inv g s P st) (hpop : popMin st.pq = some ((d, u), rest))
    (hstale : gtDist d (st.dist u) = true) :
    Inv g s P ⟨st.dist, st.pred, rest⟩ := by
  obtain ⟨hmem, hperm, hminq⟩ := popMin_spec hpop
  have hrest : ∀ p, p ∈ rest → p ∈ st.pq := fun p hp =>
    hperm.mem_iff.mpr (List.mem_cons_of_mem _ hp)
  have hsplit : ∀ p, p ∈ st.pq → p = (d, u) ∨ p ∈ rest := fun p hp =>
    List.mem_cons.mp (hperm.mem_iff.mp hp)
  refine ⟨?_, fun u' hu' => hInv.relaxed u' hu'⟩
  constructor
  case start0 => exact hInv.core.start0
  case startpred => exact hInv.core.startpred
  case dist_sound => exact hInv.core.dist_sound
  case dist_key => exact hInv.core.dist_key
  case dist_zero => exact hInv.core.dist_zero
  case pq_sound => exact fun p hp => hInv.core.pq_sound p (hrest p hp)
  case pq_dist => exact fun p hp => hInv.core.pq_dist p (hrest p hp)
  case entry =>
    intro v n hv
    rcases hInv.core.entry v n hv with hP | hq
    · exact Or.inl hP
    · rcases hsplit _ hq with heq | hq'
      · rw [Prod.mk.injEq] at heq
        obtain ⟨hnd, hvu⟩ := heq
        subst hnd
        subst hvu
        rw [hv] at hstale
        simp [gtDist] at hstale
      · exact Or.inr hq'
  case proc_min => exact hInv.core.proc_min
  case pred_sound => exact hInv.core.pred_sound
  case pred_dist => exact hInv.core.pred_dist

theorem settle_InvNR {g : Graph} {s : String} {P : List String}
    {st : DijkstraState} {d : ℕ} {u : String} {rest : List (ℕ × String)}
    (hInv : Inv g s P st) (hpop : popMin st.pq = some ((d, u), rest))
    (hdu : st.dist u = some d) (hmin : MinWalk g s u d) :
    InvNR g s (u :: P) ⟨st.dist, st.pred, rest⟩ := by
  obtain ⟨hmem, hperm, hminq⟩ := popMin_spec hpop
  have hrest : ∀ p, p ∈ rest → p ∈ st.pq := fun p hp =>
    hperm.mem_iff.mpr (List.mem_cons_of_mem _ hp)
  have hsplit : ∀ p, p ∈ st.pq → p = (d, u) ∨ p ∈ rest := fun p hp =>
    List.mem_cons.mp (hperm.mem_iff.mp hp)
  constructor
  case start0 => exact hInv.core.start0
  case startpred => exact hInv.core.startpred
  case dist_sound => exact hInv.core.dist_sound
  case dist_key => exact hInv.core.dist_key
  case dist_zero => exact hInv.core.dist_zero
  case pq_sound => exact fun p hp => hInv.core.pq_sound p (hrest p hp)
  case pq_dist => exact fun p hp => hInv.core.pq_dist p (hrest p hp)
  case entry =>
    intro v n hv
    rcases hInv.core.entry v n hv with hP | hq
    · exact Or.inl (List.mem_cons_of_mem _ hP)
    · rcases hsplit _ hq with heq | hq'
      · rw [Prod.mk.injEq] at heq
        exact Or.inl (by rw [heq.2]; exact List.mem_cons_self _ _)
      · exact Or.inr hq'
  case proc_min =>
    intro u' hu'
    rcases List.mem_cons.mp hu' with h | h
    · subst h
      exact ⟨d, hdu, hmin⟩
    · exact hInv.core.proc_min u' h
  case pred_sound => exact hInv.core.pred_sound
  case pred_dist => exact hInv.core.pred_dist

theorem walk_bound {g : Graph} {s : String} {P : List String}
    {st : DijkstraState} (hInv : Inv g s P st) (d : ℕ)
    (hminq : ∀ q ∈ st.pq, d ≤ q.1) :
    ∀ (k : ℕ) (v : String), IsWalk g s v k →
      d ≤ k ∨ (v ∈ P ∧ ∃ n, st.dist v = some n ∧ n ≤ k)
  | 0, v, hw => by
    have hvs := walk_zero hw
    subst hvs
    rcases hInv.core.entry s 0 hInv.core.start0 with hP | hq
    · exact Or.inr ⟨hP, 0, hInv.core.start0, le_refl 0⟩
    · exact Or.inl (hminq _ hq)
  | k + 1, v, hw => by
    obtain ⟨w, hw', hedge⟩ := walk_snoc hw
    rcases walk_bound hInv d hminq k w hw' with h | ⟨hwP, n, hn, hnk⟩
    · exact Or.inl (by omega)
    · obtain ⟨ns, hns, hvns⟩ := hedge
      obtain ⟨nu, m, hnu, hm, hle⟩ := hInv.relaxed w hwP ns hns v hvns
      have hnun : nu = n := by
        rw [hnu] at hn
        injection hn
      subst hnun
      rcases hInv.core.entry v m hm with hvP | hq
      · exact Or.inr ⟨hvP, m, hm, by omega⟩
      · have := hminq _ hq
        exact Or.inl (by simp at this; omega)

theorem popmin_minwalk {g : Graph} {s : String} {P : List String}
    {st : DijkstraState} {d : ℕ} {u : String} {rest : List (ℕ × String)}
    (hInv : Inv g s P st) (hpop : popMin st.pq = some ((d, u), rest))
    (hdu : st.dist u = some d) : MinWalk g s u d := by
  obtain ⟨hmem, hperm, hminq⟩ := popMin_spec hpop
  refine ⟨(hInv.core.pq_sound _ hmem).1, ?_⟩
  intro k hk
  rcases walk_bound hInv d hminq k u hk with h | ⟨-, n, hn, hnk⟩
  · exact h
  · rw [hdu] at hn
    injection hn with hn
    omega

theorem walk_proc_of_empty {g : Graph} {s : String} {P : List String}
    {st : DijkstraState} (hInv : Inv g s P st) (hpq : st.pq = []) :
    ∀ (k : ℕ) (v : String), IsWalk g s v k → v ∈ P
  | 0, v, hw => by
    have hvs := walk_zero hw
    subst hvs
    rcases hInv.core.entry s 0 hInv.core.start0 with hP | hq
    · exact hP
    · rw [hpq] at hq
      simp at hq
  | k + 1, v, hw => by
    obtain ⟨w, hw', hedge⟩ := walk_snoc hw
    have hwP := walk_proc_of_empty hInv hpq k w hw'
    obtain ⟨ns, hns, hvns⟩ := hedge
    obtain ⟨nu, m, hnu, hm, hle⟩ := hInv.relaxed w hwP ns hns v hvns
    rcases hInv.core.entry v m hm with hvP | hq
    · exact hvP
    · rw [hpq] at hq
      simp at hq

theorem dist_min_stable {g : Graph} {s : String} {stA stB : DijkstraState}
    (hanti : ∀ v n, stA.dist v = some n → ∃ m, stB.dist v = some m ∧ m ≤ n)
    (hsound : ∀ v n, stB.dist v = some n → IsWalk g s v n)
    {v : String} {n : ℕ} (hv : stA.dist v = some n) (hmin : MinWalk g s v n) :
    stB.dist v = some n := by
  obtain ⟨m, hm, hle⟩ := hanti v n hv
  have := hmin.2 m (hsound v m hm)
  have hmn : m = n := by omega
  rw [hmn] at hm
  exact hm

theorem relaxed_stable {g : Graph} {s : String} {stA stB : DijkstraState}
    (hanti : ∀ v n, stA.dist v = some n → ∃ m, stB.dist v = some m ∧ m ≤ n)
    (hsound : ∀ v n, stB.dist v = some n → IsWalk g s v n)
    {v : String} (hmin : ∃ n, stA.dist v = some n ∧ MinWalk g s v n)
    (hrel : Relaxed g stA v) : Relaxed g stB v := by
  obtain ⟨n, hn, hminw⟩ := hmin
  intro ns hns w hw
  obtain ⟨nu, m, hnu, hm, hle⟩ := hrel ns hns w hw
  have hnun : nu = n := by
    rw [hnu] at hn
    injection hn
  subst hnun
  obtain ⟨m', hm', hle'⟩ := hanti w m hm
  exact ⟨nu, m', dist_min_stable hanti hsound hnu hminw, hm', by omega⟩


theorem recon_spec {g : Graph} {s : String} {P : List String}
    {st : DijkstraState} (hInv : InvNR g s P st) :
    ∀ (fuel : ℕ) (v : String) (n : ℕ), st.dist v = some n → n ≤ fuel →
      (reconstructPath st.pred fuel v).head? = some s ∧
      (reconstructPath st.pred fuel v).getLast? = some v ∧
      List.Chain' (Edge g) (reconstructPath st.pred fuel v) ∧
      (reconstructPath st.pred fuel v).length ≤ n + 1
  | 0, v, n, hv, hle => by
    have hn0 : n = 0 := by omega
    subst hn0
    have hvs : v = s := hInv.dist_zero v hv
    subst hvs
    exact ⟨rfl, rfl, List.chain'_singleton v, by simp [reconstructPath]⟩
  | fuel + 1, v, n, hv, hle => by
    have hunf : reconstructPath st.pred (fuel + 1) v =
        match st.pred v with
        | none => [v]
        | some p => reconstructPath st.pred fuel p ++ [v] := rfl
    cases hp : st.pred v with
    | none =>
      have hvs : v = s := by
        by_contra hvs
        obtain ⟨p, hp'⟩ := hInv.pred_dist v n hv hvs
        rw [hp] at hp'
        exact absurd hp' (by simp)
      subst hvs
      rw [hunf, hp]
      exact ⟨rfl, rfl, List.chain'_singleton v, by simp⟩
    | some p =>
      obtain ⟨hedge, n', m, hn', hm, hlt⟩ := hInv.pred_sound v p hp
      have hnn : n' = n := by
        rw [hv] at hn'
        injection hn' with h
        exact h.symm
      subst hnn
      obtain ⟨ihh, ihl, ihc, ihlen⟩ := recon_spec hInv fuel p m hm (by omega)
      rw [hunf, hp]
      have hne : reconstructPath st.pred fuel p ≠ [] := by
        intro h
        rw [h] at ihh
        exact absurd ihh (by simp)
      refine ⟨?_, ?_, ?_, ?_⟩
      · rw [List.head?_append_of_ne_nil _ hne]
        exact ihh
      · rw [List.getLast?_append_cons]
        rfl
      · rw [List.chain'_append]
        refine ⟨ihc, List.chain'_singleton v, ?_⟩
        intro x hx y hy
        simp only [List.head?_cons, Option.mem_def, Option.some.injEq] at hy
        subst hy
        rw [ihl] at hx
        simp only [Option.mem_def, Option.some.injEq] at hx
        subst hx
        exact hedge
      · rw [List.length_append]
        simp only [List.length_singleton]
        omega

theorem process_Inv {g : Graph} {s : String} {P : List String}
    {st : DijkstraState} {d : ℕ} {u : String} {rest : List (ℕ × String)}
    {ns : List String} (hclosed : ClosedGraph g) (hInv : Inv g s P st)
    (hpop : popMin st.pq = some ((d, u), rest))
    (hstale : gtDist d (st.dist u) = false) (hns : dictLookup g u = some ns) :
    ∃ st', relaxAll g d u ns ⟨st.dist, st.pred, rest⟩ = some st' ∧
      Inv g s (u :: P) st' ∧ MinWalk g s u d ∧ st'.dist u = some d := by
  obtain ⟨hmem, hperm, hminq⟩ := popMin_spec hpop
  obtain ⟨n, hn, hnle⟩ := hInv.core.pq_dist _ hmem
  have hdn : d ≤ n := by
    rw [hn] at hstale
    simp [gtDist] at hstale
    omega
  have hdu : st.dist u = some d := by
    rw [hn]
    congr 1
    omega
  have hminw : MinWalk g s u d := popmin_minwalk hInv hpop hdu
  have hcore1 : InvNR g s (u :: P) ⟨st.dist, st.pred, rest⟩ :=
    settle_InvNR hInv hpop hdu hminw
  have hedges : ∀ w ∈ ns, Edge g u w := fun w hw => ⟨ns, hns, hw⟩
  have hkeys : ∀ w ∈ ns, (dictLookup g w).isSome = true := fun w hw =>
    hclosed (u, ns) (dictLookup_mem hns) w hw
  obtain ⟨st', hra, hInv', hud', hbound, hanti⟩ :=
    relaxAll_invariant ns ⟨st.dist, st.pred, rest⟩ hcore1 hedges hkeys hdu
  refine ⟨st', hra, ⟨hInv', ?_⟩, hminw, hud'⟩
  intro u' hu'
  rcases List.mem_cons.mp hu' with h | h
  · subst h
    intro ns' hns' w hw
    rw [hns] at hns'
    injection hns' with hns'
    subst hns'
    obtain ⟨m, hm, hmle⟩ := hbound w hw
    exact ⟨d, m, hud', hm, by omega⟩
  · obtain ⟨n', hn', hmin'⟩ := hInv.core.proc_min u' h
    exact relaxed_stable hanti hInv'.dist_sound ⟨n', hn', hmin'⟩
      (hInv.relaxed u' h)


/-- What a terminating, non-crashing run of the main loop must produce:
either a shortest start-to-end path, or the no-path answer together with the
fact that no walk reaches the end node. -/
def DijkstraSpec (g : Graph) (s e : String)
    (res : Option (Option (List String))) : Prop :=
  ∃ r, res = some r ∧
    ((∃ p, r = some p ∧ p.head? = some s ∧ p.getLast? = some e ∧
        List.Chain' (Edge g) p ∧ IsWalk g s e (p.length - 1) ∧
        ∀ k, IsWalk g s e k → p.length ≤ k + 1)
     ∨ (r = none ∧ ∀ k, ¬ IsWalk g s e k))

theorem dijkstraLoop_spec (g : Graph) (s e : String) (hclosed : ClosedGraph g)
    (st : DijkstraState) (P : List String) (hInv : Inv g s P st)
    (heP : e ∉ P) : DijkstraSpec g s e (dijkstraLoop g e st) := by
  rw [dijkstraLoop]
  split
  next hpop =>
    have hpq := popMin_none hpop
    refine ⟨none, rfl, Or.inr ⟨rfl, ?_⟩⟩
    intro k hk
    exact heP (walk_proc_of_empty hInv hpq k e hk)
  next d u rest hpop =>
    split_ifs with h1 h2 h3
    · exfalso
      obtain ⟨hmem, -, -⟩ := popMin_spec hpop
      have hk := (hInv.core.pq_sound _ hmem).2
      rw [Option.isNone_iff_eq_none] at h1
      rw [h1] at hk
      simp at hk
    · exact dijkstraLoop_spec g s e hclosed ⟨st.dist, st.pred, rest⟩ P
        (stale_Inv hInv hpop h2) heP
    · subst h3
      obtain ⟨hmem, hperm, hminq⟩ := popMin_spec hpop
      obtain ⟨n, hn, hnle⟩ := hInv.core.pq_dist _ hmem
      have hfalse : gtDist d (st.dist u) = false := Bool.eq_false_iff.mpr h2
      have hdn : d ≤ n := by
        rw [hn] at hfalse
        simp [gtDist] at hfalse
        omega
      have hdu : st.dist u = some d := by
        rw [hn]
        congr 1
        omega
      have hminw := popmin_minwalk hInv hpop hdu
      obtain ⟨hh, hl, hc, hlen⟩ :=
        recon_spec hInv.core (g.length + d) u d hdu (by omega)
      refine ⟨some (reconstructPath st.pred (g.length + d) u), rfl,
        Or.inl ⟨_, rfl, hh, hl, hc, chain_to_walk _ hc hh hl, ?_⟩⟩
      intro k hk
      have := hminw.2 k hk
      omega
    · split
      next hlook =>
        exfalso
        rw [hlook] at h1
        simp at h1
      next ns hlook =>
        split
        next hra =>
          exfalso
          obtain ⟨st', hra', -, -, -⟩ := process_Inv hclosed hInv hpop
            (Bool.eq_false_iff.mpr h2) hlook
          rw [hra] at hra'
          exact absurd hra' (by simp)
        next st' hra =>
          obtain ⟨st'', hra', hInv', hminw, hud''⟩ := process_Inv hclosed hInv
            hpop (Bool.eq_false_iff.mpr h2) hlook
          rw [hra] at hra'
          injection hra' with hra'
          subst hra'
          refine dijkstraLoop_spec g s e hclosed st' (u :: P) hInv' ?_
          intro hmem'
          rcases List.mem_cons.mp hmem' with h | h
          · exact h3 h.symm
          · exact heP h
termination_by (noneCount g st.dist, sumDist g st.dist, st.pq.length)
decreasing_by
  · rename_i heq1
    have := popMin_length heq1
    exact Prod.Lex.right _ (Prod.Lex.right _ (by omega))
  · rename_i p1 p2 p3 q1 q2 q3 s1 r1 r2 r3 t1 t2 t3 t4 t5 t6
    rcases relaxAll_measure r1 with heqA | hltA
    · subst heqA
      have := popMin_length p1
      exact Prod.Lex.right _ (Prod.Lex.right _ (by dsimp only; omega))
    · rcases hltA with hltA | ⟨heqA, hltA⟩
      · exact Prod.Lex.left _ _ hltA
      · rw [show (noneCount g s1.dist) = noneCount g st.dist from heqA]
        exact Prod.Lex.right _ (Prod.Lex.left _ _ hltA)


/-! ## Game-state model for the order system (unit_orders.py,
unit_components.py, galaxy.py, turn_processor.py)

Conventions, in addition to the header ones:
* every Python dictionary is an association list in insertion order, with
  `lookupKey` / `setKey` / `delKey` mirroring `d[k]` reads, `d[k] = v` writes
  and `del d[k]`;
* objects referenced through Python aliases (wormholes, units, celestial
  bodies, players) are stored once, keyed by their id, and every attribute
  read goes back through the store;
* the square-root-valued geometry helpers (`normalize`-based direction
  scaling, `random.uniform` angles) produce irrational numbers; their values
  are supplied by an explicit `Oracle` parameter, while every *comparison*
  of such a value the code performs is rendered exactly on squares. -/

/-- Association-list lookup (`d[k]` read / `k in d` test). -/
def lookupKey {κ α : Type} [DecidableEq κ] : List (κ × α) → κ → Option α
  | [], _ => none
  | (k, v) :: tl, key => if k = key then some v else lookupKey tl key

/-- Python `d[k] = v`: overwrite in place, or append a new binding. -/
def setKey {κ α : Type} [DecidableEq κ] : List (κ × α) → κ → α → List (κ × α)
  | [], key, v => [(key, v)]
  | (k, w) :: tl, key, v =>
    if k = key then (k, v) :: tl else (k, w) :: setKey tl key v

/-- Python `del d[k]` (first binding). -/
def delKey {κ α : Type} [DecidableEq κ] : List (κ × α) → κ → List (κ × α)
  | [], _ => []
  | (k, w) :: tl, key => if k = key then tl else (k, w) :: delKey tl key

/-- `distance(p, q) < c` exactly: the real distance is non-negative, so the
comparison holds iff `c` is positive and the squared distance is below `c²`. -/
def distance_lt (p q : Position) (c : ℚ) : Bool :=
  0 < c ∧ distance_sq p q < c ^ 2

/-- `distance(p, q) <= c` exactly. -/
def distance_le (p q : Position) (c : ℚ) : Bool :=
  0 ≤ c ∧ distance_sq p q ≤ c ^ 2

/-- Python `int(x)` on a float: truncation towards zero. -/
def pytrunc (x : ℚ) : ℤ := if x < 0 then ⌈x⌉ else ⌊x⌋

/-- `constants.SQRT3`: the exact rational value of the Python float literal
`1.7320508075688772` (the IEEE-754 double closest to √3). -/
def SQRT3 : ℚ := 3900231685776981 / 2251799813685248

/-- `hexgrid_utils.hex_to_pixel` with `HEX_SIZE = 25` and
`SYSTEM_CENTER_IN_PX = (640, 360)`. -/
def hex_to_pixel (q r : ℤ) : Position :=
  ⟨(pytrunc (25 * (SQRT3 * q + SQRT3 / 2 * r) + 640) : ℤ),
   (pytrunc (25 * (3 / 2 * r) + 360) : ℤ)⟩

/-- `Hex.boundary_circle`: every hex gets the same sector boundary, a circle
of logical radius `SECTOR_CIRCLE_RADIUS_LOGICAL = 1000` about the origin. -/
def hexBoundary : Circle := ⟨⟨0, 0⟩, 1000⟩

/-- `unit_orders.OrderStatus`. -/
inductive OrderStatus where
  | PENDING | IN_PROGRESS | COMPLETED | FAILED | CANCELLED
deriving DecidableEq, Repr

/-- `unit_orders.OrderType` (DEFEND and CONSTRUCT included for fidelity). -/
inductive OrderType where
  | REACH_WAYPOINT | MOVE | PATROL | ATTACK | DEFEND | TOGGLE_INHIBITOR
  | COLONIZE | LOAD_COLONISTS | CONSTRUCT
deriving DecidableEq, Repr

/-- The order-parameter dictionary, with one field per key the source reads.
Keys the game always stores together with the order type are `Option`-valued
(`none` both for an absent key and for a stored Python `None`, which the code
treats alike through its `is None` checks and `.get` accesses). -/
structure OrderParams where
  destination_system_name : Option String := none
  destination_hex_coord : Option HexCoord := none
  destination_position : Option Position := none
  turn_on : Bool := false
  target_unit_id : Option ℕ := none
  target_id : Option ℕ := none
  amount : Option ℤ := none
  unit_template_name : Option String := none
  target_position : Option Position := none
deriving DecidableEq, Repr

/-- `unit_orders.Order`: an order with its id, type, parameters, status and
sub-order deque (the `parent_order` back-pointer is implicit in the tree). -/
inductive Order where
  | mk : ℕ → OrderType → OrderParams → OrderStatus → List Order → Order
deriving Repr

def Order.order_id : Order → ℕ
  | .mk i _ _ _ _ => i

def Order.order_type : Order → OrderType
  | .mk _ ty _ _ _ => ty

def Order.parameters : Order → OrderParams
  | .mk _ _ ps _ _ => ps

def Order.status : Order → OrderStatus
  | .mk _ _ _ st _ => st

def Order.sub_orders : Order → List Order
  | .mk _ _ _ _ subs => subs

def Order.withStatus : Order → OrderStatus → Order
  | .mk i ty ps _ subs, st => .mk i ty ps st subs

def Order.withSubs : Order → List Order → Order
  | .mk i ty ps st _, subs => .mk i ty ps st subs

/-- `unit_components.JumpStatus`. -/
inductive JumpStatus where
  | CHARGING | READY | JUMPING | ERROR
deriving DecidableEq, Repr

/-- `unit_components.Engines`. -/
structure Engines where
  speed : ℚ
  move_target : Option Position
deriving DecidableEq, Repr

/-- `unit_components.Hyperdrive`; the wormhole jump target holds the id of the
targeted wormhole. -/
structure Hyperdrive where
  jump_range : ℤ
  hex_jump_target : Option (HexCoord × Position)
  wormhole_jump_target : Option ℕ
  jump_status : JumpStatus
  recharge_time_remaining : ℤ
  RECHARGE_DURATION : ℤ
deriving DecidableEq, Repr

/-- `Hyperdrive.start_recharge`. -/
def Hyperdrive.start_recharge (h : Hyperdrive) : Hyperdrive :=
  { h with jump_status := .CHARGING,
           recharge_time_remaining := h.RECHARGE_DURATION,
           hex_jump_target := none,
           wormhole_jump_target := none }

/-- `Hyperdrive.update_recharge`. -/
def Hyperdrive.update_recharge (h : Hyperdrive) : Hyperdrive :=
  if h.jump_status = .CHARGING ∧ h.recharge_time_remaining > 0 then
    let rem := h.recharge_time_remaining - 1
    if rem ≤ 0 then
      { h with jump_status := .READY, recharge_time_remaining := 0 }
    else { h with recharge_time_remaining := rem }
  else h

/-- `unit_components.HyperspaceInhibitionFieldEmitter`. -/
structure Inhibitor where
  radius : ℚ
  is_active : Bool
deriving DecidableEq, Repr

/-- `unit_components.Turret` (targets held by unit id). -/
structure Turret where
  damage : ℚ
  range : ℚ
  cooldown : ℤ
  current_cooldown : ℤ
  target : Option ℕ
deriving DecidableEq, Repr

/-- `unit_components.Weapons`. -/
structure Weapons where
  turrets : List Turret
deriving DecidableEq, Repr

/-- `unit_components.BuildableUnit`. -/
structure BuildableUnit where
  unit_template_name : String
  time_to_build : ℤ
  cost_credits : ℚ
deriving DecidableEq, Repr

/-- `unit_components.Constructor` (the construction-state part). -/
structure ConstructorComp where
  buildable_units : List BuildableUnit
  current_construction_target : Option (String × Position)
  construction_progress : ℤ
  time_to_build : ℤ
deriving DecidableEq, Repr

/-- `Constructor.can_build`. -/
def ConstructorComp.can_build (c : ConstructorComp) (nm : String) :
    Option BuildableUnit :=
  c.buildable_units.find? (fun bu => bu.unit_template_name = nm)

/-- `unit_components.Commander`. -/
structure Commander where
  current_order : Option Order
  orders_queue : List Order

/-- `entities.Unit`: the fields the modelled code paths read or write. -/
structure Unit where
  id : ℕ
  owner : ℕ
  in_system : String
  in_hex : HexCoord
  position : Position
  current_hit_points : ℤ
  max_hit_points : ℤ
  engines_component : Option Engines
  hyperdrive_component : Option Hyperdrive
  inhibitor_component : Option Inhibitor
  weapons_component : Option Weapons
  colony_component : Option ColonyComponent
  constructor_component : Option ConstructorComp
  commander_component : Commander

/-- `galaxy.Hex`: the mutable inhibition-zone state and the resident unit
ids (in list order, as the Python lists). -/
structure HexRec where
  static_inhibition_zones : List Circle
  dynamic_inhibition_zones : List (ℕ × Circle)
  units : List ℕ
deriving DecidableEq, Repr

/-- `Hex.get_all_inhibition_zones`: static zones followed by the dynamic
dictionary's values. -/
def HexRec.get_all_inhibition_zones (h : HexRec) : List Circle :=
  h.static_inhibition_zones ++ h.dynamic_inhibition_zones.map Prod.snd

/-- `galaxy.StarSystem`: its hex dictionary. -/
structure StarSystem where
  hexes : List (HexCoord × HexRec)

/-- `entities.Wormhole`: the fields the movement code reads. -/
structure WormholeRec where
  id : ℕ
  in_system : String
  in_hex : HexCoord
  position : Position
  exit_system_name : String
  exit_wormhole_id : Option ℕ
deriving DecidableEq, Repr

/-- `entities.Player`: the resource state the orders touch. -/
structure PlayerRec where
  id : ℕ
  credits : ℚ
deriving DecidableEq, Repr

/-- The mutable game state threaded through the embedded methods: the galaxy
(systems, wormholes, adjacency graph, celestial bodies), the unit store, the
players, the two global object counters, and the count of random draws made
so far (indexing the oracle's `random.uniform` stream). -/
structure GState where
  systems : List (String × StarSystem)
  wormholes : List (ℕ × WormholeRec)
  system_graph : Graph
  units : List (ℕ × Unit)
  bodies : List (ℕ × CelestialBody)
  players : List PlayerRec
  order_counter : ℕ
  object_counter : ℕ
  rng : ℕ

/-- The oracle supplying the irrational values of the geometry helpers: the
normalised-direction results of `get_closest_point_on_circle_edge`,
`geometry.move_towards_position` and `sector_utils.move_towards_position`
(for the branches whose values involve a square root), and the cosine/sine
of the `i`-th `random.uniform(0, 2π)` draw. -/
structure Oracle where
  closest_edge : Position → Circle → Position
  move_towards : Position → Position → ℚ → Position
  sublight_step : Position → Position → ℚ → Position
  rand_cos : ℕ → ℚ
  rand_sin : ℕ → ℚ

/-- `geometry.get_closest_point_on_circle_edge`: exact when the point is the
center (the code returns `center + (radius·1.0001, 0)`), oracle-valued
otherwise. -/
def get_closest_point_on_circle_edge (orc : Oracle) (point : Position)
    (circle : Circle) : Position :=
  if point = circle.center then
    ⟨circle.center.x + circle.radius * (10001 / 10000), circle.center.y⟩
  else orc.closest_edge point circle

/-- `geometry.move_towards_position` (used by ATTACK): exact in the
degenerate branch (`magnitude_sq < 1e-9`), oracle-valued otherwise. -/
def move_towards_position (orc : Oracle) (current_pos target_pos : Position)
    (d : ℚ) : Position :=
  if distance_sq current_pos target_pos < 1 / 1000000000 then
    ⟨target_pos.x + d, target_pos.y⟩
  else orc.move_towards current_pos target_pos d

/-- `sector_utils.move_towards_position` (the phase-1 sub-light step): the
`dist <= max_distance` branch is exact, the scaled step is oracle-valued. -/
def sector_move (orc : Oracle) (current target : Position) (max_d : ℚ) :
    Position :=
  if distance_le current target max_d then target
  else orc.sublight_step current target max_d

/-- State access helpers for the unit the order belongs to. -/
def GState.getUnit (st : GState) (uid : ℕ) : Option Unit :=
  lookupKey st.units uid

def GState.setUnit (st : GState) (uid : ℕ) (u : Unit) : GState :=
  { st with units := setKey st.units uid u }

def GState.setHex (st : GState) (sys : String) (hc : HexCoord) (h : HexRec) :
    GState :=
  match lookupKey st.systems sys with
  | none => st
  | some s =>
    { st with systems := setKey st.systems sys { hexes := setKey s.hexes hc h } }


/-- `Order.is_completed`: own status COMPLETED and all sub-orders completed. -/
def Order.is_completed : Order → Bool
  | .mk _ _ _ st subs =>
    st = OrderStatus.COMPLETED && subs.attach.all (fun s => s.1.is_completed)
decreasing_by
  simp only [Order.mk.sizeOf_spec]
  have := List.sizeOf_lt_of_mem s.2
  omega

/-- `Order.has_active_sub_orders`. -/
def Order.has_active_sub_orders : Order → Bool
  | .mk _ _ _ _ subs =>
    subs.attach.any (fun s =>
      (s.1.status = OrderStatus.IN_PROGRESS || s.1.status = OrderStatus.PENDING)
        || s.1.has_active_sub_orders)
decreasing_by
  simp only [Order.mk.sizeOf_spec]
  have := List.sizeOf_lt_of_mem s.2
  omega

/-- `Order.cancel`: cancel the order and, recursively, every sub-order. -/
def Order.cancel : Order → Order
  | .mk i ty ps _ subs => .mk i ty ps .CANCELLED (subs.attach.map (fun s => s.1.cancel))
decreasing_by
  simp only [Order.mk.sizeOf_spec]
  have := List.sizeOf_lt_of_mem s.2
  omega

/-- `Order.__init__` + `Order.add_sub_order`: append a freshly created
(PENDING, empty-queue) sub-order, consuming one order id. -/
def spawnSub (o : Order) (ty : OrderType) (ps : OrderParams) (st : GState) :
    Order × GState :=
  (o.withSubs (o.sub_orders ++ [Order.mk st.order_counter ty ps .PENDING []]),
   { st with order_counter := st.order_counter + 1 })

/-- The common `{"destination_system_name": ..., "destination_hex_coord": ...,
"destination_position": ...}` parameter dictionary. -/
def destParams (sys : String) (h : HexCoord) (p : Position) : OrderParams :=
  { destination_system_name := some sys,
    destination_hex_coord := some h,
    destination_position := some p }

/-- `Order.find_wormhole_to_system`: first wormhole (in dictionary order)
leaving `csys` for `dsys`. -/
def find_wormhole_to_system (st : GState) (csys dsys : String) :
    Option WormholeRec :=
  (st.wormholes.find? (fun kv =>
    kv.2.in_system = csys ∧ kv.2.exit_system_name = dsys)).map Prod.snd

def Unit.setEnginesTarget (u : Unit) (t : Option Position) : Unit :=
  { u with engines_component :=
      u.engines_component.map (fun e => { e with move_target := t }) }

def Unit.setHyper (u : Unit) (f : Hyperdrive → Hyperdrive) : Unit :=
  { u with hyperdrive_component := u.hyperdrive_component.map f }

/-- `Order._execute_reach_waypoint`; the three location cases configure the
hyperdrive or the engines, each time clearing the movement targets the case
does not use. -/
def _execute_reach_waypoint (uid : ℕ) (o : Order) (st : GState) :
    Option (Order × GState) :=
  match st.getUnit uid with
  | none => none
  | some u =>
    match o.parameters.destination_system_name,
        o.parameters.destination_hex_coord,
        o.parameters.destination_position with
    | some dsys, some dhex, some dpos =>
      if u.in_system = dsys ∧ u.in_hex ≠ dhex then
        match u.hyperdrive_component with
        | none => some (o.withStatus .FAILED, st)
        | some _ =>
          some (o, st.setUnit uid ((u.setHyper (fun h =>
            { h with hex_jump_target := some (dhex, dpos),
                     wormhole_jump_target := none })).setEnginesTarget none))
      else if u.in_system = dsys ∧ u.in_hex = dhex then
        match u.engines_component with
        | none => some (o.withStatus .FAILED, st)
        | some _ =>
          if distance_lt u.position dpos (1 / 100) then
            some (o.withStatus .COMPLETED, st.setUnit uid
              ((u.setEnginesTarget none).setHyper (fun h =>
                { h with hex_jump_target := none, wormhole_jump_target := none })))
          else
            some (o, st.setUnit uid
              ((u.setEnginesTarget (some dpos)).setHyper (fun h =>
                { h with hex_jump_target := none, wormhole_jump_target := none })))
      else
        match u.hyperdrive_component with
        | none => some (o.withStatus .FAILED, st)
        | some _ =>
          match find_wormhole_to_system st u.in_system dsys with
          | none => some (o.withStatus .FAILED, st)
          | some wh =>
            some (o, st.setUnit uid ((u.setHyper (fun h =>
              { h with wormhole_jump_target := some wh.id,
                       hex_jump_target := none })).setEnginesTarget none))
    | _, _, _ => some (o.withStatus .FAILED, st)

/-- `Order._execute_toggle_inhibitor`: single-call validation of the proposed
field against the hex boundary and the existing zones; direct dictionary
indexing of the unit's system and hex crashes (`none`) on an invalid
location. -/
def _execute_toggle_inhibitor (uid : ℕ) (o : Order) (st : GState) :
    Option (Order × GState) :=
  match st.getUnit uid with
  | none => none
  | some u =>
    match u.inhibitor_component with
    | none => some (o.withStatus .FAILED, st)
    | some inh =>
      match lookupKey st.systems u.in_system with
      | none => none
      | some sys =>
        match lookupKey sys.hexes u.in_hex with
        | none => none
        | some hexrec =>
          if o.parameters.turn_on then
            if ¬ is_circle_contained ⟨u.position, inh.radius⟩ hexBoundary then
              some (o.withStatus .FAILED, st)
            else if hexrec.get_all_inhibition_zones.any
                (fun z => do_circles_intersect ⟨u.position, inh.radius⟩ z) then
              some (o.withStatus .FAILED, st)
            else
              let u1 : Unit :=
                { u with inhibitor_component := some { inh with is_active := true } }
              let zones1 :=
                setKey hexrec.dynamic_inhibition_zones uid ⟨u.position, inh.radius⟩
              let hex1 : HexRec := { hexrec with dynamic_inhibition_zones := zones1 }
              some (o.withStatus .COMPLETED,
                (st.setUnit uid u1).setHex u.in_system u.in_hex hex1)
          else
            let zones1 := delKey hexrec.dynamic_inhibition_zones uid
            let hex1 : HexRec := { hexrec with dynamic_inhibition_zones := zones1 }
            let u1 : Unit :=
              { u with inhibitor_component := some { inh with is_active := false } }
            some (o.withStatus .COMPLETED,
              (st.setHex u.in_system u.in_hex hex1).setUnit uid u1)

/-- `Order._execute_attack`: target the weapons, and if the target is not in
the same system, hex and range of some turret, spawn a MOVE sub-order towards
it (`min()` over an empty turret list is the `ValueError` crash `none`). -/
def _execute_attack (orc : Oracle) (uid : ℕ) (o : Order) (st : GState) :
    Option (Order × GState) :=
  match o.parameters.target_unit_id with
  | none => none
  | some tid =>
    match st.getUnit uid with
    | none => none
    | some u =>
      match lookupKey st.units tid with
      | none => some (o.withStatus .FAILED, st)
      | some target =>
        match u.weapons_component with
        | none => some (o, st)
        | some w =>
          let w1 : Weapons := ⟨w.turrets.map (fun t => { t with target := some tid })⟩
          let st1 := st.setUnit uid { u with weapons_component := some w1 }
          match w1.turrets.map (fun t => t.range) with
          | [] => none
          | r :: rs =>
            if ¬ (u.in_system = target.in_system ∧ u.in_hex = target.in_hex)
                ∨ ¬ w1.turrets.any (fun t =>
                      distance_lt u.position target.position t.range) then
              some (spawnSub o .MOVE
                (destParams target.in_system target.in_hex
                  (move_towards_position orc u.position target.position
                    (rs.foldl min r - 5))) st1)
            else some (o, st1)

/-- `Order._execute_colonize` (Python truthiness: a missing or zero target id
fails the order). -/
def _execute_colonize (uid : ℕ) (o : Order) (st : GState) :
    Option (Order × GState) :=
  match o.parameters.target_id with
  | none => some (o.withStatus .FAILED, st)
  | some tid =>
    if tid = 0 then some (o.withStatus .FAILED, st)
    else
      match lookupKey st.bodies tid with
      | none => some (o.withStatus .FAILED, st)
      | some target =>
        match st.getUnit uid with
        | none => none
        | some u =>
          match u.colony_component with
          | none => some (o.withStatus .FAILED, st)
          | some col =>
            if ¬ (u.in_system = target.in_system ∧ u.in_hex = target.in_hex) then
              if ¬ o.has_active_sub_orders then
                let s1 := spawnSub o .MOVE
                  (destParams target.in_system target.in_hex target.position) st
                some (spawnSub s1.1 .COLONIZE o.parameters s1.2)
              else some (o, st)
            else
              if col.population_cargo ≤ 0 then some (o.withStatus .FAILED, st)
              else
                let r := ColonyComponent.unload_population col u.owner target
                  col.population_cargo
                some (o.withStatus (if r.1 then .COMPLETED else .FAILED),
                  { st.setUnit uid { u with colony_component := some r.2.1 } with
                      bodies := setKey st.bodies tid r.2.2 })

/-- `Order._execute_load_colonists` (amount defaults to 50). -/
def _execute_load_colonists (uid : ℕ) (o : Order) (st : GState) :
    Option (Order × GState) :=
  match o.parameters.target_id with
  | none => some (o.withStatus .FAILED, st)
  | some tid =>
    if tid = 0 then some (o.withStatus .FAILED, st)
    else
      match lookupKey st.bodies tid with
      | none => some (o.withStatus .FAILED, st)
      | some target =>
        match st.getUnit uid with
        | none => none
        | some u =>
          match u.colony_component with
          | none => some (o.withStatus .FAILED, st)
          | some col =>
            if ¬ (u.in_system = target.in_system ∧ u.in_hex = target.in_hex) then
              if ¬ o.has_active_sub_orders then
                let s1 := spawnSub o .MOVE
                  (destParams target.in_system target.in_hex target.position) st
                some (spawnSub s1.1 .LOAD_COLONISTS
                  { target_id := some tid,
                    amount := some (o.parameters.amount.getD 50) } s1.2)
              else some (o, st)
            else
              let r := ColonyComponent.load_population col u.owner target
                (o.parameters.amount.getD 50)
              some (o.withStatus (if r.1 then .COMPLETED else .FAILED),
                { st.setUnit uid { u with colony_component := some r.2.1 } with
                    bodies := setKey st.bodies tid r.2.2 })

/-- `Constructor.start_construction`: re-validates buildability and the
owner's credits, deducting the cost on success (in addition to the deduction
`_execute_construct` itself already made). -/
def ConstructorComp.start_construction (con : ConstructorComp) (nm : String)
    (pos : Position) (ownerId : ℕ) (players : List PlayerRec) :
    ConstructorComp × List PlayerRec :=
  match con.can_build nm with
  | none => (con, players)
  | some bu =>
    match players.find? (fun p => p.id = ownerId) with
    | none => (con, players)
    | some owner =>
      if owner.credits < bu.cost_credits then (con, players)
      else
        ({ con with current_construction_target := some (nm, pos),
                    time_to_build := bu.time_to_build,
                    construction_progress := 0 },
         players.map (fun p => if p.id = ownerId then
           { p with credits := p.credits - bu.cost_credits } else p))

/-- `Order._execute_construct` (an empty template name is falsy in Python). -/
def _execute_construct (uid : ℕ) (o : Order) (st : GState) :
    Option (Order × GState) :=
  match st.getUnit uid with
  | none => none
  | some u =>
    match u.constructor_component with
    | none => some (o.withStatus .FAILED, st)
    | some con =>
      match o.parameters.unit_template_name, o.parameters.target_position with
      | some nm, some tp =>
        if nm = "" then some (o.withStatus .FAILED, st)
        else
          match con.can_build nm with
          | none => some (o.withStatus .FAILED, st)
          | some bu =>
            match st.players.find? (fun p => p.id = u.owner) with
            | none => some (o.withStatus .FAILED, st)
            | some player =>
              if player.credits < bu.cost_credits then
                some (o.withStatus .FAILED, st)
              else
                let players1 := st.players.map (fun p => if p.id = u.owner then
                  { p with credits := p.credits - bu.cost_credits } else p)
                let r := con.start_construction nm tp u.owner players1
                some (o.withStatus .COMPLETED,
                  { st.setUnit uid { u with constructor_component := some r.1 } with
                      players := r.2 })
      | _, _ => some (o.withStatus .FAILED, st)


/-- `Order.check_completion_conditions`: IN_PROGRESS guard, then per-type
arrival / target checks; REACH_WAYPOINT completion clears the unit's movement
targets.  The `distance(...)` call crashes (`none`) on a `None` destination
position (Python evaluates it only after the system and hex matched). -/
def check_completion_conditions (uid : ℕ) (o : Order) (st : GState) :
    Option (Order × GState) :=
  if o.status ≠ .IN_PROGRESS then some (o, st)
  else
    match o.order_type with
    | .MOVE =>
      match st.getUnit uid with
      | none => none
      | some u =>
        if o.sub_orders.isEmpty ∧
            o.parameters.destination_system_name = some u.in_system ∧
            o.parameters.destination_hex_coord = some u.in_hex then
          match o.parameters.destination_position with
          | none => none
          | some dpos =>
            if distance_lt u.position dpos (1 / 100) then
              some (o.withStatus .COMPLETED, st)
            else some (o, st)
        else some (o, st)
    | .TOGGLE_INHIBITOR => some (o, st)
    | .REACH_WAYPOINT =>
      match st.getUnit uid with
      | none => none
      | some u =>
        if o.parameters.destination_system_name = some u.in_system ∧
            o.parameters.destination_hex_coord = some u.in_hex then
          match o.parameters.destination_position with
          | none => none
          | some dpos =>
            if distance_lt u.position dpos (1 / 100) then
              some (o.withStatus .COMPLETED, st.setUnit uid
                ((u.setEnginesTarget none).setHyper (fun h =>
                  { h with hex_jump_target := none,
                           wormhole_jump_target := none })))
            else some (o, st)
        else some (o, st)
    | .PATROL => some (o, st)
    | .ATTACK =>
      match o.parameters.target_unit_id with
      | none => none
      | some tid =>
        match lookupKey st.units tid with
        | none => some (o.withStatus .COMPLETED, st)
        | some target =>
          if target.current_hit_points ≤ 0 then
            some (o.withStatus .COMPLETED, st)
          else some (o, st)
    | .COLONIZE =>
      match o.parameters.target_id with
      | none => none
      | some tid =>
        match st.getUnit uid with
        | none => none
        | some u =>
          match lookupKey st.bodies tid with
          | none => some (o, st)
          | some target =>
            if target.owner = some u.owner then
              some (o.withStatus .COMPLETED, st)
            else some (o, st)
    | .LOAD_COLONISTS =>
      if o.sub_orders.isEmpty then some (o.withStatus .COMPLETED, st)
      else some (o, st)
    | _ => some (o, st)

/-- `Order.handle_inhibited_waypoint`: spawn the REACH_WAYPOINT sub-order(s)
for a waypoint, diverting an inhibited landing point to the zone's edge (and
adding a final sub-light leg when the diverted point was the destination). -/
def handle_inhibited_waypoint (orc : Oracle) (target_hex : HexCoord)
    (target_pos : Position) (is_final : Bool) (system_name : String)
    (o : Order) (st : GState) : Option (Order × GState) :=
  match lookupKey st.systems system_name with
  | none => none
  | some sys =>
    match lookupKey sys.hexes target_hex with
    | none => some (o, st)
    | some hexrec =>
      match hexrec.get_all_inhibition_zones.find?
          (fun z => is_point_in_circle target_pos z) with
      | some zone =>
        let adjusted := get_closest_point_on_circle_edge orc target_pos zone
        let s1 := spawnSub o .REACH_WAYPOINT
          (destParams system_name target_hex adjusted) st
        if is_final then
          some (spawnSub s1.1 .REACH_WAYPOINT
            (destParams system_name target_hex target_pos) s1.2)
        else some s1
      | none =>
        some (spawnSub o .REACH_WAYPOINT
          (destParams system_name target_hex target_pos) st)

/-- The `for i, waypoint_hex in enumerate(waypoints)` loop of
`plan_hex_jump_sequence`: intermediate waypoints land at the hex center
pixel, the final one at `end_pos`. -/
def planWaypoints (orc : Oracle) (system_name : String) (end_pos : Position) :
    List HexCoord → Order → GState → Option (Order × GState)
  | [], o, st => some (o, st)
  | [w], o, st => handle_inhibited_waypoint orc w end_pos true system_name o st
  | w :: w' :: ws, o, st => do
    let s1 ← handle_inhibited_waypoint orc w (hex_to_pixel w.1 w.2) false
      system_name o st
    planWaypoints orc system_name end_pos (w' :: ws) s1.1 s1.2

/-- `Order.plan_hex_jump_sequence`. -/
def plan_hex_jump_sequence (orc : Oracle) (start_hex end_hex : HexCoord)
    (end_pos : Position) (system_name : String) (uid : ℕ) (o : Order)
    (st : GState) : Option (Order × GState) :=
  match st.getUnit uid with
  | none => none
  | some u =>
    match u.hyperdrive_component with
    | none => some (o.withStatus .FAILED, st)
    | some hd =>
      if hex_distance start_hex end_hex ≤ hd.jump_range then
        handle_inhibited_waypoint orc end_hex end_pos true system_name o st
      else
        planWaypoints orc system_name end_pos
          (find_hex_jump_path start_hex end_hex hd.jump_range) o st

/-- The per-leg loop of the pathfinding branch of `plan_route`; the returned
hex is `none` when the loop (and with it the whole `plan_route`) returned
early with a FAILED status. -/
def planLegs (orc : Oracle) (uid : ℕ) :
    List (String × String) → HexCoord → Order → GState →
      Option (Order × GState × Option HexCoord)
  | [], cur, o, st => some (o, st, some cur)
  | (a, b) :: rest, cur, o, st =>
    match find_wormhole_to_system st a b with
    | none => some (o.withStatus .FAILED, st, none)
    | some wh =>
      match wh.exit_wormhole_id with
      | none => none
      | some exid =>
        match lookupKey st.wormholes exid with
        | none => none
        | some exwh => do
          let s1 ←
            if cur ≠ wh.in_hex then
              plan_hex_jump_sequence orc cur wh.in_hex wh.position a uid o st
            else
              some (spawnSub o .REACH_WAYPOINT
                (destParams a wh.in_hex wh.position) st)
          let s2 := spawnSub s1.1 .REACH_WAYPOINT
            (destParams b exwh.in_hex exwh.position) s1.2
          match lookupKey s2.2.systems b with
          | none => none
          | some sysb =>
            match lookupKey sysb.hexes exwh.in_hex with
            | none => none
            | some hexb =>
              let s3 :=
                match hexb.get_all_inhibition_zones.find?
                    (fun z => is_point_in_circle exwh.position z) with
                | some zone =>
                  spawnSub s2.1 .REACH_WAYPOINT
                    (destParams b exwh.in_hex
                      ⟨exwh.position.x + (zone.radius + 1) * orc.rand_cos s2.2.rng,
                       exwh.position.y + (zone.radius + 1) * orc.rand_sin s2.2.rng⟩)
                    { s2.2 with rng := s2.2.rng + 1 }
                | none => s2
              planLegs orc uid rest exwh.in_hex s3.1 s3.2

/-- `Order.plan_route` (the body of a MOVE execution): plan escape from an
inhibited start, then the inter-system, inter-hex or sub-light legs. -/
def plan_route (orc : Oracle) (uid : ℕ) (o : Order) (st : GState) :
    Option (Order × GState) :=
  match st.getUnit uid with
  | none => some (o.withStatus .FAILED, st)
  | some u =>
    match o.parameters.destination_system_name,
        o.parameters.destination_hex_coord,
        o.parameters.destination_position with
    | some dsys, some dhex, some dpos =>
      if u.in_system = dsys ∧ u.in_hex = dhex ∧
          distance_lt u.position dpos (1 / 100) then
        some (o.withStatus .COMPLETED, st)
      else do
        let s1 ←
          if u.in_system ≠ dsys ∨ u.in_hex ≠ dhex then
            match lookupKey st.systems u.in_system with
            | none => none
            | some csysObj =>
              match lookupKey csysObj.hexes u.in_hex with
              | none => some (o, st)
              | some chex0 =>
                match chex0.get_all_inhibition_zones.find?
                    (fun z => is_point_in_circle u.position z) with
                | some zone =>
                  some (spawnSub o .REACH_WAYPOINT
                    (destParams u.in_system u.in_hex
                      (get_closest_point_on_circle_edge orc u.position zone)) st)
                | none => some (o, st)
          else some (o, st)
        if u.in_system ≠ dsys then
          match u.hyperdrive_component with
          | none => some (s1.1.withStatus .FAILED, s1.2)
          | some _ =>
            match find_wormhole_to_system s1.2 u.in_system dsys with
            | some dw =>
              match dw.exit_wormhole_id with
              | none => none
              | some exid =>
                match lookupKey s1.2.wormholes exid with
                | none => none
                | some exwh => do
                  let s2 ←
                    if u.in_hex ≠ dw.in_hex then
                      plan_hex_jump_sequence orc u.in_hex dw.in_hex dw.position
                        u.in_system uid s1.1 s1.2
                    else
                      some (spawnSub s1.1 .REACH_WAYPOINT
                        (destParams u.in_system dw.in_hex dw.position) s1.2)
                  let s3 := spawnSub s2.1 .REACH_WAYPOINT
                    (destParams dsys exwh.in_hex exwh.position) s2.2
                  match lookupKey s3.2.systems dsys with
                  | none => none
                  | some sysd =>
                    match lookupKey sysd.hexes exwh.in_hex with
                    | none => none
                    | some hexd =>
                      let s4 :=
                        match hexd.get_all_inhibition_zones.find?
                            (fun z => is_point_in_circle exwh.position z) with
                        | some zone =>
                          spawnSub s3.1 .REACH_WAYPOINT
                            (destParams dsys exwh.in_hex
                              ⟨exwh.position.x +
                                 (zone.radius + 1) * orc.rand_cos s3.2.rng,
                               exwh.position.y +
                                 (zone.radius + 1) * orc.rand_sin s3.2.rng⟩)
                            { s3.2 with rng := s3.2.rng + 1 }
                        | none => s3
                      if exwh.in_hex ≠ dhex then
                        plan_hex_jump_sequence orc exwh.in_hex dhex dpos dsys
                          uid s4.1 s4.2
                      else some s4
            | none => do
              let fip ← find_intersystem_path s1.2.system_graph u.in_system dsys
              match fip with
              | none => some (s1.1.withStatus .FAILED, s1.2)
              | some p =>
                if p.length < 2 then some (s1.1.withStatus .FAILED, s1.2)
                else do
                  let r ← planLegs orc uid (p.zip p.tail) u.in_hex s1.1 s1.2
                  match r.2.2 with
                  | none => some (r.1, r.2.1)
                  | some cur =>
                    plan_hex_jump_sequence orc cur dhex dpos dsys uid r.1 r.2.1
        else if u.in_hex ≠ dhex then
          plan_hex_jump_sequence orc u.in_hex dhex dpos u.in_system uid s1.1 s1.2
        else
          match u.engines_component with
          | none => some (s1.1.withStatus .FAILED, s1.2)
          | some _ =>
            some (spawnSub s1.1 .REACH_WAYPOINT (destParams dsys dhex dpos) s1.2)
    | _, _, _ => some (o.withStatus .FAILED, st)

/-- `Order.execute`: PENDING guard, switch to IN_PROGRESS, dispatch on the
order type (PATROL and DEFEND have no execution logic). -/
def Order.execute (orc : Oracle) (uid : ℕ) (o : Order) (st : GState) :
    Option (Order × GState) :=
  if o.status ≠ .PENDING then some (o, st)
  else
    let o1 := o.withStatus .IN_PROGRESS
    match o.order_type with
    | .MOVE => plan_route orc uid o1 st
    | .REACH_WAYPOINT => _execute_reach_waypoint uid o1 st
    | .TOGGLE_INHIBITOR => _execute_toggle_inhibitor uid o1 st
    | .PATROL => some (o1, st)
    | .ATTACK => _execute_attack orc uid o1 st
    | .COLONIZE => _execute_colonize uid o1 st
    | .LOAD_COLONISTS => _execute_load_colonists uid o1 st
    | .CONSTRUCT => _execute_construct uid o1 st
    | .DEFEND => some (o1, st)


/-- `galaxy.StarSystem.get_all_units`: all (unit id, hex) pairs in hex-dict
order. -/
def StarSystem.get_all_units (sys : StarSystem) : List (ℕ × HexCoord) :=
  (sys.hexes.map (fun ch => ch.2.units.map (fun uid => (uid, ch.1)))).flatten

/-- `Unit.take_damage` on the unit with id `tid` (plus `Unit.destroy` /
`Galaxy.remove_unit` at zero hit points: the destroyed unit leaves its hex
and the galaxy's stores). -/
def take_damage (tid : ℕ) (amount : ℤ) (st : GState) : GState :=
  match lookupKey st.units tid with
  | none => st
  | some t =>
    let hp0 := t.current_hit_points - amount
    let hp := if hp0 < 0 then 0 else hp0
    if hp = 0 then
      let st1 :=
        match lookupKey st.systems t.in_system with
        | none => st
        | some sys =>
          match lookupKey sys.hexes t.in_hex with
          | none => st
          | some h =>
            st.setHex t.in_system t.in_hex { h with units := h.units.erase tid }
      { st1 with units := delKey st1.units tid }
    else st.setUnit tid { t with current_hit_points := hp }

/-- `Turret.update`: tick the cooldown. -/
def turretTick (t : Turret) : Turret :=
  if t.current_cooldown > 0 then
    { t with current_cooldown := t.current_cooldown - 1 }
  else t

/-- The firing loop of `Weapons.update`: clear dead targets, fire at targets
in the same system, hex and range once the cooldown is over (`int(damage)`
truncates). -/
def fireFold (u : Unit) : List Turret → GState → List Turret × GState
  | [], st => ([], st)
  | t :: ts, st =>
    match t.target with
    | none =>
      let r := fireFold u ts st
      (t :: r.1, r.2)
    | some tid =>
      match lookupKey st.units tid with
      | none =>
        let r := fireFold u ts st
        ({ t with target := none } :: r.1, r.2)
      | some tgt =>
        if tgt.current_hit_points ≤ 0 then
          let r := fireFold u ts st
          ({ t with target := none } :: r.1, r.2)
        else
          if u.in_system = tgt.in_system ∧ u.in_hex = tgt.in_hex ∧
              distance_lt u.position tgt.position t.range ∧
              t.current_cooldown ≤ 0 then
            let st1 := take_damage tid (pytrunc t.damage) st
            let r := fireFold u ts st1
            ({ t with current_cooldown := t.cooldown } :: r.1, r.2)
          else
            let r := fireFold u ts st
            (t :: r.1, r.2)

/-- `Weapons.update` for the unit `uid` (cooldown ticks first, then the
firing pass); the component is written back unless the unit destroyed itself
in the pass. -/
def weaponsRun (uid : ℕ) (st : GState) : GState :=
  match lookupKey st.units uid with
  | none => st
  | some u =>
    match u.weapons_component with
    | none => st
    | some w =>
      let r := fireFold u (w.turrets.map turretTick) st
      match lookupKey r.2.units uid with
      | none => r.2
      | some u2 => r.2.setUnit uid { u2 with weapons_component := some ⟨r.1⟩ }

/-- `StarSystem.add_unit` (by id). -/
def system_add_unit (sysname : String) (uid : ℕ) (hc : HexCoord) (st : GState) :
    GState :=
  match lookupKey st.systems sysname with
  | none => st
  | some sys =>
    match lookupKey sys.hexes hc with
    | none => st
    | some h => st.setHex sysname hc { h with units := h.units ++ [uid] }

/-- `Constructor.create_unit_from_template`: the template table contains
`CONSTRUCTOR_MK1` (medium hull, 100 hp, constructor able to build stations)
and `STATION_MK1` (large hull, 200 hp, weapon bays); neither template has an
engine speed or a hyperdrive type, so the built unit has neither component. -/
def createUnitFromTemplate (nm : String) (ownerId : ℕ) (sysname : String)
    (hc : HexCoord) (pos : Position) (st : GState) : GState :=
  if nm = "CONSTRUCTOR_MK1" ∨ nm = "STATION_MK1" then
    match lookupKey st.systems sysname with
    | none => st
    | some sys =>
      match lookupKey sys.hexes hc with
      | none => st
      | some _ =>
        let hp : ℤ := if nm = "STATION_MK1" then 200 else 100
        let newUnit : Unit :=
          { id := st.object_counter, owner := ownerId, in_system := sysname,
            in_hex := hc, position := pos,
            current_hit_points := hp, max_hit_points := hp,
            engines_component := none, hyperdrive_component := none,
            inhibitor_component := none,
            weapons_component := if nm = "STATION_MK1" then some ⟨[]⟩ else none,
            colony_component := none,
            constructor_component := if nm = "CONSTRUCTOR_MK1" then
              some ⟨[⟨"STATION_MK1", 10, 500⟩], none, 0, 0⟩ else none,
            commander_component := ⟨none, []⟩ }
        let st1 := { st with
          units := st.units ++ [(newUnit.id, newUnit)],
          object_counter := st.object_counter + 1 }
        system_add_unit sysname newUnit.id hc st1
  else st

/-- `Constructor.update` (+ `finish_construction`) for the unit `uid`. -/
def constructorRun (uid : ℕ) (st : GState) : GState :=
  match lookupKey st.units uid with
  | none => st
  | some u =>
    match u.constructor_component with
    | none => st
    | some con =>
      match con.current_construction_target with
      | none => st
      | some (nm, pos) =>
        let prog := con.construction_progress + 1
        if prog ≥ con.time_to_build then
          let st1 := createUnitFromTemplate nm u.owner u.in_system u.in_hex pos st
          match lookupKey st1.units uid with
          | none => st1
          | some u1 =>
            let con1 : ConstructorComp := { con with current_construction_target := none, construction_progress := 0, time_to_build := 0 }
            st1.setUnit uid { u1 with constructor_component := some con1 }
        else
          let con1 : ConstructorComp := { con with construction_progress := prog }
          st.setUnit uid { u with constructor_component := some con1 }

/-- `Galaxy.move_unit_between_systems` (by unit id; the Python `bool` result
is returned alongside the state; direct dictionary indexing of the two
systems crashes on missing names). -/
def move_unit_between_systems (uid : ℕ) (origin dest : String)
    (dhex : HexCoord) (st : GState) : Option (Bool × GState) :=
  match lookupKey st.systems origin with
  | none => none
  | some osys =>
    match lookupKey st.systems dest with
    | none => none
    | some dsys =>
      if (lookupKey dsys.hexes dhex).isNone then some (false, st)
      else
        match lookupKey st.units uid with
        | none => none
        | some u =>
          match lookupKey osys.hexes u.in_hex with
          | none => some (false, st)
          | some ohex =>
            if uid ∈ ohex.units then
              let st1 := st.setHex origin u.in_hex
                { ohex with units := ohex.units.erase uid }
              let st2 := st1.setUnit uid { u with in_system := dest, in_hex := dhex }
              some (true, system_add_unit dest uid dhex st2)
            else some (false, st)

/-- `StarSystem.move_unit_between_hexes` (by unit id). -/
def move_unit_between_hexes (uid : ℕ) (sysname : String) (dhex : HexCoord)
    (st : GState) : Option (Bool × GState) :=
  match lookupKey st.units uid with
  | none => none
  | some u =>
    if u.in_hex = dhex then some (false, st)
    else
      match lookupKey st.systems sysname with
      | none => none
      | some sys =>
        if (lookupKey sys.hexes dhex).isNone then some (false, st)
        else
          match lookupKey sys.hexes u.in_hex with
          | none => some (false, st)
          | some ohex =>
            if uid ∈ ohex.units then
              let st1 := st.setHex sysname u.in_hex
                { ohex with units := ohex.units.erase uid }
              let st2 := st1.setUnit uid { u with in_hex := dhex }
              some (true, system_add_unit sysname uid dhex st2)
            else some (false, st)


mutual

/-- `Order.update`: drain the sub-order deque (executing PENDING fronts,
recursively updating IN_PROGRESS ones and popping the finished), then — only
when the deque has emptied — run the order's own completion check.  The fuel
argument bounds the nesting of same-turn recursive updates; every terminating
Python run is reproduced by all sufficiently large fuels, and `none` stands
for either an uncaught exception or exhausted fuel. -/
def Order.update (orc : Oracle) (uid : ℕ) :
    ℕ → Order → GState → Option (Order × GState)
  | 0, _, _ => none
  | fuel + 1, o, st => do
    let r ← drainSubs orc uid fuel o.sub_orders st
    let o1 := o.withSubs r.1
    if r.1.isEmpty then check_completion_conditions uid o1 r.2
    else some (o1, r.2)

/-- The `while self.sub_orders` loop of `Order.update`. -/
def drainSubs (orc : Oracle) (uid : ℕ) :
    ℕ → List Order → GState → Option (List Order × GState)
  | _, [], st => some ([], st)
  | 0, _ :: _, _ => none
  | fuel + 1, front :: rest, st => do
    let e ← if front.status = .PENDING then Order.execute orc uid front st
            else some (front, st)
    let u ← if e.1.status = .IN_PROGRESS then Order.update orc uid fuel e.1 e.2
            else some e
    if u.1.status = .COMPLETED ∨ u.1.status = .FAILED ∨
        u.1.status = .CANCELLED then
      drainSubs orc uid fuel rest u.2
    else some (u.1 :: rest, u.2)

end

/-- `Commander.start_next_order` (the unit is always attached to the galaxy
in this embedding, so the `in_galaxy is None` failure branch is not
reachable). -/
def Commander.start_next_order (orc : Oracle) (fuel : ℕ) (uid : ℕ)
    (c : Commander) (st : GState) : Option (Commander × GState) :=
  match c.current_order, c.orders_queue with
  | none, h :: t => do
    let e ← Order.execute orc uid h st
    if e.1.status = .IN_PROGRESS then do
      let u ← Order.update orc uid fuel e.1 e.2
      some ({ current_order := some u.1, orders_queue := t }, u.2)
    else some ({ current_order := some e.1, orders_queue := t }, e.2)
  | _, _ => some (c, st)

/-- `Commander.update`. -/
def Commander.update (orc : Oracle) (fuel : ℕ) (uid : ℕ) (c : Commander)
    (st : GState) : Option (Commander × GState) := do
  let s1 ←
    if c.current_order.isNone then Commander.start_next_order orc fuel uid c st
    else some (c, st)
  match s1.1.current_order with
  | none => some s1
  | some cur => do
    let u ← Order.update orc uid fuel cur s1.2
    if u.1.is_completed ∨ u.1.status = .FAILED ∨ u.1.status = .CANCELLED then
      Commander.start_next_order orc fuel uid
        { current_order := none, orders_queue := s1.1.orders_queue } u.2
    else some ({ s1.1 with current_order := some u.1 }, u.2)

/-- `Commander.add_order`. -/
def Commander.add_order (orc : Oracle) (fuel : ℕ) (uid : ℕ) (c : Commander)
    (o : Order) (st : GState) : Option (Commander × GState) :=
  let c1 : Commander := { c with orders_queue := c.orders_queue ++ [o] }
  if c1.current_order.isNone then Commander.start_next_order orc fuel uid c1 st
  else some (c1, st)

/-- `Commander.cancel_order`: cancel the current order (dropping its tree and
promoting the next) or cancel-and-remove a backlog entry; the Bool is the
Python return value. -/
def Commander.cancel_order (orc : Oracle) (fuel : ℕ) (uid : ℕ) (c : Commander)
    (oid : ℕ) (st : GState) : Option (Commander × Bool × GState) :=
  match c.current_order with
  | some cur =>
    if cur.order_id = oid then do
      let r ← Commander.start_next_order orc fuel uid
        { current_order := none, orders_queue := c.orders_queue } st
      some (r.1, true, r.2)
    else
      if (c.orders_queue.find? (fun q => q.order_id = oid)).isSome then
        some ({ c with orders_queue :=
          c.orders_queue.filter (fun q => q.order_id ≠ oid) }, true, st)
      else some (c, false, st)
  | none =>
    if (c.orders_queue.find? (fun q => q.order_id = oid)).isSome then
      some ({ c with orders_queue :=
        c.orders_queue.filter (fun q => q.order_id ≠ oid) }, true, st)
    else some (c, false, st)

/-- `Commander.clear_orders`: every order is cancelled and dropped, and the
unit's movement targets are cleared. -/
def Commander.clear_orders (uid : ℕ) (st : GState) : Option (Commander × GState) :=
  match lookupKey st.units uid with
  | none => none
  | some u =>
    some (⟨none, []⟩, st.setUnit uid ((u.setEnginesTarget none).setHyper
      (fun h => { h with hex_jump_target := none, wormhole_jump_target := none })))

/-- `Unit.update` (phase 4): hyperdrive recharge, weapons, constructor, then
the commander; the commander is written back into the (possibly moved or
modified) unit record. -/
def Unit.update (orc : Oracle) (fuel : ℕ) (uid : ℕ) (st : GState) :
    Option GState :=
  match lookupKey st.units uid with
  | none => some st
  | some u =>
    let st1 := st.setUnit uid (u.setHyper Hyperdrive.update_recharge)
    let st2 :=
      match u.weapons_component with
      | some _ => weaponsRun uid st1
      | none => st1
    let st3 :=
      match u.constructor_component with
      | some _ => constructorRun uid st2
      | none => st2
    match lookupKey st3.units uid with
    | none => some st3
    | some u3 => do
      let r ← Commander.update orc fuel uid u3.commander_component st3
      match lookupKey r.2.units uid with
      | none => some r.2
      | some u4 => some (r.2.setUnit uid { u4 with commander_component := r.1 })


/-- One queued movement of turn-processing phase 1. -/
inductive Movement where
  | system_jump (target : String)
  | hex_jump (th : HexCoord) (tp : Position)

/-- The sub-light part of the phase-1 scan for one unit: step towards the
engines' move target, keep an active inhibition zone centred on the unit, and
snap-and-clear on arrival. -/
def scanEngines (orc : Oracle) (sysname : String) (uid : ℕ) (u : Unit)
    (st : GState) : Option GState :=
  match u.engines_component with
  | none => some st
  | some e =>
    match e.move_target with
    | none => some st
    | some tgt =>
      let npos := sector_move orc u.position tgt e.speed
      let st1 := st.setUnit uid { u with position := npos }
      let st2opt :=
        match u.inhibitor_component with
        | some inh =>
          if inh.is_active then
            match lookupKey st1.systems sysname with
            | none => none
            | some sys =>
              match lookupKey sys.hexes u.in_hex with
              | none => none
              | some h =>
                let zones1 := setKey h.dynamic_inhibition_zones uid ⟨npos, inh.radius⟩
                some (st1.setHex sysname u.in_hex
                  { h with dynamic_inhibition_zones := zones1 })
          else some st1
        | none => some st1
      match st2opt with
      | none => none
      | some st2 =>
        if distance_lt npos tgt (1 / 100) then
          match lookupKey st2.units uid with
          | none => none
          | some u2 =>
            some (st2.setUnit uid (({ u2 with position := tgt }).setEnginesTarget none))
        else some st2

/-- The phase-1 scan over a system's unit snapshot: queue wormhole jumps and
hex jumps, execute sub-light movement immediately. -/
def scanLoop (orc : Oracle) (cur : ℕ) (sysname : String) :
    List (ℕ × HexCoord) → GState → List (ℕ × Movement) →
      Option (GState × List (ℕ × Movement))
  | [], st, acc => some (st, acc)
  | (uid, chex) :: rest, st, acc =>
    match lookupKey st.units uid with
    | none => none
    | some u =>
      if u.owner ≠ cur then scanLoop orc cur sysname rest st acc
      else
        match u.hyperdrive_component with
        | some hd =>
          match hd.wormhole_jump_target with
          | some wid =>
            match lookupKey st.wormholes wid with
            | none => none
            | some wh =>
              if wh.exit_system_name ≠ "" ∧ wh.exit_wormhole_id.getD 0 ≠ 0 ∧
                  (lookupKey st.systems wh.exit_system_name).isSome then
                scanLoop orc cur sysname rest st
                  (acc ++ [(uid, .system_jump wh.exit_system_name)])
              else scanLoop orc cur sysname rest st acc
          | none =>
            match hd.hex_jump_target with
            | some tht =>
              if tht.1 ≠ chex ∧
                  ((lookupKey st.systems sysname).bind
                    (fun sys => lookupKey sys.hexes tht.1)).isSome then
                scanLoop orc cur sysname rest st
                  (acc ++ [(uid, .hex_jump tht.1 tht.2)])
              else scanLoop orc cur sysname rest st acc
            | none => do
              let st1 ← scanEngines orc sysname uid u st
              scanLoop orc cur sysname rest st1 acc
        | none => do
          let st1 ← scanEngines orc sysname uid u st
          scanLoop orc cur sysname rest st1 acc

/-- Phase-1 execution of one queued wormhole jump (CHARGING defers, JUMPING
resets to READY and retries, ERROR blocks; validation failures set ERROR and
clear the target; success lands at the exit and starts the recharge). -/
def processSystemJump (tsys : String) (uid : ℕ) (st : GState) :
    Option GState :=
  match lookupKey st.units uid with
  | none => none
  | some u =>
    match lookupKey st.systems u.in_system with
    | none => none
    | some _ =>
      match u.hyperdrive_component with
      | none => some st
      | some hd =>
        if hd.jump_status = .CHARGING then some st
        else
          let hd1 := if hd.jump_status = .JUMPING then
            { hd with jump_status := JumpStatus.READY } else hd
          let stA := st.setUnit uid (u.setHyper (fun _ => hd1))
          if hd1.jump_status = .ERROR then some stA
          else if hd1.jump_status ≠ .READY then some stA
          else
            let hd2 := { hd1 with jump_status := JumpStatus.JUMPING }
            let stB := stA.setUnit uid (u.setHyper (fun _ => hd2))
            match lookupKey stB.systems tsys with
            | none => none
            | some _ =>
              match hd2.wormhole_jump_target with
              | none =>
                some (stB.setUnit uid (u.setHyper (fun _ =>
                  { hd2 with jump_status := JumpStatus.ERROR })))
              | some wid =>
                match lookupKey stB.wormholes wid with
                | none => none
                | some entry =>
                  match entry.exit_wormhole_id with
                  | none =>
                    some (stB.setUnit uid (u.setHyper (fun _ =>
                      { hd2 with jump_status := JumpStatus.ERROR,
                                 wormhole_jump_target := none })))
                  | some exid =>
                    if exid = 0 then
                      some (stB.setUnit uid (u.setHyper (fun _ =>
                        { hd2 with jump_status := JumpStatus.ERROR,
                                   wormhole_jump_target := none })))
                    else
                      match lookupKey stB.wormholes exid with
                      | none => none
                      | some exwh =>
                        if exwh.in_system ≠ tsys then
                          some (stB.setUnit uid (u.setHyper (fun _ =>
                            { hd2 with jump_status := JumpStatus.ERROR,
                                       wormhole_jump_target := none })))
                        else do
                          let stC := stB.setUnit uid
                            (({ u with position := exwh.position }).setHyper
                              (fun _ => hd2))
                          let r ← move_unit_between_systems uid u.in_system
                            tsys exwh.in_hex stC
                          match lookupKey r.2.units uid with
                          | none => none
                          | some u2 =>
                            if r.1 then
                              some (r.2.setUnit uid
                                (u2.setHyper Hyperdrive.start_recharge))
                            else
                              some (r.2.setUnit uid (u2.setHyper (fun h =>
                                { h with jump_status := JumpStatus.ERROR,
                                         wormhole_jump_target := none })))

/-- Phase-1 execution of one queued hex jump: same status protocol, then
target-hex, jump-range and inhibition-field validation; success lands at the
target position and starts the recharge. -/
def processHexJump (th : HexCoord) (tp : Position) (uid : ℕ) (st : GState) :
    Option GState :=
  match lookupKey st.units uid with
  | none => none
  | some u =>
    match lookupKey st.systems u.in_system with
    | none => none
    | some osys =>
      match u.hyperdrive_component with
      | none => some st
      | some hd =>
        if hd.jump_status = .CHARGING then some st
        else
          let hd1 := if hd.jump_status = .JUMPING then
            { hd with jump_status := JumpStatus.READY } else hd
          let stA := st.setUnit uid (u.setHyper (fun _ => hd1))
          if hd1.jump_status = .ERROR then some stA
          else if hd1.jump_status ≠ .READY then some stA
          else
            let hd2 := { hd1 with jump_status := JumpStatus.JUMPING }
            let stB := stA.setUnit uid (u.setHyper (fun _ => hd2))
            match hd2.hex_jump_target with
            | none =>
              some (stB.setUnit uid (u.setHyper (fun _ =>
                { hd2 with jump_status := JumpStatus.ERROR })))
            | some _ =>
              if (lookupKey osys.hexes th).isNone then
                some (stB.setUnit uid (u.setHyper (fun _ =>
                  { hd2 with jump_status := JumpStatus.ERROR,
                             hex_jump_target := none })))
              else if hex_distance u.in_hex th > hd2.jump_range then
                some (stB.setUnit uid (u.setHyper (fun _ =>
                  { hd2 with jump_status := JumpStatus.ERROR,
                             hex_jump_target := none })))
              else
                match lookupKey osys.hexes u.in_hex with
                | none => none
                | some ohex =>
                  if ohex.get_all_inhibition_zones.any
                      (fun z => is_point_in_circle u.position z) then
                    some (stB.setUnit uid (u.setHyper (fun _ =>
                      { hd2 with jump_status := JumpStatus.ERROR,
                                 hex_jump_target := none })))
                  else
                    match lookupKey osys.hexes th with
                    | none => none
                    | some dhexrec =>
                      if dhexrec.get_all_inhibition_zones.any
                          (fun z => is_point_in_circle tp z) then
                        some (stB.setUnit uid (u.setHyper (fun _ =>
                          { hd2 with jump_status := JumpStatus.ERROR,
                                     hex_jump_target := none })))
                      else do
                        let stC := stB.setUnit uid
                          (({ u with position := tp }).setHyper (fun _ => hd2))
                        let r ← move_unit_between_hexes uid u.in_system th stC
                        match lookupKey r.2.units uid with
                        | none => none
                        | some u2 =>
                          if r.1 then
                            some (r.2.setUnit uid
                              (u2.setHyper Hyperdrive.start_recharge))
                          else
                            some (r.2.setUnit uid (u2.setHyper (fun h =>
                              { h with jump_status := JumpStatus.ERROR,
                                       hex_jump_target := none })))

/-- The `for unit, movement_details in units_to_move` loop. -/
def jumpLoop : List (ℕ × Movement) → GState → Option GState
  | [], st => some st
  | (uid, .system_jump tsys) :: rest, st => do
    let st1 ← processSystemJump tsys uid st
    jumpLoop rest st1
  | (uid, .hex_jump th tp) :: rest, st => do
    let st1 ← processHexJump th tp uid st
    jumpLoop rest st1

/-- Phase 1 for one system: scan (queueing jumps, moving sub-light), then
process the queued jumps. -/
def phase1System (orc : Oracle) (cur : ℕ) (sysname : String) (st : GState) :
    Option GState :=
  match lookupKey st.systems sysname with
  | none => some st
  | some sys => do
    let r ← scanLoop orc cur sysname sys.get_all_units st []
    jumpLoop r.2 r.1

def phase1 (orc : Oracle) (cur : ℕ) : List String → GState → Option GState
  | [], st => some st
  | n :: rest, st => do
    let st1 ← phase1System orc cur n st
    phase1 orc cur rest st1

/-- Phase 2: population growth on every planet, moon and asteroid. -/
def phase2 (st : GState) : GState :=
  { st with bodies := st.bodies.map (fun kv =>
      if kv.2.kind = .planet ∨ kv.2.kind = .moon ∨ kv.2.kind = .asteroid then
        (kv.1, kv.2.update_population)
      else kv) }

/-- Phase 3: the current player taxes owned planets, moons and asteroids at
`TAX_RATE = 0.1`. -/
def taxFold (cur : ℕ) : List (ℕ × CelestialBody) → ℚ → ℚ
  | [], acc => acc
  | kv :: rest, acc =>
    if (kv.2.kind = .planet ∨ kv.2.kind = .moon ∨ kv.2.kind = .asteroid) ∧
        kv.2.owner = some cur then
      taxFold cur rest (acc + kv.2.population * (1 / 10))
    else taxFold cur rest acc

def phase3 (cur : ℕ) (st : GState) : GState :=
  { st with players := st.players.map (fun p =>
      if p.id = cur then { p with credits := p.credits + taxFold cur st.bodies 0 }
      else p) }

/-- Phase 4: update every unit of the current player, system by system. -/
def phase4Units (orc : Oracle) (fuel : ℕ) (cur : ℕ) :
    List ℕ → GState → Option GState
  | [], st => some st
  | uid :: rest, st =>
    match lookupKey st.units uid with
    | none => phase4Units orc fuel cur rest st
    | some u =>
      if u.owner = cur then do
        let st1 ← Unit.update orc fuel uid st
        phase4Units orc fuel cur rest st1
      else phase4Units orc fuel cur rest st

def phase4Systems (orc : Oracle) (fuel : ℕ) (cur : ℕ) :
    List String → GState → Option GState
  | [], st => some st
  | n :: rest, st =>
    match lookupKey st.systems n with
    | none => phase4Systems orc fuel cur rest st
    | some sys => do
      let st1 ← phase4Units orc fuel cur (sys.get_all_units.map Prod.fst) st
      phase4Systems orc fuel cur rest st1

/-- `TurnProcessor.process_turn` for the player `cur`: movement, population
growth, resource generation, unit updates. -/
def process_turn (orc : Oracle) (fuel : ℕ) (cur : ℕ) (st : GState) :
    Option GState :=
  if st.systems.isEmpty then some st
  else do
    let st1 ← phase1 orc cur (st.systems.map Prod.fst) st
    let st3 := phase3 cur (phase2 st1)
    phase4Systems orc fuel cur (st3.systems.map Prod.fst) st3


/-! ### Store lemmas and the terminal-order update lemma -/

theorem lookupKey_setKey_self {κ α : Type} [DecidableEq κ]
    (m : List (κ × α)) (k : κ) (v : α) :
    lookupKey (setKey m k v) k = some v := by
  induction m with
  | nil => simp [setKey, lookupKey]
  | cons kv tl ih =>
    obtain ⟨k', w⟩ := kv
    unfold setKey
    by_cases hk : k' = k
    · subst hk
      simp [lookupKey]
    · rw [if_neg hk]
      unfold lookupKey
      rw [if_neg hk]
      exact ih

theorem lookupKey_setKey_ne {κ α : Type} [DecidableEq κ]
    (m : List (κ × α)) (k k' : κ) (v : α) (hne : k ≠ k') :
    lookupKey (setKey m k v) k' = lookupKey m k' := by
  induction m with
  | nil => simp [setKey, lookupKey, hne]
  | cons kv tl ih =>
    obtain ⟨k0, w⟩ := kv
    unfold setKey
    by_cases hk : k0 = k
    · subst hk
      rw [if_pos rfl]
      unfold lookupKey
      rw [if_neg hne]
      by_cases hk' : k0 = k'
      · exact absurd hk' hne
      · rw [if_neg hk']
    · rw [if_neg hk]
      unfold lookupKey
      by_cases hk' : k0 = k'
      · rw [if_pos hk', if_pos hk']
      · rw [if_neg hk', if_neg hk']
        exact ih

/-- A terminal order with an empty sub-order queue is left untouched by
`Order.update` (shared helper for several claims). -/
theorem updateTerminalNoop (orc : Oracle) (uid : ℕ) (fuel : ℕ) (o : Order)
    (st : GState)
    (hterm : o.status = .COMPLETED ∨ o.status = .FAILED ∨ o.status = .CANCELLED)
    (hsubs : o.sub_orders = []) :
    Order.update orc uid (fuel + 1) o st = some (o, st) := by
  have hns : o.status ≠ .IN_PROGRESS := by
    rcases hterm with h | h | h <;> rw [h] <;> simp
  have hwith : o.withSubs [] = o := by
    obtain ⟨i, ty, ps, s, subs⟩ := o
    simp [Order.sub_orders] at hsubs
    simp [Order.withSubs, hsubs]
  rw [Order.update, hsubs]
  rw [show drainSubs orc uid fuel [] st = some ([], st) from by rw [drainSubs]]
  simp only [Option.bind_eq_bind, Option.some_bind]
  rw [if_pos (by rfl : ([] : List Order).isEmpty = true)]
  rw [hwith]
  rw [check_completion_conditions, if_pos hns]

/-- `Order.update` never changes the status of a terminal order (it only
drains the sub-order queue). -/
theorem updateTerminalStatus (orc : Oracle) (uid : ℕ) (fuel : ℕ) (o : Order)
    (st : GState) (o' : Order) (st' : GState)
    (hterm : o.status = .COMPLETED ∨ o.status = .FAILED ∨ o.status = .CANCELLED)
    (hrun : Order.update orc uid (fuel + 1) o st = some (o', st')) :
    o'.status = o.status := by
  rw [Order.update] at hrun
  have hns : o.status ≠ .IN_PROGRESS := by
    rcases hterm with h | h | h <;> rw [h] <;> simp
  cases hdr : drainSubs orc uid fuel o.sub_orders st with
  | none =>
    rw [hdr] at hrun
    simp at hrun
  | some r =>
    rw [hdr] at hrun
    have hst : (o.withSubs r.1).status = o.status := by
      obtain ⟨i, ty, ps, s, subs⟩ := o
      rfl
    simp only [Option.bind_eq_bind, Option.some_bind] at hrun
    by_cases hemp : r.1.isEmpty
    · rw [if_pos hemp] at hrun
      rw [check_completion_conditions] at hrun
      rw [hst, if_pos hns, Option.some.injEq, Prod.mk.injEq] at hrun
      rw [← hrun.1, hst]
    · rw [if_neg hemp, Option.some.injEq, Prod.mk.injEq] at hrun
      rw [← hrun.1, hst]


/-- A trivial oracle instance for concrete runs. -/
def oracle0 : Oracle :=
  ⟨fun p _ => p, fun p _ _ => p, fun p _ _ => p, fun _ => 0, fun _ => 0⟩

/-- The empty game state. -/
def st0 : GState := ⟨[], [], [], [], [], [], 0, 0, 0⟩


/-! ## C4: Commander current-order life cycle -/

/-- A unit with no components, used by concrete commander runs. -/
def u0 : Unit :=
  { id := 0, owner := 0, in_system := "S", in_hex := (0, 0),
    position := ⟨0, 0⟩, current_hit_points := 1, max_hit_points := 1,
    engines_component := none, hyperdrive_component := none,
    inhibitor_component := none, weapons_component := none,
    colony_component := none, constructor_component := none,
    commander_component := ⟨none, []⟩ }

/-- A game state holding just that unit. -/
def stU : GState := { st0 with units := [(0, u0)] }

/-- `o.status = FAILED` (or CANCELLED) makes `is_completed` false. -/
theorem is_completed_of_terminal (o : Order)
    (h : o.status = .FAILED ∨ o.status = .CANCELLED) :
    o.is_completed = false := by
  obtain ⟨i, ty, ps, s, subs⟩ := o
  simp only [Order.status] at h
  rw [Order.is_completed]
  rcases h with h | h <;> rw [h] <;> rfl


@[simp] theorem withStatus_status (o : Order) (s : OrderStatus) :
    (o.withStatus s).status = s := by
  cases o; rfl

@[simp] theorem withStatus_params (o : Order) (s : OrderStatus) :
    (o.withStatus s).parameters = o.parameters := by
  cases o; rfl

@[simp] theorem withStatus_subs (o : Order) (s : OrderStatus) :
    (o.withStatus s).sub_orders = o.sub_orders := by
  cases o; rfl

@[simp] theorem withStatus_type (o : Order) (s : OrderStatus) :
    (o.withStatus s).order_type = o.order_type := by
  cases o; rfl

@[simp] theorem withStatus_id (o : Order) (s : OrderStatus) :
    (o.withStatus s).order_id = o.order_id := by
  cases o; rfl

@[simp] theorem withSubs_status (o : Order) (l : List Order) :
    (o.withSubs l).status = o.status := by
  cases o; rfl

@[simp] theorem withSubs_params (o : Order) (l : List Order) :
    (o.withSubs l).parameters = o.parameters := by
  cases o; rfl

@[simp] theorem withSubs_subs (o : Order) (l : List Order) :
    (o.withSubs l).sub_orders = l := by
  cases o; rfl

@[simp] theorem withSubs_type (o : Order) (l : List Order) :
    (o.withSubs l).order_type = o.order_type := by
  cases o; rfl

@[simp] theorem spawnSub_fst (o : Order) (ty : OrderType) (ps : OrderParams)
    (st : GState) :
    (spawnSub o ty ps st).1 =
      o.withSubs (o.sub_orders ++ [Order.mk st.order_counter ty ps .PENDING []]) := by
  rfl


/-- The state produced by a successful inhibitor activation (helper for the
statement of the C7 theorem). -/
def inhActivatedState (st : GState) (uid : ℕ) (u : Unit) (inh : Inhibitor) (hexrec : HexRec) : GState :=
  (st.setUnit uid { u with inhibitor_component := some { inh with is_active := true } }).setHex u.in_system u.in_hex { hexrec with dynamic_inhibition_zones := setKey hexrec.dynamic_inhibition_zones uid ⟨u.position, inh.radius⟩ }

/-- A unit with an inhibitor emitter at the hex center. -/
def uInh : Unit := { u0 with inhibitor_component := some ⟨50, false⟩ }

/-- A one-system, one-hex state holding the inhibitor ship. -/
def stInh : GState :=
  { st0 with systems := [("S", ⟨[((0, 0), ⟨[], [], [0]⟩)]⟩)], units := [(0, uInh)] }

/-! ## C8: jump-target mutual exclusion -/

/-- At most one hyperdrive jump target is set. -/
def UnitTargetsMutex (u : Unit) : Prop :=
  ∀ g, u.hyperdrive_component = some g →
    g.hex_jump_target = none ∨ g.wormhole_jump_target = none

/-- The sublight engines, if present, have no movement target. -/
def EnginesCleared (u : Unit) : Prop :=
  ∀ e, u.engines_component = some e → e.move_target = none

/-- A unit with an idle hyperdrive, for the mutual-exclusion witness. -/
def uHD : Unit := { u0 with hyperdrive_component := some ⟨5, none, none, .READY, 0, 2⟩ }

/-- A state holding just the hyperdrive unit. -/
def stHD : GState := { st0 with units := [(0, uHD)] }

/-- A REACH_WAYPOINT order to another hex of the unit's system. -/
def oW : Order :=
  Order.mk 1 .REACH_WAYPOINT (destParams "S" (1, 0) ⟨0, 0⟩) .PENDING []

/-- The unit after the hex jump is configured. -/
def u1W : Unit :=
  (uHD.setHyper (fun h => { h with hex_jump_target := some ((1, 0), ⟨0, 0⟩), wormhole_jump_target := none })).setEnginesTarget none

/-- The state after the hex jump is configured. -/
def st1W : GState := stHD.setUnit 0 u1W

/-! ## C6: deferred hex jump while the hyperdrive is charging -/

/-- A charging hyperdrive, two turns from ready, with a queued hex jump. -/
def hdC6 : Hyperdrive := ⟨5, some ((1, 0), ⟨0, 0⟩), none, .CHARGING, 2, 2⟩

/-- An IN_PROGRESS waypoint order whose destination is the unit's own
position. -/
def oC6 : Order :=
  Order.mk 1 .REACH_WAYPOINT (destParams "S" (0, 0) ⟨0, 0⟩) .IN_PROGRESS []

/-- The charging unit with that commander order. -/
def uC6 : Unit :=
  { u0 with hyperdrive_component := some hdC6, commander_component := ⟨some oC6, []⟩ }

/-- A two-hex system holding the unit in hex (0, 0). -/
def sysC6 : StarSystem := ⟨[((0, 0), ⟨[], [], [0]⟩), ((1, 0), ⟨[], [], []⟩)]⟩

def stC6 : GState := { st0 with systems := [("S", sysC6)], units := [(0, uC6)] }

/-- The charging unit with an idle commander instead. -/
def uC6w : Unit := { u0 with hyperdrive_component := some hdC6 }

def stC6w : GState := { st0 with systems := [("S", sysC6)], units := [(0, uC6w)] }

/-! ## C5: order-tree invariant -/

/-- The depth-first single-active-leaf invariant of an order tree: a PENDING
order has no sub-orders yet, every queued sub-order other than the front one
is PENDING (so at most the front can be IN_PROGRESS), recursively. -/
def TreeInv : Order → Prop
  | .mk _ _ _ st subs =>
    (st = OrderStatus.PENDING → subs = []) ∧
    (∀ s ∈ subs.tail, s.status = OrderStatus.PENDING) ∧
    (∀ s ∈ subs.attach, TreeInv s.1)
decreasing_by
  simp only [Order.mk.sizeOf_spec]
  have := List.sizeOf_lt_of_mem s.2
  omega

/-- All orders of the list are freshly spawned: PENDING with no sub-orders. -/
def SubsShape (l : List Order) : Prop :=
  ∀ s ∈ l, s.status = .PENDING ∧ s.sub_orders = []

/-- The commander-level single-active-leaf invariant: the current order's
tree and every backlog order's tree satisfy `TreeInv`. -/
def CommanderInv (c : Commander) : Prop :=
  (∀ o, c.current_order = some o → TreeInv o) ∧
  (∀ o ∈ c.orders_queue, TreeInv o)

/-! # Theorems -/

theorem distance_sq_nonneg (p1 p2 : Position) : 0 ≤ distance_sq p1 p2 := by
  have h1 : (0:ℚ) ≤ (p1.x - p2.x) ^ 2 := sq_nonneg _
  have h2 : (0:ℚ) ≤ (p1.y - p2.y) ^ 2 := sq_nonneg _
  unfold distance_sq; linarith

/-- The real Euclidean distance denoted by the code's `math.sqrt`-based
`geometry.distance`. -/
theorem sqrt_distance_sq_sq (p1 p2 : Position) :
    Real.sqrt ((distance_sq p1 p2 : ℚ)) ^ 2 = ((distance_sq p1 p2 : ℚ) : ℝ) := by
  rw [Real.sq_sqrt]
  exact_mod_cast distance_sq_nonneg p1 p2


/-- C9 (counterexample): the claim quantifies over *every* circle, but the code
compares squared quantities, so a circle with negative radius `-1` contains its
own center even though no distance is `≤ -1`. -/
theorem circle_predicates_exact_boundary_cex : ¬ CircleClaimC9 := by
  intro h
  have := (h.1 ⟨0, 0⟩ ⟨⟨0, 0⟩, -1⟩).mp (by norm_num [is_point_in_circle, distance_sq])
  have hd : distance_sq ⟨0, 0⟩ ⟨0, 0⟩ = 0 := by norm_num [distance_sq]
  rw [hd] at this
  norm_num [Real.sqrt_zero] at this

/-- C9 (amended: radii restricted to be non-negative, as every circle built by
the game is): `is_point_in_circle` is true exactly when the Euclidean distance
from the point to the center is `≤ radius` (inclusive boundary), and
`do_circles_intersect` is true exactly when the center distance is strictly
below the sum of the radii (so circles touching at exactly the radii-sum
distance do not count as intersecting). -/
theorem circle_predicates_exact_boundary (p : Position) (c : Circle)
    (c1 c2 : Circle) (hc : 0 ≤ c.radius) (h1 : 0 ≤ c1.radius)
    (h2 : 0 ≤ c2.radius) :
    (is_point_in_circle p c = true ↔
      Real.sqrt ((distance_sq p c.center : ℚ)) ≤ (c.radius : ℝ)) ∧
    (do_circles_intersect c1 c2 = true ↔
      Real.sqrt ((distance_sq c1.center c2.center : ℚ)) <
        (c1.radius : ℝ) + (c2.radius : ℝ)) := by
  constructor
  · rw [Real.sqrt_le_left (by exact_mod_cast hc)]
    unfold is_point_in_circle
    simp only [decide_eq_true_eq]
    constructor
    · intro h; exact_mod_cast h
    · intro h; exact_mod_cast h
  · unfold do_circles_intersect
    simp only [decide_eq_true_eq]
    rcases lt_or_eq_of_le (add_nonneg h1 h2) with hpos | hzero
    · rw [Real.sqrt_lt' (by exact_mod_cast hpos)]
      constructor
      · intro h; exact_mod_cast h
      · intro h; exact_mod_cast h
    · constructor
      · intro h
        exfalso
        have hd := distance_sq_nonneg c1.center c2.center
        have : distance_sq c1.center c2.center < (c1.radius + c2.radius) ^ 2 := h
        rw [← hzero] at this
        simp at this
        linarith
      · intro h
        exfalso
        have := Real.sqrt_nonneg ((distance_sq c1.center c2.center : ℚ) : ℝ)
        have hz : (c1.radius : ℝ) + (c2.radius : ℝ) = 0 := by exact_mod_cast hzero.symm
        linarith

/-- C9 witness: the amended equivalences applied at concrete circles: the point
`(3,4)` lies on the boundary of the radius-5 circle at the origin (inclusive),
and unit circles whose centers are exactly 2 apart do not intersect. -/
theorem circle_predicates_exact_boundary_witness :
    (0:ℚ) ≤ 5 ∧
    (is_point_in_circle ⟨3, 4⟩ ⟨⟨0, 0⟩, 5⟩ = true ↔
      Real.sqrt ((distance_sq ⟨3, 4⟩ (Circle.center ⟨⟨0, 0⟩, 5⟩) : ℚ)) ≤
        ((5:ℚ) : ℝ)) ∧
    (do_circles_intersect ⟨⟨0, 0⟩, 1⟩ ⟨⟨2, 0⟩, 1⟩ = true ↔
      Real.sqrt ((distance_sq (Position.mk 0 0) (Position.mk 2 0) : ℚ)) <
        ((1:ℚ) : ℝ) + ((1:ℚ) : ℝ)) :=
  ⟨by norm_num,
    (circle_predicates_exact_boundary ⟨3, 4⟩ ⟨⟨0, 0⟩, 5⟩ ⟨⟨0, 0⟩, 1⟩ ⟨⟨2, 0⟩, 1⟩
      (by norm_num) (by norm_num) (by norm_num)).1,
    (circle_predicates_exact_boundary ⟨3, 4⟩ ⟨⟨0, 0⟩, 5⟩ ⟨⟨0, 0⟩, 1⟩ ⟨⟨2, 0⟩, 1⟩
      (by norm_num) (by norm_num) (by norm_num)).2⟩

/-- C10: colony cargo transfers conserve total population and are atomic: for
non-negative amounts, `planet.population + population_cargo` is invariant
under both `load_population` and `unload_population`, and whenever a call
returns `False` both quantities are individually unchanged. -/
theorem colony_transfer_conserves_population (col : ColonyComponent)
    (unitOwner : ℕ) (planet : CelestialBody) (amount : ℤ)
    (hamount : 0 ≤ amount) :
    (let r := col.load_population unitOwner planet amount;
      (r.2.2.population + (r.2.1.population_cargo : ℚ) =
        planet.population + (col.population_cargo : ℚ)) ∧
      (r.1 = false → r.2.2.population = planet.population ∧
        r.2.1.population_cargo = col.population_cargo)) ∧
    (let r := col.unload_population unitOwner planet amount;
      (r.2.2.population + (r.2.1.population_cargo : ℚ) =
        planet.population + (col.population_cargo : ℚ)) ∧
      (r.1 = false → r.2.2.population = planet.population ∧
        r.2.1.population_cargo = col.population_cargo)) := by
  unfold ColonyComponent.load_population ColonyComponent.unload_population
  constructor
  · by_cases h1 : planet.owner ≠ some unitOwner
    · simp [h1]
    · by_cases h2 : planet.population < (amount : ℚ)
      · simp [h1, h2]
      · by_cases h3 : col.population_cargo + amount > col.max_cargo
        · simp [h1, h2, h3]
        · simp [h1, h2, h3]
  · by_cases h1 : col.population_cargo < amount
    · simp [h1]
    · by_cases h2 : planet.owner = none
      · simp [h1, h2]
      · by_cases h3 : planet.owner = some unitOwner
        · simp [h1, h2, h3]
        · simp [h1, h2, h3]

/-- C10 witness: the conservation law applied to a concrete transfer (loading
30 colonists from a population-50 planet into an empty 100-capacity hold). -/
theorem colony_transfer_conserves_population_witness :
    (0:ℤ) ≤ 30 ∧
    (let r := ColonyComponent.load_population ⟨0, 100⟩ 7
        { id := 1, kind := .planet, in_system := "Sol", in_hex := (0, 0),
          position := ⟨0, 0⟩, inhibition_field_radius := 800, owner := some 7,
          population := 50, max_population := 100,
          population_growth_rate := 1/50 } 30;
      (r.2.2.population + (r.2.1.population_cargo : ℚ) = 50 + ((0:ℤ) : ℚ)) ∧
      (r.1 = false → r.2.2.population = 50 ∧ r.2.1.population_cargo = 0)) := by
  refine ⟨by norm_num, ?_⟩
  have h := colony_transfer_conserves_population ⟨0, 100⟩ 7
    { id := 1, kind := .planet, in_system := "Sol", in_hex := (0, 0),
      position := ⟨0, 0⟩, inhibition_field_radius := 800, owner := some 7,
      population := 50, max_population := 100,
      population_growth_rate := 1/50 } 30 (by norm_num)
  exact h.1


/-! ### Rounding lemmas for `find_hex_jump_path` -/

theorem floor_frac_bounds (x : ℚ) : 0 ≤ x - ⌊x⌋ ∧ x - ⌊x⌋ < 1 :=
  ⟨by have := Int.floor_le x; linarith, by have := Int.lt_floor_add_one x; linarith⟩

theorem pyround_sub_abs_le (x : ℚ) : |(pyround x : ℚ) - x| ≤ 1/2 := by
  obtain ⟨hf0, hf1⟩ := floor_frac_bounds x
  unfold pyround
  split_ifs with h1 h2 h3 <;> rw [abs_le] <;> constructor <;> push_cast <;> linarith

theorem pyround_intCast (n : ℤ) : pyround (n : ℚ) = n := by
  unfold pyround
  rw [Int.floor_intCast]
  split_ifs with h1 h2 h3 <;> first | rfl | (push_cast at h1 h2; linarith)

theorem pyround_of_eq_int (x : ℚ) (n : ℤ) (h : x = (n : ℚ)) :
    (pyround x : ℚ) = x := by
  subst h; rw [pyround_intCast]

theorem pyround_tie (x : ℚ) (h : |(pyround x : ℚ) - x| = 1/2) :
    x - ⌊x⌋ = 1/2 := by
  obtain ⟨hf0, hf1⟩ := floor_frac_bounds x
  unfold pyround at h
  split_ifs at h with h1 h2 h3 <;> rw [abs_eq (by norm_num : (0:ℚ) ≤ 1/2)] at h <;>
    push_cast at h <;> rcases h with h | h <;> linarith

theorem int_of_two_ties (x y z : ℚ) (hx : x - ⌊x⌋ = 1/2) (hy : y - ⌊y⌋ = 1/2)
    (hsum : x + y + z = 0) : z = ((-⌊x⌋ - ⌊y⌋ - 1 : ℤ) : ℚ) := by
  push_cast
  linarith

theorem cube_round_sum (c : Cube) :
    (_cube_round c).1 + (_cube_round c).2.1 + (_cube_round c).2.2 = 0 := by
  unfold _cube_round
  split_ifs <;> simp <;> ring

theorem cube_round_intCast (v : ℤ × ℤ × ℤ) (hv : v.1 + v.2.1 + v.2.2 = 0) :
    _cube_round (castCube v) = v := by
  obtain ⟨a, b, c⟩ := v
  simp only [castCube, _cube_round, pyround_intCast, sub_self, abs_zero,
    gt_iff_lt, lt_self_iff_false, and_self, if_false]
  simp only [Prod.mk.injEq, true_and]
  dsimp only at hv
  omega

/-- The corrected cube rounding moves a zero-sum fractional cube by strictly
less than two in the `|x|+|y|+|z|` seminorm: two exact half-ties on the
uncorrected components would force the third component to be an integer,
contradicting the way `_cube_round` selects the component to correct. -/
theorem cube_round_err (c : Cube) (hc : c.1 + c.2.1 + c.2.2 = 0) :
    |((_cube_round c).1 : ℚ) - c.1| + |((_cube_round c).2.1 : ℚ) - c.2.1| +
      |((_cube_round c).2.2 : ℚ) - c.2.2| < 2 := by
  obtain ⟨x, y, z⟩ := c
  dsimp only at hc ⊢
  have hbx := pyround_sub_abs_le x
  have hby := pyround_sub_abs_le y
  have hbz := pyround_sub_abs_le z
  unfold _cube_round
  dsimp only
  split_ifs with hA hB
  · -- x corrected: errors are b := ry - y, c' := rz - z and -(b + c')
    dsimp only
    by_contra hge
    push_neg at hge
    have hxy : |((-pyround y - pyround z : ℤ) : ℚ) - x| ≤
        |(pyround y : ℚ) - y| + |(pyround z : ℚ) - z| := by
      have : ((-pyround y - pyround z : ℤ) : ℚ) - x =
          -(((pyround y : ℚ) - y) + ((pyround z : ℚ) - z)) := by
        push_cast; linarith
      rw [this, abs_neg]
      exact abs_add _ _
    have h1 : |(pyround y : ℚ) - y| = 1/2 := by linarith
    have h2 : |(pyround z : ℚ) - z| = 1/2 := by linarith
    have ty := pyround_tie y h1
    have tz := pyround_tie z h2
    have hx := int_of_two_ties y z x ty tz (by linarith)
    have hx0 : |(pyround x : ℚ) - x| = 0 := by
      rw [pyround_of_eq_int x _ hx]; simp
    rw [hx0] at hA
    have := hA.1
    linarith
  · -- y corrected: a tie on both x and z would make y an integer
    dsimp only
    by_contra hge
    push_neg at hge
    have hxy : |((-pyround x - pyround z : ℤ) : ℚ) - y| ≤
        |(pyround x : ℚ) - x| + |(pyround z : ℚ) - z| := by
      have : ((-pyround x - pyround z : ℤ) : ℚ) - y =
          -(((pyround x : ℚ) - x) + ((pyround z : ℚ) - z)) := by
        push_cast; linarith
      rw [this, abs_neg]
      exact abs_add _ _
    have h1 : |(pyround x : ℚ) - x| = 1/2 := by linarith
    have h2 : |(pyround z : ℚ) - z| = 1/2 := by linarith
    have tx := pyround_tie x h1
    have tz := pyround_tie z h2
    have hy := int_of_two_ties x z y tx tz (by linarith)
    have hy0 : |(pyround y : ℚ) - y| = 0 := by
      rw [pyround_of_eq_int y _ hy]; simp
    rw [hy0] at hB
    have hz0 := abs_nonneg ((pyround z : ℚ) - z)
    linarith
  · -- z corrected: a tie on both x and y would make z an integer
    dsimp only
    by_contra hge
    push_neg at hge
    have hxy : |((-pyround x - pyround y : ℤ) : ℚ) - z| ≤
        |(pyround x : ℚ) - x| + |(pyround y : ℚ) - y| := by
      have : ((-pyround x - pyround y : ℤ) : ℚ) - z =
          -(((pyround x : ℚ) - x) + ((pyround y : ℚ) - y)) := by
        push_cast; linarith
      rw [this, abs_neg]
      exact abs_add _ _
    have h1 : |(pyround x : ℚ) - x| = 1/2 := by linarith
    have h2 : |(pyround y : ℚ) - y| = 1/2 := by linarith
    have tx := pyround_tie x h1
    have ty := pyround_tie y h2
    have hz := int_of_two_ties x y z tx ty (by linarith)
    have hz0 : |(pyround z : ℚ) - z| = 0 := by
      rw [pyround_of_eq_int z _ hz]; simp
    rw [hz0] at hB
    push_neg at hB
    linarith

/-! ### Cube seminorm lemmas -/

theorem cnorm_nonneg (c : Cube) : 0 ≤ cnorm c := by
  unfold cnorm
  have := abs_nonneg c.1
  have := abs_nonneg c.2.1
  have := abs_nonneg c.2.2
  linarith

theorem cnorm_csub_comm (u v : Cube) : cnorm (csub u v) = cnorm (csub v u) := by
  unfold cnorm csub
  dsimp only
  rw [abs_sub_comm u.1 v.1, abs_sub_comm u.2.1 v.2.1, abs_sub_comm u.2.2 v.2.2]

theorem cnorm_triangle (u v w : Cube) :
    cnorm (csub u w) ≤ cnorm (csub u v) + cnorm (csub v w) := by
  unfold cnorm csub
  dsimp only
  have h1 := abs_sub_le u.1 v.1 w.1
  have h2 := abs_sub_le u.2.1 v.2.1 w.2.1
  have h3 := abs_sub_le u.2.2 v.2.2 w.2.2
  linarith

/-- The integer hex distance agrees with the cube seminorm of the difference
of the corresponding cube coordinates. -/
theorem hex_distance_cast (p q : HexCoord) :
    (hex_distance p q : ℚ) =
      cnorm (csub (_axial_to_cube p) (_axial_to_cube q)) := by
  have key : hex_distance p q * 2 =
      |p.1 - q.1| + |p.1 + p.2 - q.1 - q.2| + |p.2 - q.2| := by
    unfold hex_distance
    rw [Int.abs_eq_natAbs, Int.abs_eq_natAbs, Int.abs_eq_natAbs]
    omega
  have keyQ := congrArg (fun m : ℤ => (m : ℚ)) key
  push_cast at keyQ
  unfold cnorm csub _axial_to_cube
  dsimp only
  rw [show -(p.1 : ℚ) - p.2 - (-(q.1 : ℚ) - q.2) =
    -((p.1 : ℚ) + p.2 - q.1 - q.2) by ring, abs_neg]
  linarith

/-- Interpolating between two zero-sum cubes stays zero-sum. -/
theorem lerp_sum_zero (a b : Cube) (t : ℚ)
    (ha : a.1 + a.2.1 + a.2.2 = 0) (hb : b.1 + b.2.1 + b.2.2 = 0) :
    (_cube_lerp a b t).1 + (_cube_lerp a b t).2.1 + (_cube_lerp a b t).2.2 = 0 := by
  unfold _cube_lerp
  dsimp only
  linear_combination (1 - t) * ha + t * hb

theorem lerp_at_zero (a b : Cube) : _cube_lerp a b 0 = a := by
  unfold _cube_lerp
  obtain ⟨a1, a2, a3⟩ := a
  simp

theorem lerp_at_one (a b : Cube) : _cube_lerp a b 1 = b := by
  unfold _cube_lerp
  obtain ⟨a1, a2, a3⟩ := a
  obtain ⟨b1, b2, b3⟩ := b
  dsimp only
  norm_num

/-- The seminorm of the difference of two interpolation points is the distance
between the endpoints scaled by the parameter difference. -/
theorem cnorm_lerp_diff (a b : Cube) (t1 t2 : ℚ) :
    cnorm (csub (_cube_lerp a b t2) (_cube_lerp a b t1)) =
      cnorm (csub b a) * |t2 - t1| := by
  unfold cnorm csub _cube_lerp
  dsimp only
  rw [show a.1 + (b.1 - a.1) * t2 - (a.1 + (b.1 - a.1) * t1) =
      (b.1 - a.1) * (t2 - t1) by ring,
    show a.2.1 + (b.2.1 - a.2.1) * t2 - (a.2.1 + (b.2.1 - a.2.1) * t1) =
      (b.2.1 - a.2.1) * (t2 - t1) by ring,
    show a.2.2 + (b.2.2 - a.2.2) * t2 - (a.2.2 + (b.2.2 - a.2.2) * t1) =
      (b.2.2 - a.2.2) * (t2 - t1) by ring,
    abs_mul, abs_mul, abs_mul]
  ring

/-- The rounding error of `_cube_round` in the cube seminorm is below one. -/
theorem round_cnorm_lt (c : Cube) (hc : c.1 + c.2.1 + c.2.2 = 0) :
    cnorm (csub (castCube (_cube_round c)) c) < 1 := by
  have h := cube_round_err c hc
  unfold cnorm csub castCube
  dsimp only
  linarith

/-- Round-tripping through `_cube_to_axial` recovers the integer cube when its
components sum to zero. -/
theorem axial_cube_round_trip (v : ℤ × ℤ × ℤ) (hv : v.1 + v.2.1 + v.2.2 = 0) :
    _axial_to_cube (_cube_to_axial v) = castCube v := by
  unfold _axial_to_cube _cube_to_axial castCube
  dsimp only
  have : v.2.1 = -v.1 - v.2.2 := by omega
  rw [this]
  push_cast
  ring_nf

/-! ### Waypoint list structure lemmas -/

theorem chain_map_range {R : HexCoord → HexCoord → Prop} :
    ∀ (m : ℕ) (g : ℕ → HexCoord) (a : HexCoord),
      (0 < m → R a (g 0)) → (∀ i, i + 1 < m → R (g i) (g (i + 1))) →
      List.Chain R a ((List.range m).map g)
  | 0, _, _, _, _ => by simp
  | (k+1), g, a, h0, hs => by
    rw [List.range_succ_eq_map, List.map_cons, List.map_map]
    exact List.Chain.cons (h0 (Nat.succ_pos k))
      (chain_map_range k (g ∘ Nat.succ) (g 0)
        (fun hk => hs 0 (by omega))
        (fun i hi => hs (i + 1) (by omega)))

theorem getLast?_map_range (m : ℕ) (g : ℕ → HexCoord) (hm : 0 < m) :
    ((List.range m).map g).getLast? = some (g (m - 1)) := by
  cases m with
  | zero => omega
  | succ k =>
    rw [List.range_succ, List.map_append]
    simp

theorem head?_map_range (m : ℕ) (g : ℕ → HexCoord) (hm : 0 < m) :
    ((List.range m).map g).head? = some (g 0) := by
  cases m with
  | zero => omega
  | succ k =>
    rw [List.range_succ_eq_map, List.map_cons]
    simp

/-- Folding the deduplicating append over a raw waypoint list keeps the head
and the last value, never produces the empty list, and every adjacent pair of
the result is an adjacent pair of values of `prev :: raw`. -/
theorem foldl_dedupAppend_spec {R : HexCoord → HexCoord → Prop} :
    ∀ (raw acc : List HexCoord) (prev : HexCoord),
      acc ≠ [] → acc.getLast? = some prev → List.Chain' R acc →
      List.Chain R prev raw →
      (raw.foldl dedupAppend acc) ≠ [] ∧
      (raw.foldl dedupAppend acc).getLast? = (prev :: raw).getLast? ∧
      List.Chain' R (raw.foldl dedupAppend acc) ∧
      (raw.foldl dedupAppend acc).head? = acc.head?
  | [], acc, prev, hne, hlast, hch, _ => by
    simp only [List.foldl_nil, List.getLast?_singleton]
    exact ⟨hne, hlast, hch, trivial⟩
  | (w :: tl), acc, prev, hne, hlast, hch, hchain => by
    rw [List.foldl_cons]
    cases hchain with
    | cons hR hchain' =>
      by_cases hw : prev = w
      · subst hw
        have hskip : dedupAppend acc prev = acc := by
          unfold dedupAppend
          rw [hlast]
          simp
        rw [hskip]
        have rec := foldl_dedupAppend_spec tl acc prev hne hlast hch hchain'
        refine ⟨rec.1, ?_, rec.2.2.1, rec.2.2.2⟩
        rw [rec.2.1, List.getLast?_cons_cons]
      · have hcond : acc.getLast? ≠ some w := by
          rw [hlast]
          intro hcontra
          exact hw (Option.some.inj hcontra)
        have happ : dedupAppend acc w = acc ++ [w] := by
          unfold dedupAppend
          rw [if_pos hcond]
        rw [happ]
        have hch2 : List.Chain' R (acc ++ [w]) := by
          rw [List.chain'_append]
          refine ⟨hch, List.chain'_singleton w, ?_⟩
          intro x hx y hy
          rw [hlast, Option.mem_def, Option.some.injEq] at hx
          subst hx
          simp only [List.head?_cons, Option.mem_def, Option.some.injEq] at hy
          subst hy
          exact hR
        have rec := foldl_dedupAppend_spec tl (acc ++ [w]) w (by simp)
          (by simp) hch2 hchain'
        refine ⟨rec.1, ?_, rec.2.2.1, ?_⟩
        · rw [rec.2.1, List.getLast?_cons_cons]
        · rw [rec.2.2.2]
          cases acc with
          | nil => exact absurd rfl hne
          | cons a as => simp

theorem hex_distance_comm (p q : HexCoord) : hex_distance p q = hex_distance q p := by
  unfold hex_distance
  omega

theorem axial_to_cube_sum (p : HexCoord) :
    (_axial_to_cube p).1 + (_axial_to_cube p).2.1 + (_axial_to_cube p).2.2 = 0 := by
  unfold _axial_to_cube
  dsimp only
  ring

/-- Interior waypoint pairs: two rounded interpolation points whose parameters
differ by at most `r / total` in scaled distance are at hex-distance `≤ r + 1`. -/
theorem hexd_roundpair_le (a b : HexCoord) (t1 t2 : ℚ) (r : ℤ)
    (hd : cnorm (csub (_axial_to_cube b) (_axial_to_cube a)) * |t2 - t1| ≤ (r : ℚ)) :
    hex_distance
      (_cube_to_axial (_cube_round (_cube_lerp (_axial_to_cube a) (_axial_to_cube b) t1)))
      (_cube_to_axial (_cube_round (_cube_lerp (_axial_to_cube a) (_axial_to_cube b) t2)))
      ≤ r + 1 := by
  have hsum1 := lerp_sum_zero (_axial_to_cube a) (_axial_to_cube b) t1
    (axial_to_cube_sum a) (axial_to_cube_sum b)
  have hsum2 := lerp_sum_zero (_axial_to_cube a) (_axial_to_cube b) t2
    (axial_to_cube_sum a) (axial_to_cube_sum b)
  have hcast : (hex_distance
      (_cube_to_axial (_cube_round (_cube_lerp (_axial_to_cube a) (_axial_to_cube b) t1)))
      (_cube_to_axial (_cube_round (_cube_lerp (_axial_to_cube a) (_axial_to_cube b) t2))) : ℚ)
      = cnorm (csub
        (castCube (_cube_round (_cube_lerp (_axial_to_cube a) (_axial_to_cube b) t1)))
        (castCube (_cube_round (_cube_lerp (_axial_to_cube a) (_axial_to_cube b) t2)))) := by
    rw [hex_distance_cast, axial_cube_round_trip _ (cube_round_sum _),
      axial_cube_round_trip _ (cube_round_sum _)]
  have tri1 := cnorm_triangle
    (castCube (_cube_round (_cube_lerp (_axial_to_cube a) (_axial_to_cube b) t1)))
    (_cube_lerp (_axial_to_cube a) (_axial_to_cube b) t1)
    (castCube (_cube_round (_cube_lerp (_axial_to_cube a) (_axial_to_cube b) t2)))
  have tri2 := cnorm_triangle
    (_cube_lerp (_axial_to_cube a) (_axial_to_cube b) t1)
    (_cube_lerp (_axial_to_cube a) (_axial_to_cube b) t2)
    (castCube (_cube_round (_cube_lerp (_axial_to_cube a) (_axial_to_cube b) t2)))
  have herr1 := round_cnorm_lt _ hsum1
  have herr2 := round_cnorm_lt _ hsum2
  have herr2' : cnorm (csub
      (_cube_lerp (_axial_to_cube a) (_axial_to_cube b) t2)
      (castCube (_cube_round (_cube_lerp (_axial_to_cube a) (_axial_to_cube b) t2)))) < 1 := by
    rw [cnorm_csub_comm]
    exact herr2
  have hmid : cnorm (csub
      (_cube_lerp (_axial_to_cube a) (_axial_to_cube b) t1)
      (_cube_lerp (_axial_to_cube a) (_axial_to_cube b) t2)) ≤ (r : ℚ) := by
    rw [cnorm_lerp_diff, abs_sub_comm]
    exact hd
  have hQ : (hex_distance
      (_cube_to_axial (_cube_round (_cube_lerp (_axial_to_cube a) (_axial_to_cube b) t1)))
      (_cube_to_axial (_cube_round (_cube_lerp (_axial_to_cube a) (_axial_to_cube b) t2))) : ℚ)
      < (r : ℚ) + 2 := by
    rw [hcast]
    linarith
  have hZ : hex_distance
      (_cube_to_axial (_cube_round (_cube_lerp (_axial_to_cube a) (_axial_to_cube b) t1)))
      (_cube_to_axial (_cube_round (_cube_lerp (_axial_to_cube a) (_axial_to_cube b) t2)))
      < r + 2 := by
    exact_mod_cast hQ
  omega

/-- The pair formed by the start hex and a rounded interpolation point within
scaled distance `r` is at hex-distance `≤ r`. -/
theorem hexd_roundfirst_le (a b : HexCoord) (t : ℚ) (r : ℤ)
    (hd : cnorm (csub (_axial_to_cube b) (_axial_to_cube a)) * |t| ≤ (r : ℚ)) :
    hex_distance a
      (_cube_to_axial (_cube_round (_cube_lerp (_axial_to_cube a) (_axial_to_cube b) t)))
      ≤ r := by
  have hsum := lerp_sum_zero (_axial_to_cube a) (_axial_to_cube b) t
    (axial_to_cube_sum a) (axial_to_cube_sum b)
  have hcast : (hex_distance a
      (_cube_to_axial (_cube_round (_cube_lerp (_axial_to_cube a) (_axial_to_cube b) t))) : ℚ)
      = cnorm (csub (_axial_to_cube a)
        (castCube (_cube_round (_cube_lerp (_axial_to_cube a) (_axial_to_cube b) t)))) := by
    rw [hex_distance_cast, axial_cube_round_trip _ (cube_round_sum _)]
  have tri := cnorm_triangle (_axial_to_cube a)
    (_cube_lerp (_axial_to_cube a) (_axial_to_cube b) t)
    (castCube (_cube_round (_cube_lerp (_axial_to_cube a) (_axial_to_cube b) t)))
  have herr : cnorm (csub
      (_cube_lerp (_axial_to_cube a) (_axial_to_cube b) t)
      (castCube (_cube_round (_cube_lerp (_axial_to_cube a) (_axial_to_cube b) t)))) < 1 := by
    rw [cnorm_csub_comm]
    exact round_cnorm_lt _ hsum
  have hmid : cnorm (csub (_axial_to_cube a)
      (_cube_lerp (_axial_to_cube a) (_axial_to_cube b) t)) ≤ (r : ℚ) := by
    have h0 : _axial_to_cube a =
        _cube_lerp (_axial_to_cube a) (_axial_to_cube b) 0 :=
      (lerp_at_zero _ _).symm
    nth_rewrite 1 [h0]
    rw [cnorm_lerp_diff]
    rw [show |(0:ℚ) - t| = |t| by rw [zero_sub, abs_neg]]
    exact hd
  have hQ : (hex_distance a
      (_cube_to_axial (_cube_round (_cube_lerp (_axial_to_cube a) (_axial_to_cube b) t))) : ℚ)
      < (r : ℚ) + 1 := by
    rw [hcast]
    linarith
  have hZ : hex_distance a
      (_cube_to_axial (_cube_round (_cube_lerp (_axial_to_cube a) (_axial_to_cube b) t)))
      < r + 1 := by
    exact_mod_cast hQ
  omega

/-- At parameter one the rounded interpolation point is exactly the
destination hex. -/
theorem round_lerp_one (a b : HexCoord) :
    _cube_to_axial (_cube_round (_cube_lerp (_axial_to_cube a) (_axial_to_cube b) 1)) = b := by
  rw [lerp_at_one]
  have hcast : _axial_to_cube b = castCube (b.1, -b.1 - b.2, b.2) := by
    unfold _axial_to_cube castCube
    dsimp only
    push_cast
    ring_nf
  rw [hcast, cube_round_intCast _ (by dsimp only; ring)]
  unfold _cube_to_axial
  rfl

theorem hex_distance_nonneg (p q : HexCoord) : 0 ≤ hex_distance p q := by
  unfold hex_distance
  omega

/-- C1 (amended): for all hexes `a`, `b` and every positive jump range `r`,
`find_hex_jump_path a b r` returns a non-empty waypoint list whose last
element is exactly `b`, whose first waypoint is within hex-distance `r` of
`a`, and in which every consecutive pair of hexes — including the pair
`(a, first waypoint)` — is at hex-distance at most `r + 1`.  (Rounding of the
interior interpolation points can exceed the range by exactly one hex, so the
claimed bound `r` only holds for the first leg.) -/
theorem find_hex_jump_path_waypoints (a b : HexCoord) (r : ℤ) (hr : 0 < r) :
    (find_hex_jump_path a b r).getLast? = some b ∧
    List.Chain (fun u v => hex_distance u v ≤ r + 1) a (find_hex_jump_path a b r) ∧
    ∀ w, (find_hex_jump_path a b r).head? = some w → hex_distance a w ≤ r := by
  unfold find_hex_jump_path
  by_cases hle : hex_distance a b ≤ r
  · rw [if_pos hle]
    refine ⟨rfl, List.Chain.cons (by omega) List.Chain.nil, ?_⟩
    intro w hw
    simp only [List.head?_cons, Option.some.injEq] at hw
    subst hw
    exact hle
  · rw [if_neg hle]
    set n : ℤ := ⌈(hex_distance a b : ℚ) / (r : ℚ)⌉ with hndef
    have hrQ : (0:ℚ) < (r : ℚ) := by exact_mod_cast hr
    have htr : r < hex_distance a b := by omega
    have h1Q : (1:ℚ) < (hex_distance a b : ℚ) / (r : ℚ) := by
      rw [lt_div_iff hrQ, one_mul]
      exact_mod_cast htr
    have hn1 : 1 < n := by
      rw [hndef]
      exact Int.lt_ceil.mpr (by exact_mod_cast h1Q)
    have hnpos : 0 < n := by omega
    have hmn : ((n.toNat : ℕ) : ℤ) = n := Int.toNat_of_nonneg (by omega)
    have hm2 : 2 ≤ n.toNat := by omega
    have hmpos : 0 < n.toNat := by omega
    have hnQ : (0:ℚ) < (n : ℚ) := by exact_mod_cast hnpos
    have hub : (hex_distance a b : ℚ) ≤ (n : ℚ) * (r : ℚ) := by
      have hc := Int.le_ceil ((hex_distance a b : ℚ) / (r : ℚ))
      rw [div_le_iff hrQ] at hc
      calc (hex_distance a b : ℚ) ≤ (⌈(hex_distance a b : ℚ) / (r : ℚ)⌉ : ℚ) * r := hc
        _ = (n : ℚ) * r := by rw [hndef]
    have htotcnorm : cnorm (csub (_axial_to_cube b) (_axial_to_cube a)) =
        (hex_distance a b : ℚ) := by
      rw [← hex_distance_cast b a, hex_distance_comm]
    have hstep : cnorm (csub (_axial_to_cube b) (_axial_to_cube a)) *
        |1 / (n : ℚ)| ≤ (r : ℚ) := by
      rw [htotcnorm, abs_of_pos (by positivity), mul_one_div, div_le_iff hnQ]
      linarith
    set g : ℕ → HexCoord := fun i =>
      _cube_to_axial (_cube_round (_cube_lerp (_axial_to_cube a)
        (_axial_to_cube b) (((i : ℚ) + 1) / (n : ℚ)))) with hgdef
    have hraw : hexJumpRaw a b n = (List.range n.toNat).map g := by
      rw [hgdef]
      unfold hexJumpRaw
      rfl
    have hg0 : hex_distance a (g 0) ≤ r := by
      rw [hgdef]
      dsimp only
      apply hexd_roundfirst_le
      rw [show (((0:ℕ) : ℚ) + 1) / (n : ℚ) = 1 / (n : ℚ) by norm_num]
      exact hstep
    have hglast : g (n.toNat - 1) = b := by
      rw [hgdef]
      dsimp only
      rw [show (((n.toNat - 1 : ℕ) : ℚ) + 1) / (n : ℚ) = 1 by
        have hmnQ : ((n.toNat : ℕ) : ℚ) = (n : ℚ) := by exact_mod_cast hmn
        rw [Nat.cast_sub (by omega : 1 ≤ n.toNat), hmnQ]
        field_simp]
      exact round_lerp_one a b
    have hpair : ∀ i : ℕ, hex_distance (g i) (g (i + 1)) ≤ r + 1 := by
      intro i
      rw [hgdef]
      dsimp only
      apply hexd_roundpair_le
      rw [show (((i + 1 : ℕ) : ℚ) + 1) / (n : ℚ) - (((i : ℕ) : ℚ) + 1) / (n : ℚ)
        = 1 / (n : ℚ) by push_cast; ring]
      exact hstep
    have hchain_raw : List.Chain (fun u v => hex_distance u v ≤ r + 1) a
        ((List.range n.toNat).map g) := by
      apply chain_map_range
      · intro _
        have := hg0
        omega
      · intro i _
        exact hpair i
    have hlast_raw := getLast?_map_range n.toNat g hmpos
    have hhead_raw := head?_map_range n.toNat g hmpos
    obtain ⟨w0, tl, hcons⟩ : ∃ w0 tl, (List.range n.toNat).map g = w0 :: tl := by
      cases hlist : (List.range n.toNat).map g with
      | nil =>
        rw [hlist] at hhead_raw
        simp at hhead_raw
      | cons w0 tl => exact ⟨w0, tl, rfl⟩
    have hw0 : w0 = g 0 := by
      rw [hcons] at hhead_raw
      simp only [List.head?_cons, Option.some.injEq] at hhead_raw
      exact hhead_raw
    have hstep1 : dedupAppend [] w0 = [w0] := by
      unfold dedupAppend
      simp
    rcases List.chain_cons.mp (hcons ▸ hchain_raw) with ⟨haw0, hchain_tl⟩
    have hspec := foldl_dedupAppend_spec (R := fun u v => hex_distance u v ≤ r + 1)
      tl [w0] w0 (by simp) (by simp) (List.chain'_singleton w0) hchain_tl
    have hfold : (hexJumpRaw a b n).foldl dedupAppend [] =
        tl.foldl dedupAppend [w0] := by
      rw [hraw, hcons, List.foldl_cons, hstep1]
    have hlastfold : (tl.foldl dedupAppend [w0]).getLast? = some b := by
      rw [hspec.2.1, ← hcons, hlast_raw, hglast]
    have hforce : forceFinal (tl.foldl dedupAppend [w0]) b =
        tl.foldl dedupAppend [w0] := by
      unfold forceFinal
      rw [hlastfold]
      simp
    refine ⟨?_, ?_, ?_⟩
    · rw [hfold, hforce]
      exact hlastfold
    · rw [hfold, hforce]
      have hh : (tl.foldl dedupAppend [w0]).head? = some w0 := by
        rw [hspec.2.2.2]
        simp
      have hchain' : List.Chain' (fun u v => hex_distance u v ≤ r + 1)
          (a :: tl.foldl dedupAppend [w0]) := by
        rw [List.chain'_cons']
        refine ⟨?_, hspec.2.2.1⟩
        intro y hy
        rw [hh, Option.mem_def, Option.some.injEq] at hy
        subst hy
        exact haw0
      exact hchain'
    · intro w hw
      rw [hfold, hforce] at hw
      rw [hspec.2.2.2] at hw
      simp only [List.head?_cons, Option.some.injEq] at hw
      subst hw
      rw [hw0]
      exact hg0

/-- C1 (counterexample): with `a = (0,0)`, `b = (-10,-3)` and range `r = 2`
(a positive range), the returned waypoint list contains the consecutive pair
`(-4,-1), (-6,-2)` at hex-distance `3 > r`, so the claimed range bound on
every consecutive pair is false. -/
theorem find_hex_jump_path_range_cex :
    (0:ℤ) < 2 ∧ ¬ HexJumpPathClaim (0, 0) (-10, -3) 2 := by
  have hraw : hexJumpRaw (0, 0) (-10, -3) 7 =
      [((-1:ℤ), (-1:ℤ)), (-3, -1), (-4, -1), (-6, -2), (-7, -2), (-9, -2),
        (-10, -3)] := by
    unfold hexJumpRaw
    rw [show ((7:ℤ).toNat) = 7 from rfl,
      show List.range 7 = [0, 1, 2, 3, 4, 5, 6] from rfl]
    simp only [List.map_cons, List.map_nil, List.cons.injEq, and_true]
    norm_num [_axial_to_cube, _cube_lerp, _cube_round, pyround,
      _cube_to_axial, Prod.ext_iff, abs_of_nonneg, abs_of_nonpos]
  have hceil : (⌈((hex_distance (0, 0) ((-10 : ℤ), (-3 : ℤ)) : ℤ) : ℚ) /
      ((2 : ℤ) : ℚ)⌉ : ℤ) = 7 := by
    rw [show hex_distance (0, 0) ((-10 : ℤ), (-3 : ℤ)) = 13 from rfl]
    rw [Int.ceil_eq_iff]
    norm_num
  have hpath : find_hex_jump_path (0, 0) (-10, -3) 2 =
      [((-1:ℤ), (-1:ℤ)), (-3, -1), (-4, -1), (-6, -2), (-7, -2), (-9, -2),
        (-10, -3)] := by
    unfold find_hex_jump_path
    rw [if_neg (by decide)]
    rw [hceil, hraw]
    decide
  refine ⟨by decide, ?_⟩
  unfold HexJumpPathClaim
  rw [hpath]
  intro hcl
  obtain ⟨-, hchain⟩ := hcl
  rcases hchain with _ | ⟨h0, hchain⟩
  rcases hchain with _ | ⟨h1, hchain⟩
  rcases hchain with _ | ⟨h2, hchain⟩
  rcases hchain with _ | ⟨h3, hchain⟩
  exact absurd h3 (by decide)

/-- C1 witness: the amended waypoint guarantees applied to the concrete jump
from `(0,0)` to `(7,0)` with range `3`. -/
theorem find_hex_jump_path_waypoints_witness :
    (0:ℤ) < 3 ∧
    ((find_hex_jump_path (0, 0) (7, 0) 3).getLast? = some (7, 0) ∧
      List.Chain (fun u v => hex_distance u v ≤ 3 + 1) (0, 0)
        (find_hex_jump_path (0, 0) (7, 0) 3) ∧
      ∀ w, (find_hex_jump_path (0, 0) (7, 0) 3).head? = some w →
        hex_distance (0, 0) w ≤ 3) :=
  ⟨by decide, find_hex_jump_path_waypoints (0, 0) (7, 0) 3 (by decide)⟩

/-! ## C2: find_intersystem_path -/

theorem walk_cases {g : Graph} {a b : String} {k : ℕ} (h : IsWalk g a b k) :
    (a = b ∧ k = 0) ∨ ∃ w k', k = k' + 1 ∧ Edge g a w ∧ IsWalk g w b k' := by
  cases h with
  | refl v => exact Or.inl ⟨rfl, rfl⟩
  | step he hw => exact Or.inr ⟨_, _, rfl, he, hw⟩

/-- C2 (counterexample): the claim promises the no-path answer for every
graph with disconnected endpoints, but on the graph `{A: [B], C: []}` — whose
node `A` lists the absent key `B` — the call with the present, disconnected
endpoints `A` and `C` raises an uncaught `KeyError` at
`distances[neighbor]` (result `none`) instead of returning `None`
(result `some none`). -/
theorem find_intersystem_path_crash_cex :
    find_intersystem_path [("A", ["B"]), ("C", [])] "A" "C" = none ∧
    (dictLookup [("A", ["B"]), ("C", [])] "A").isSome = true ∧
    (dictLookup [("A", ["B"]), ("C", [])] "C").isSome = true ∧
    ∀ k, ¬ IsWalk [("A", ["B"]), ("C", [])] "A" "C" k := by
  refine ⟨?_, by decide, by decide, ?_⟩
  · unfold find_intersystem_path
    rw [if_neg (by decide), if_neg (by decide)]
    rw [dijkstraLoop]
    simp [popMin, minPairFold, removeFirstPair, dictLookup, gtDist, ltDist,
      relaxAll, relaxNeighbor]
  · intro k hk
    rcases walk_cases hk with ⟨hab, -⟩ | ⟨w, k', -, he, hw⟩
    · exact absurd hab (by decide)
    · obtain ⟨ns, hns, hw'⟩ := he
      simp [dictLookup] at hns
      subst hns
      simp at hw'
      subst hw'
      rcases walk_cases hw with ⟨hab2, -⟩ | ⟨w2, k2, -, he2, hw2⟩
      · exact absurd hab2 (by decide)
      · obtain ⟨ns2, hns2, -⟩ := he2
        simp [dictLookup] at hns2

/-- C2 (amended): on a closed graph (every listed neighbour is itself a key,
which holds for the game's wormhole graph), `find_intersystem_path` never
crashes: it returns `None` when an endpoint is absent; otherwise it returns
either a path that starts at `start`, ends at `end`, follows only graph
edges and has minimal hop count, or `None` exactly when no walk connects the
endpoints. -/
theorem find_intersystem_path_correct (g : Graph) (s e : String)
    (hclosed : ClosedGraph g) :
    (((dictLookup g s).isNone = true ∨ (dictLookup g e).isNone = true) →
      find_intersystem_path g s e = some none) ∧
    ((dictLookup g s).isSome = true → (dictLookup g e).isSome = true →
      ∃ r, find_intersystem_path g s e = some r ∧
        ((∃ p, r = some p ∧ p.head? = some s ∧ p.getLast? = some e ∧
            List.Chain' (Edge g) p ∧ IsWalk g s e (p.length - 1) ∧
            ∀ k, IsWalk g s e k → p.length ≤ k + 1)
         ∨ (r = none ∧ ∀ k, ¬ IsWalk g s e k))) := by
  constructor
  · intro h
    unfold find_intersystem_path
    rw [if_pos h]
  · intro hs he
    unfold find_intersystem_path
    have hcond : ¬((dictLookup g s).isNone = true ∨
        (dictLookup g e).isNone = true) := by
      rintro (h | h)
      · rw [Option.isNone_iff_eq_none] at h
        rw [h] at hs
        simp at hs
      · rw [Option.isNone_iff_eq_none] at h
        rw [h] at he
        simp at he
    rw [if_neg hcond]
    by_cases hse : s = e
    · rw [if_pos hse]
      subst hse
      refine ⟨some [s], rfl, Or.inl ⟨[s], rfl, rfl, rfl,
        List.chain'_singleton s, IsWalk.refl s, ?_⟩⟩
      intro k hk
      simp
    · rw [if_neg hse]
      exact dijkstraLoop_spec g s e hclosed _ [] (init_Inv g s hs) (by simp)

/-- Witness for the amended C2 on the two-node closed graph A ↔ B. -/
theorem find_intersystem_path_correct_witness :
    ClosedGraph [("A", ["B"]), ("B", ["A"])] ∧
    (∃ r, find_intersystem_path [("A", ["B"]), ("B", ["A"])] "A" "B" = some r ∧
      ((∃ p, r = some p ∧ p.head? = some "A" ∧ p.getLast? = some "B" ∧
          List.Chain' (Edge [("A", ["B"]), ("B", ["A"])]) p ∧
          IsWalk [("A", ["B"]), ("B", ["A"])] "A" "B" (p.length - 1) ∧
          ∀ k, IsWalk [("A", ["B"]), ("B", ["A"])] "A" "B" k →
            p.length ≤ k + 1)
       ∨ (r = none ∧
          ∀ k, ¬ IsWalk [("A", ["B"]), ("B", ["A"])] "A" "B" k))) :=
  ⟨by unfold ClosedGraph; decide,
   (find_intersystem_path_correct [("A", ["B"]), ("B", ["A"])] "A" "B"
      (by unfold ClosedGraph; decide)).2 (by decide) (by decide)⟩

/-! ## C3: Order.update on terminal orders -/

/-- C3 (counterexample): `update()` on a CANCELLED order that still queues a
CANCELLED sub-order is not a no-op — the drain loop pops the finished
sub-order from the deque. -/
theorem order_update_terminal_not_noop_cex :
    ∃ o' st', Order.update oracle0 0 2
        (Order.mk 0 .MOVE {} .CANCELLED [Order.mk 1 .MOVE {} .CANCELLED []]) st0
      = some (o', st') ∧
      (Order.mk 0 .MOVE {} .CANCELLED
        [Order.mk 1 .MOVE {} .CANCELLED []]).status = .CANCELLED ∧
      o' ≠ Order.mk 0 .MOVE {} .CANCELLED [Order.mk 1 .MOVE {} .CANCELLED []] := by
  refine ⟨Order.mk 0 .MOVE {} .CANCELLED [], st0, ?_, rfl, by simp⟩
  rw [Order.update]
  simp only [Order.sub_orders, Order.withSubs]
  rw [show drainSubs oracle0 0 1
      [Order.mk 1 .MOVE {} .CANCELLED []] st0 = some ([], st0) from ?_]
  · simp only [Option.bind_eq_bind, Option.some_bind]
    rw [if_pos (by rfl : ([] : List Order).isEmpty = true)]
    rw [check_completion_conditions]
    rw [if_pos (by simp [Order.withSubs, Order.status])]
  · rw [drainSubs]
    simp [Order.status, Order.execute, drainSubs]

/-- C3 (amended): `update()` on a COMPLETED/FAILED/CANCELLED order never
changes the order's own status, and is a complete no-op (same order, same
game state) when the sub-order queue is empty; a terminal order with queued
finished sub-orders merely has them drained. -/
theorem order_update_terminal (orc : Oracle) (uid fuel : ℕ) (o : Order)
    (st : GState)
    (hterm : o.status = .COMPLETED ∨ o.status = .FAILED ∨
      o.status = .CANCELLED) :
    (∀ o' st', Order.update orc uid (fuel + 1) o st = some (o', st') →
      o'.status = o.status) ∧
    (o.sub_orders = [] → Order.update orc uid (fuel + 1) o st = some (o, st)) :=
  ⟨fun o' st' hrun => updateTerminalStatus orc uid fuel o st o' st' hterm hrun,
   fun hsubs => updateTerminalNoop orc uid fuel o st hterm hsubs⟩

/-- Witness for C3 (amended) at a concrete FAILED order. -/
theorem order_update_terminal_witness :
    ((Order.mk 0 .MOVE {} .FAILED []).status = .COMPLETED ∨
      (Order.mk 0 .MOVE {} .FAILED []).status = .FAILED ∨
      (Order.mk 0 .MOVE {} .FAILED []).status = .CANCELLED) ∧
    ((∀ o' st', Order.update oracle0 0 1 (Order.mk 0 .MOVE {} .FAILED []) st0
        = some (o', st') → o'.status = (Order.mk 0 .MOVE {} .FAILED []).status) ∧
     ((Order.mk 0 .MOVE {} .FAILED []).sub_orders = [] →
        Order.update oracle0 0 1 (Order.mk 0 .MOVE {} .FAILED []) st0
          = some (Order.mk 0 .MOVE {} .FAILED [], st0))) :=
  ⟨Or.inr (Or.inl rfl),
   order_update_terminal oracle0 0 0 (Order.mk 0 .MOVE {} .FAILED []) st0
     (Or.inr (Or.inl rfl))⟩

/-! ## C4: Commander current-order invariant -/

/-- C4 (counterexample): `add_order` promotes and executes the new order at
once; an order that fails instantly (here a TOGGLE_INHIBITOR on a unit
without an inhibitor) is left as `current_order` with a terminal FAILED
status, violating the claimed invariant that `current_order` is only ever
PENDING or IN_PROGRESS. -/
theorem commander_add_order_terminal_cex :
    ∃ r, Commander.add_order oracle0 1 0 ⟨none, []⟩
        (Order.mk 0 .TOGGLE_INHIBITOR {} .PENDING []) stU = some r ∧
      ∃ o', r.1.current_order = some o' ∧ o'.status = .FAILED := by
  refine ⟨(⟨some (Order.mk 0 .TOGGLE_INHIBITOR {} .FAILED []), []⟩, stU), ?_,
    Order.mk 0 .TOGGLE_INHIBITOR {} .FAILED [], rfl, rfl⟩
  rfl

/-- C4 (amended): a terminal (FAILED or CANCELLED) current order with an
empty sub-order queue is discarded by `Commander.update()` and replaced by
promoting the head of the backlog, which is executed immediately (so it may
itself already be terminal until the next update); with an empty backlog the
commander ends with no current order and an unchanged game state. -/
theorem commander_update_discards (orc : Oracle) (fuel uid : ℕ)
    (c : Commander) (st : GState) (o : Order)
    (hcur : c.current_order = some o)
    (hterm : o.status = .FAILED ∨ o.status = .CANCELLED)
    (hsubs : o.sub_orders = []) :
    Commander.update orc (fuel + 1) uid c st =
      Commander.start_next_order orc (fuel + 1) uid ⟨none, c.orders_queue⟩ st ∧
    (c.orders_queue = [] →
      Commander.update orc (fuel + 1) uid c st = some (⟨none, []⟩, st)) ∧
    (∀ r, Commander.start_next_order orc (fuel + 1) uid ⟨none, c.orders_queue⟩ st
        = some r →
      r.1.orders_queue = c.orders_queue.tail ∧
      (c.orders_queue ≠ [] → r.1.current_order.isSome)) := by
  have hterm' : o.status = .COMPLETED ∨ o.status = .FAILED ∨
      o.status = .CANCELLED := Or.inr hterm
  have hupd := updateTerminalNoop orc uid fuel o st hterm' hsubs
  have hfin : (o.is_completed = true ∨ o.status = .FAILED ∨
      o.status = .CANCELLED) := Or.inr hterm
  have hmain : Commander.update orc (fuel + 1) uid c st =
      Commander.start_next_order orc (fuel + 1) uid ⟨none, c.orders_queue⟩ st := by
    rw [Commander.update, hcur]
    simp only [Option.isNone_some, Bool.false_eq_true, if_false,
      Option.bind_eq_bind, Option.some_bind]
    rw [hcur]
    simp only [hupd, Option.some_bind]
    rw [if_pos hfin]
  refine ⟨hmain, ?_, ?_⟩
  · intro hq
    rw [hmain, hq]
    rfl
  · intro r hr
    cases hq : c.orders_queue with
    | nil =>
      rw [hq] at hr
      rw [show Commander.start_next_order orc (fuel + 1) uid ⟨none, []⟩ st =
        some (⟨none, []⟩, st) from rfl] at hr
      rw [Option.some.injEq] at hr
      subst hr
      exact ⟨rfl, fun h => absurd rfl h⟩
    | cons h t =>
      rw [hq] at hr
      rw [Commander.start_next_order] at hr
      simp only [Option.bind_eq_bind] at hr
      cases he : Order.execute orc uid h st with
      | none =>
        rw [he] at hr
        simp at hr
      | some e =>
        rw [he] at hr
        simp only [Option.some_bind] at hr
        by_cases hip : e.1.status = .IN_PROGRESS
        · rw [if_pos hip] at hr
          cases hu : Order.update orc uid (fuel + 1) e.1 e.2 with
          | none =>
            rw [hu] at hr
            simp at hr
          | some u =>
            rw [hu] at hr
            simp only [Option.some_bind, Option.some.injEq] at hr
            subst hr
            exact ⟨rfl, fun _ => rfl⟩
        · rw [if_neg hip] at hr
          rw [Option.some.injEq] at hr
          subst hr
          exact ⟨rfl, fun _ => rfl⟩

/-- Witness for C4 (amended): a FAILED current order and an empty backlog. -/
theorem commander_update_discards_witness :
    ((⟨some (Order.mk 0 .MOVE {} .FAILED []), []⟩ : Commander).current_order
      = some (Order.mk 0 .MOVE {} .FAILED [])) ∧
    (Commander.update oracle0 1 0
        ⟨some (Order.mk 0 .MOVE {} .FAILED []), []⟩ stU =
      Commander.start_next_order oracle0 1 0 ⟨none, []⟩ stU ∧
     (([] : List Order) = [] →
       Commander.update oracle0 1 0
         ⟨some (Order.mk 0 .MOVE {} .FAILED []), []⟩ stU = some (⟨none, []⟩, stU)) ∧
     (∀ r, Commander.start_next_order oracle0 1 0 ⟨none, []⟩ stU = some r →
       r.1.orders_queue = ([] : List Order).tail ∧
       (([] : List Order) ≠ [] → r.1.current_order.isSome))) :=
  ⟨rfl, commander_update_discards oracle0 0 0
    ⟨some (Order.mk 0 .MOVE {} .FAILED []), []⟩ stU
    (Order.mk 0 .MOVE {} .FAILED []) rfl (Or.inl rfl) rfl⟩

/-! ## C7: TOGGLE_INHIBITOR atomicity -/

/-- C7: executing a PENDING TOGGLE_INHIBITOR order with `turn_on=true` on a
unit at a valid location is atomic and fully validated: it spawns no
sub-orders and ends COMPLETED or FAILED within the call; it fails exactly
when the unit has no inhibitor, the proposed field is not contained in the
hex boundary, or it intersects an existing zone — and then the state is
untouched; otherwise the emitter is activated and the zone map gains exactly
the proposed circle under the unit's id. -/
theorem toggle_inhibitor_atomic (orc : Oracle) (uid : ℕ) (o : Order)
    (st : GState) (u : Unit) (sys : StarSystem) (hexrec : HexRec)
    (hpend : o.status = .PENDING) (hty : o.order_type = .TOGGLE_INHIBITOR)
    (hton : o.parameters.turn_on = true)
    (hu : lookupKey st.units uid = some u)
    (hsys : lookupKey st.systems u.in_system = some sys)
    (hhex : lookupKey sys.hexes u.in_hex = some hexrec) :
    ∃ o' st', Order.execute orc uid o st = some (o', st') ∧
      (o'.status = .COMPLETED ∨ o'.status = .FAILED) ∧
      o'.sub_orders = o.sub_orders ∧
      (o'.status = .FAILED ↔
        (u.inhibitor_component = none ∨
         ∃ inh, u.inhibitor_component = some inh ∧
           (¬ is_circle_contained ⟨u.position, inh.radius⟩ hexBoundary ∨
            hexrec.get_all_inhibition_zones.any
              (fun z => do_circles_intersect ⟨u.position, inh.radius⟩ z)))) ∧
      (o'.status = .FAILED → st' = st) ∧
      (∀ inh, u.inhibitor_component = some inh → o'.status = .COMPLETED →
        st' = inhActivatedState st uid u inh hexrec) := by
  rw [Order.execute, if_neg (by rw [hpend]; simp), hty]
  unfold _execute_toggle_inhibitor GState.getUnit
  rw [show lookupKey st.units uid = some u from hu]
  simp only []
  cases hinh : u.inhibitor_component with
  | none =>
    refine ⟨(o.withStatus .IN_PROGRESS).withStatus .FAILED, st, rfl,
      Or.inr (by simp), by simp, ?_, fun _ => rfl, ?_⟩
    · simp
    · intro inh hinh' _
      exact absurd hinh' (by simp)
  | some inh =>
    simp only []
    rw [hsys]
    simp only []
    rw [hhex]
    simp only []
    rw [if_pos (by simp [hton] :
      ((o.withStatus .IN_PROGRESS).parameters.turn_on = true))]
    by_cases hcont :
        is_circle_contained ⟨u.position, inh.radius⟩ hexBoundary = true
    · rw [if_neg (by simp [hcont])]
      by_cases hint : hexrec.get_all_inhibition_zones.any
          (fun z => do_circles_intersect ⟨u.position, inh.radius⟩ z) = true
      · rw [if_pos hint]
        refine ⟨(o.withStatus .IN_PROGRESS).withStatus .FAILED, st, rfl,
          Or.inr (by simp), by simp, ?_, fun _ => rfl, ?_⟩
        · simp
          exact Or.inr (List.any_eq_true.mp hint)
        · intro inh' hinh' habs
          simp at habs
      · rw [if_neg hint]
        refine ⟨(o.withStatus .IN_PROGRESS).withStatus .COMPLETED, _, rfl,
          Or.inl (by simp), by simp, ?_, ?_, ?_⟩
        · simp [hcont]
          intro x hx
          have h2 := Bool.eq_false_iff.mpr hint
          have h3 := List.any_eq_false.mp h2 x hx
          simpa using h3
        · intro habs
          simp at habs
        · intro inh' hinh' _
          rw [Option.some.injEq] at hinh'
          subst hinh'
          rfl
    · rw [if_pos (by simp [hcont])]
      refine ⟨(o.withStatus .IN_PROGRESS).withStatus .FAILED, st, rfl,
        Or.inr (by simp), by simp, ?_, fun _ => rfl, ?_⟩
      · simp
        exact Or.inl (by simpa using hcont)
      · intro inh' hinh' habs
        simp at habs

/-- Witness for C7: a lone inhibitor ship at the hex center. -/
theorem toggle_inhibitor_atomic_witness :
    ((Order.mk 0 .TOGGLE_INHIBITOR { turn_on := true } .PENDING []).status
        = .PENDING) ∧
    ∃ o' st', Order.execute oracle0 0
        (Order.mk 0 .TOGGLE_INHIBITOR { turn_on := true } .PENDING [])
        stInh = some (o', st') ∧
      (o'.status = .COMPLETED ∨ o'.status = .FAILED) := by
  have h := toggle_inhibitor_atomic oracle0 0
    (Order.mk 0 .TOGGLE_INHIBITOR { turn_on := true } .PENDING []) stInh
    uInh ⟨[((0, 0), ⟨[], [], [0]⟩)]⟩ ⟨[], [], [0]⟩ rfl rfl rfl rfl rfl rfl
  obtain ⟨o', st', hrun, hst, -⟩ := h
  exact ⟨rfl, o', st', hrun, hst⟩

/-- C8: jump-target mutual exclusion. `_execute_reach_waypoint` — the only
code that ever assigns a non-`None` jump target — preserves "at most one of
`hex_jump_target` and `wormhole_jump_target` is set", and whenever the call
leaves the unit's hyperdrive with a changed, set hex (resp. wormhole) jump
target, the other jump target and the engines' sublight `move_target` have
been cleared; `Hyperdrive.start_recharge` clears both jump targets. -/
theorem reach_waypoint_target_mutex (uid : ℕ) (o o' : Order) (st st' : GState)
    (u u' : Unit)
    (hrun : _execute_reach_waypoint uid o st = some (o', st'))
    (hu : lookupKey st.units uid = some u)
    (hu' : lookupKey st'.units uid = some u')
    (hmx : UnitTargetsMutex u) :
    (UnitTargetsMutex u' ∧
     (∀ g g', u.hyperdrive_component = some g →
       u'.hyperdrive_component = some g' →
       (g'.hex_jump_target ≠ g.hex_jump_target → g'.hex_jump_target.isSome →
         g'.wormhole_jump_target = none ∧ EnginesCleared u') ∧
       (g'.wormhole_jump_target ≠ g.wormhole_jump_target →
         g'.wormhole_jump_target.isSome →
         g'.hex_jump_target = none ∧ EnginesCleared u'))) ∧
    (∀ g : Hyperdrive, g.start_recharge.hex_jump_target = none ∧
      g.start_recharge.wormhole_jump_target = none) := by
  refine ⟨?_, fun g => ⟨rfl, rfl⟩⟩
  unfold _execute_reach_waypoint GState.getUnit at hrun
  rw [hu] at hrun
  simp only [] at hrun
  split at hrun
  all_goals try split at hrun
  all_goals try split at hrun
  all_goals try split at hrun
  all_goals try split at hrun
  all_goals try split at hrun
  all_goals rw [Option.some.injEq, Prod.mk.injEq] at hrun
  all_goals obtain ⟨ho', hst'⟩ := hrun
  all_goals subst hst'
  all_goals try (
    rw [hu] at hu'
    injection hu' with hh
    subst hh
    exact ⟨hmx, fun g g' hg hg' => by
      rw [hg] at hg'
      injection hg' with hgg
      subst hgg
      exact ⟨fun hne _ => absurd rfl hne, fun hne _ => absurd rfl hne⟩⟩)
  all_goals simp only [GState.setUnit] at hu'
  all_goals rw [lookupKey_setKey_self] at hu'
  all_goals injection hu' with hh
  all_goals subst hh
  · constructor
    · intro g' hg'
      simp only [Unit.setEnginesTarget, Unit.setHyper] at hg'
      obtain ⟨g0, hg0, hfg⟩ := Option.map_eq_some'.mp hg'
      subst hfg
      exact Or.inr rfl
    · intro g g' hg hg'
      simp only [Unit.setEnginesTarget, Unit.setHyper] at hg'
      obtain ⟨g0, hg0, hfg⟩ := Option.map_eq_some'.mp hg'
      subst hfg
      refine ⟨fun _ _ => ⟨rfl, ?_⟩, fun _ hs => absurd hs (by simp)⟩
      intro e he
      simp only [Unit.setEnginesTarget, Unit.setHyper] at he
      obtain ⟨e0, he0, hfe⟩ := Option.map_eq_some'.mp he
      subst hfe
      rfl
  · constructor
    · intro g' hg'
      simp only [Unit.setEnginesTarget, Unit.setHyper] at hg'
      obtain ⟨g0, hg0, hfg⟩ := Option.map_eq_some'.mp hg'
      subst hfg
      exact Or.inl rfl
    · intro g g' hg hg'
      simp only [Unit.setEnginesTarget, Unit.setHyper] at hg'
      obtain ⟨g0, hg0, hfg⟩ := Option.map_eq_some'.mp hg'
      subst hfg
      exact ⟨fun _ hs => absurd hs (by simp), fun _ hs => absurd hs (by simp)⟩
  · constructor
    · intro g' hg'
      simp only [Unit.setEnginesTarget, Unit.setHyper] at hg'
      obtain ⟨g0, hg0, hfg⟩ := Option.map_eq_some'.mp hg'
      subst hfg
      exact Or.inl rfl
    · intro g g' hg hg'
      simp only [Unit.setEnginesTarget, Unit.setHyper] at hg'
      obtain ⟨g0, hg0, hfg⟩ := Option.map_eq_some'.mp hg'
      subst hfg
      exact ⟨fun _ hs => absurd hs (by simp), fun _ hs => absurd hs (by simp)⟩
  · constructor
    · intro g' hg'
      simp only [Unit.setEnginesTarget, Unit.setHyper] at hg'
      obtain ⟨g0, hg0, hfg⟩ := Option.map_eq_some'.mp hg'
      subst hfg
      exact Or.inl rfl
    · intro g g' hg hg'
      simp only [Unit.setEnginesTarget, Unit.setHyper] at hg'
      obtain ⟨g0, hg0, hfg⟩ := Option.map_eq_some'.mp hg'
      subst hfg
      refine ⟨fun _ hs => absurd hs (by simp), fun _ _ => ⟨rfl, ?_⟩⟩
      intro e he
      simp only [Unit.setEnginesTarget, Unit.setHyper] at he
      obtain ⟨e0, he0, hfe⟩ := Option.map_eq_some'.mp he
      subst hfe
      rfl

/-- Witness for C8: a concrete hex-jump configuration run. -/
theorem reach_waypoint_target_mutex_witness :
    UnitTargetsMutex u1W ∧
    (∀ g : Hyperdrive, g.start_recharge.hex_jump_target = none ∧
      g.start_recharge.wormhole_jump_target = none) := by
  have h := reach_waypoint_target_mutex 0 oW oW stHD st1W uHD u1W rfl rfl rfl
    (fun g hg => by rw [← Option.some.inj hg]; exact Or.inl rfl)
  exact ⟨h.1.1, h.2⟩

/-! ## C6 -/

/-- C6 (counterexample): a unit whose hyperdrive is CHARGING with
`recharge_time_remaining = 2` and a queued hex-jump target, but whose
commander holds an IN_PROGRESS REACH_WAYPOINT order at the unit's own
position: one `process_turn` run ticks the recharge to 1 and keeps the status
CHARGING, yet phase 4's order completion clears the queued hex-jump target,
contradicting the claim that the target is not cleared. -/
theorem process_turn_clears_target_cex :
    hdC6.jump_status = .CHARGING ∧ hdC6.recharge_time_remaining = 2 ∧
    hdC6.hex_jump_target = some ((1, 0), ⟨0, 0⟩) ∧
    uC6.hyperdrive_component = some hdC6 ∧
    ((process_turn oracle0 10 0 stC6).bind (fun st2 => lookupKey st2.units 0)).bind
        (fun u2 => u2.hyperdrive_component) =
      some ⟨5, none, none, .CHARGING, 1, 2⟩ := by
  have hdl2 : distance_lt ⟨0, 0⟩ ⟨0, 0⟩ 100⁻¹ = true := by
    norm_num [distance_lt, distance_sq]
  refine ⟨rfl, rfl, rfl, rfl, ?_⟩
  simp [process_turn, phase1, phase1System, StarSystem.get_all_units, scanLoop,
    jumpLoop, processHexJump, phase2, phase3, taxFold, phase4Systems,
    phase4Units, Unit.update, Commander.update, Commander.start_next_order,
    Order.update, drainSubs, check_completion_conditions, Order.is_completed,
    Hyperdrive.update_recharge, oC6, uC6, u0, stC6, st0, sysC6, hdC6, oracle0,
    GState.getUnit, GState.setUnit, setKey, lookupKey, destParams,
    Unit.setEnginesTarget, Unit.setHyper, Order.status, Order.order_type,
    Order.parameters, Order.withStatus, Order.withSubs, Order.sub_orders,
    Prod.ext_iff, hdl2]

/-- C6 (amended): for a single-system, single-unit state whose commander is
idle, a CHARGING hyperdrive with `recharge_time_remaining = 2` and a queued
hex-jump target to a valid other hex defers the jump without failing it: the
position and hex are unchanged, the status is still CHARGING, the target is
still queued, and the recharge countdown is 1. -/
theorem charging_hex_jump_deferred (orc : Oracle) (fuel cur uid : ℕ)
    (st : GState) (sys : StarSystem) (u : Unit) (hd : Hyperdrive)
    (h1 th : HexCoord) (tp : Position)
    (hsys : st.systems = [("S", sys)])
    (hunits : sys.get_all_units = [(uid, h1)])
    (hu : lookupKey st.units uid = some u)
    (hinsys : u.in_system = "S")
    (hown : u.owner = cur)
    (hhd : u.hyperdrive_component = some hd)
    (hjs : hd.jump_status = .CHARGING)
    (hrem : hd.recharge_time_remaining = 2)
    (htgt : hd.hex_jump_target = some (th, tp))
    (hwh : hd.wormhole_jump_target = none)
    (hne : th ≠ h1)
    (hpres : (lookupKey sys.hexes th).isSome)
    (hcmd : u.commander_component = ⟨none, []⟩)
    (hweap : u.weapons_component = none)
    (hcons : u.constructor_component = none) :
    ∃ st' u' hd', process_turn orc fuel cur st = some st' ∧
      lookupKey st'.units uid = some u' ∧
      u'.position = u.position ∧ u'.in_hex = u.in_hex ∧
      u'.hyperdrive_component = some hd' ∧
      hd'.jump_status = .CHARGING ∧
      hd'.hex_jump_target = some (th, tp) ∧
      hd'.recharge_time_remaining = 1 := by
  have hur : Hyperdrive.update_recharge hd = { hd with recharge_time_remaining := 1 } := by
    rw [Hyperdrive.update_recharge, hjs, hrem]
    norm_num
  refine ⟨((phase3 cur (phase2 st)).setUnit uid (u.setHyper Hyperdrive.update_recharge)).setUnit uid { u.setHyper Hyperdrive.update_recharge with commander_component := ⟨none, []⟩ },
    { u.setHyper Hyperdrive.update_recharge with commander_component := ⟨none, []⟩ },
    Hyperdrive.update_recharge hd, ?_, ?_, ?_, ?_, ?_, ?_, ?_, ?_⟩
  · simp [process_turn, phase1, phase1System, scanLoop,
      jumpLoop, processHexJump, phase2, phase3, taxFold, phase4Systems,
      phase4Units, Unit.update, Commander.update, Commander.start_next_order,
      GState.setUnit, lookupKey_setKey_self, lookupKey,
      Unit.setHyper, hsys, hunits, hu, hinsys, hown, hhd, hjs, htgt, hwh,
      hcmd, hweap, hcons, hne, hpres]
  · simp [GState.setUnit, lookupKey_setKey_self]
  · simp [Unit.setHyper]
  · simp [Unit.setHyper]
  · simp [Unit.setHyper, hhd]
  · rw [hur]
    exact hjs
  · rw [hur]
    exact htgt
  · rw [hur]

/-- Witness for C6 (amended): the concrete charging unit with an idle
commander. -/
theorem charging_hex_jump_deferred_witness :
    ∃ st' u' hd', process_turn oracle0 10 0 stC6w = some st' ∧
      lookupKey st'.units 0 = some u' ∧
      u'.position = uC6w.position ∧ u'.in_hex = uC6w.in_hex ∧
      u'.hyperdrive_component = some hd' ∧
      hd'.jump_status = .CHARGING ∧
      hd'.hex_jump_target = some ((1, 0), ⟨0, 0⟩) ∧
      hd'.recharge_time_remaining = 1 :=
  charging_hex_jump_deferred oracle0 10 0 0 stC6w sysC6 uC6w hdC6 (0, 0) (1, 0) ⟨0, 0⟩
    rfl rfl rfl rfl rfl rfl rfl rfl rfl rfl (by decide) rfl rfl rfl rfl

/-! ## C5 theorems -/

theorem treeInv_iff (o : Order) :
    TreeInv o ↔ ((o.status = .PENDING → o.sub_orders = []) ∧
      (∀ s ∈ o.sub_orders.tail, s.status = .PENDING) ∧
      (∀ s ∈ o.sub_orders, TreeInv s)) := by
  obtain ⟨i, ty, ps, s, subs⟩ := o
  rw [TreeInv]
  simp only [Order.status, Order.sub_orders]
  constructor
  · rintro ⟨a, b, c⟩
    exact ⟨a, b, fun x hx => c ⟨x, hx⟩ (List.mem_attach _ _)⟩
  · rintro ⟨a, b, c⟩
    exact ⟨a, b, fun x _ => c x.1 x.2⟩

theorem subsShape_treeInv {l : List Order} (h : SubsShape l) :
    ∀ s ∈ l, TreeInv s := by
  intro s hs
  obtain ⟨h1, h2⟩ := h s hs
  rw [treeInv_iff, h2]
  exact ⟨fun _ => rfl, by simp, by simp⟩

theorem spawnSub_shape (o : Order) (ty : OrderType) (ps : OrderParams)
    (st : GState) (hs : SubsShape o.sub_orders) :
    SubsShape (spawnSub o ty ps st).1.sub_orders ∧
    (spawnSub o ty ps st).1.status = o.status := by
  refine ⟨?_, by simp [spawnSub]⟩
  rw [spawnSub_fst]
  simp only [withSubs_subs]
  intro s hs2
  rcases List.mem_append.mp hs2 with h | h
  · exact hs s h
  · rcases List.mem_singleton.mp h with rfl
    exact ⟨rfl, rfl⟩


theorem spawnSub_status (o : Order) (ty : OrderType) (ps : OrderParams)
    (st : GState) : (spawnSub o ty ps st).1.status = o.status := by
  rw [spawnSub_fst]
  simp

theorem handle_inhibited_waypoint_shape (orc : Oracle) (th : HexCoord)
    (tp : Position) (fin : Bool) (sysname : String) (o : Order) (st : GState)
    (hs : SubsShape o.sub_orders) :
    ∀ r, handle_inhibited_waypoint orc th tp fin sysname o st = some r →
      SubsShape r.1.sub_orders ∧ r.1.status = o.status := by
  intro r h
  unfold handle_inhibited_waypoint at h
  cases h1 : lookupKey st.systems sysname with
  | none =>
    rw [h1] at h
    exact Option.noConfusion h
  | some sys =>
    rw [h1] at h
    simp only [] at h
    cases h2 : lookupKey sys.hexes th with
    | none =>
      rw [h2] at h
      simp only [] at h
      rw [Option.some.injEq] at h
      subst h
      exact ⟨hs, rfl⟩
    | some hexrec =>
      rw [h2] at h
      simp only [] at h
      cases h3 : hexrec.get_all_inhibition_zones.find?
          (fun z => is_point_in_circle tp z) with
      | none =>
        rw [h3] at h
        simp only [] at h
        rw [Option.some.injEq] at h
        subst h
        exact ⟨(spawnSub_shape _ _ _ _ hs).1, spawnSub_status _ _ _ _⟩
      | some zone =>
        rw [h3] at h
        simp only [] at h
        by_cases h4 : fin = true
        · rw [if_pos h4] at h
          rw [Option.some.injEq] at h
          subst h
          exact ⟨(spawnSub_shape _ _ _ _ (spawnSub_shape _ _ _ _ hs).1).1,
            (spawnSub_status _ _ _ _).trans (spawnSub_status _ _ _ _)⟩
        · rw [if_neg h4] at h
          rw [Option.some.injEq] at h
          subst h
          exact ⟨(spawnSub_shape _ _ _ _ hs).1, spawnSub_status _ _ _ _⟩

theorem planWaypoints_shape (orc : Oracle) (sysname : String) (ep : Position) :
    ∀ (l : List HexCoord) (o : Order) (st : GState), SubsShape o.sub_orders →
      ∀ r, planWaypoints orc sysname ep l o st = some r →
        SubsShape r.1.sub_orders ∧ r.1.status = o.status := by
  intro l
  induction l with
  | nil =>
    intro o st hs r h
    rw [planWaypoints] at h
    rw [Option.some.injEq] at h
    subst h
    exact ⟨hs, rfl⟩
  | cons w ws ih =>
    intro o st hs r h
    cases ws with
    | nil =>
      rw [planWaypoints] at h
      exact handle_inhibited_waypoint_shape orc w ep true sysname o st hs r h
    | cons w2 ws2 =>
      rw [planWaypoints] at h
      cases hh : handle_inhibited_waypoint orc w (hex_to_pixel w.1 w.2) false
          sysname o st with
      | none =>
        rw [hh] at h
        exact absurd h (by simp)
      | some s1 =>
        rw [hh] at h
        simp only [Option.bind_eq_bind, Option.some_bind] at h
        obtain ⟨hsh, hst⟩ := handle_inhibited_waypoint_shape orc w
          (hex_to_pixel w.1 w.2) false sysname o st hs s1 hh
        obtain ⟨h1, h2⟩ := ih s1.1 s1.2 hsh r h
        exact ⟨h1, h2.trans hst⟩

theorem plan_hex_jump_sequence_shape (orc : Oracle) (sh eh : HexCoord)
    (ep : Position) (sysname : String) (uid : ℕ) (o : Order) (st : GState)
    (hs : SubsShape o.sub_orders) :
    ∀ r, plan_hex_jump_sequence orc sh eh ep sysname uid o st = some r →
      SubsShape r.1.sub_orders ∧
      (r.1.status = o.status ∨ r.1.status = .FAILED) := by
  intro r h
  unfold plan_hex_jump_sequence at h
  cases h1 : st.getUnit uid with
  | none =>
    rw [h1] at h
    exact Option.noConfusion h
  | some u =>
    rw [h1] at h
    simp only [] at h
    cases h2 : u.hyperdrive_component with
    | none =>
      rw [h2] at h
      simp only [] at h
      rw [Option.some.injEq] at h
      subst h
      refine ⟨?_, Or.inr (by simp)⟩
      simpa using hs
    | some hd =>
      rw [h2] at h
      simp only [] at h
      by_cases h3 : hex_distance sh eh ≤ hd.jump_range
      · rw [if_pos h3] at h
        obtain ⟨a, b⟩ := handle_inhibited_waypoint_shape orc eh ep true
          sysname o st hs r h
        exact ⟨a, Or.inl b⟩
      · rw [if_neg h3] at h
        obtain ⟨a, b⟩ := planWaypoints_shape orc sysname ep _ o st hs r h
        exact ⟨a, Or.inl b⟩


theorem planLegs_shape (orc : Oracle) (uid : ℕ) :
    ∀ (legs : List (String × String)) (cur : HexCoord) (o : Order)
      (st : GState), SubsShape o.sub_orders →
      ∀ r, planLegs orc uid legs cur o st = some r →
        SubsShape r.1.sub_orders ∧
        (r.1.status = o.status ∨ r.1.status = .FAILED) := by
  intro legs
  induction legs with
  | nil =>
    intro cur o st hs r h
    rw [planLegs] at h
    rw [Option.some.injEq] at h
    subst h
    exact ⟨hs, Or.inl rfl⟩
  | cons leg rest ih =>
    obtain ⟨a, b⟩ := leg
    intro cur o st hs r h
    rw [planLegs] at h
    cases h1 : find_wormhole_to_system st a b with
    | none =>
      rw [h1] at h
      simp only [] at h
      rw [Option.some.injEq] at h
      subst h
      exact ⟨by simpa using hs, Or.inr (by simp)⟩
    | some wh =>
      rw [h1] at h
      simp only [] at h
      cases h2 : wh.exit_wormhole_id with
      | none =>
        rw [h2] at h
        simp only [] at h
        exact Option.noConfusion h
      | some exid =>
        rw [h2] at h
        simp only [] at h
        cases h3 : lookupKey st.wormholes exid with
        | none =>
          rw [h3] at h
          simp only [] at h
          exact Option.noConfusion h
        | some exwh =>
          rw [h3] at h
          simp only [] at h
          by_cases hcur : cur ≠ wh.in_hex
          · rw [if_pos hcur] at h
            cases hE : plan_hex_jump_sequence orc cur wh.in_hex wh.position a
                uid o st with
            | none =>
              rw [hE] at h
              simp only [Option.bind_eq_bind, Option.none_bind] at h
              exact Option.noConfusion h
            | some s1 =>
              rw [hE] at h
              simp only [Option.bind_eq_bind, Option.some_bind] at h
              obtain ⟨hsh1, hst1⟩ := plan_hex_jump_sequence_shape orc cur
                wh.in_hex wh.position a uid o st hs s1 hE
              cases h4 : lookupKey (spawnSub s1.1 OrderType.REACH_WAYPOINT
                  (destParams b exwh.in_hex exwh.position) s1.2).2.systems b with
              | none =>
                rw [h4] at h
                simp only [] at h
                exact Option.noConfusion h
              | some sysb =>
                rw [h4] at h
                simp only [] at h
                cases h5 : lookupKey sysb.hexes exwh.in_hex with
                | none =>
                  rw [h5] at h
                  simp only [] at h
                  exact Option.noConfusion h
                | some hexb =>
                  rw [h5] at h
                  simp only [] at h
                  cases h6 : hexb.get_all_inhibition_zones.find?
                      (fun z => is_point_in_circle exwh.position z) with
                  | none =>
                    rw [h6] at h
                    simp only [] at h
                    obtain ⟨ha, hb⟩ := ih _ _ _ ((spawnSub_shape _ _ _ _ hsh1).1) r h
                    refine ⟨ha, ?_⟩
                    rcases hb with hb | hb
                    · rw [hb, spawnSub_status]
                      exact hst1
                    · exact Or.inr hb
                  | some zone =>
                    rw [h6] at h
                    simp only [] at h
                    obtain ⟨ha, hb⟩ := ih _ _ _
                      ((spawnSub_shape _ _ _ _ ((spawnSub_shape _ _ _ _ hsh1).1)).1) r h
                    refine ⟨ha, ?_⟩
                    rcases hb with hb | hb
                    · rw [hb, spawnSub_status, spawnSub_status]
                      exact hst1
                    · exact Or.inr hb
          · rw [if_neg hcur] at h
            set s1 := spawnSub o OrderType.REACH_WAYPOINT
              (destParams a wh.in_hex wh.position) st with hs1
            have hsh1 : SubsShape s1.1.sub_orders := by
              rw [hs1]
              exact (spawnSub_shape _ _ _ _ hs).1
            have hst1 : s1.1.status = o.status ∨ s1.1.status = .FAILED := by
              rw [hs1]
              exact Or.inl (spawnSub_status _ _ _ _)
            simp only [Option.bind_eq_bind, Option.some_bind] at h
            cases h4 : lookupKey (spawnSub s1.1 OrderType.REACH_WAYPOINT
                (destParams b exwh.in_hex exwh.position) s1.2).2.systems b with
            | none =>
              rw [h4] at h
              simp only [] at h
              exact Option.noConfusion h
            | some sysb =>
              rw [h4] at h
              simp only [] at h
              cases h5 : lookupKey sysb.hexes exwh.in_hex with
              | none =>
                rw [h5] at h
                simp only [] at h
                exact Option.noConfusion h
              | some hexb =>
                rw [h5] at h
                simp only [] at h
                cases h6 : hexb.get_all_inhibition_zones.find?
                    (fun z => is_point_in_circle exwh.position z) with
                | none =>
                  rw [h6] at h
                  simp only [] at h
                  obtain ⟨ha, hb⟩ := ih _ _ _ ((spawnSub_shape _ _ _ _ hsh1).1) r h
                  refine ⟨ha, ?_⟩
                  rcases hb with hb | hb
                  · rw [hb, spawnSub_status]
                    exact hst1
                  · exact Or.inr hb
                | some zone =>
                  rw [h6] at h
                  simp only [] at h
                  obtain ⟨ha, hb⟩ := ih _ _ _
                    ((spawnSub_shape _ _ _ _ ((spawnSub_shape _ _ _ _ hsh1).1)).1) r h
                  refine ⟨ha, ?_⟩
                  rcases hb with hb | hb
                  · rw [hb, spawnSub_status, spawnSub_status]
                    exact hst1
                  · exact Or.inr hb


theorem statusChain {x y : OrderStatus} {o : Order} (h1 : x = y ∨ x = .FAILED)
    (h2 : y = o.status ∨ y = .FAILED) :
    x = o.status ∨ x = .FAILED := by
  rcases h1 with h1 | h1
  · rw [h1]
    exact h2
  · exact Or.inr h1

/-- Shape preservation for the part of `plan_route` after the
inhibition-escape step. -/
theorem plan_route_tail_shape (orc : Oracle) (uid : ℕ) (u : Unit)
    (dsys : String) (dhex : HexCoord) (dpos : Position) (o : Order)
    (s1 : Order × GState) (hsh1 : SubsShape s1.1.sub_orders)
    (hst1 : s1.1.status = o.status) :
    ∀ r, (if u.in_system ≠ dsys then
        match u.hyperdrive_component with
        | none => some (s1.1.withStatus .FAILED, s1.2)
        | some _ =>
          match find_wormhole_to_system s1.2 u.in_system dsys with
          | some dw =>
            match dw.exit_wormhole_id with
            | none => none
            | some exid =>
              match lookupKey s1.2.wormholes exid with
              | none => none
              | some exwh => do
                let s2 ←
                  if u.in_hex ≠ dw.in_hex then
                    plan_hex_jump_sequence orc u.in_hex dw.in_hex dw.position
                      u.in_system uid s1.1 s1.2
                  else
                    some (spawnSub s1.1 .REACH_WAYPOINT
                      (destParams u.in_system dw.in_hex dw.position) s1.2)
                let s3 := spawnSub s2.1 .REACH_WAYPOINT
                  (destParams dsys exwh.in_hex exwh.position) s2.2
                match lookupKey s3.2.systems dsys with
                | none => none
                | some sysd =>
                  match lookupKey sysd.hexes exwh.in_hex with
                  | none => none
                  | some hexd =>
                    let s4 :=
                      match hexd.get_all_inhibition_zones.find?
                          (fun z => is_point_in_circle exwh.position z) with
                      | some zone =>
                        spawnSub s3.1 .REACH_WAYPOINT
                          (destParams dsys exwh.in_hex
                            ⟨exwh.position.x +
                               (zone.radius + 1) * orc.rand_cos s3.2.rng,
                             exwh.position.y +
                               (zone.radius + 1) * orc.rand_sin s3.2.rng⟩)
                          { s3.2 with rng := s3.2.rng + 1 }
                      | none => s3
                    if exwh.in_hex ≠ dhex then
                      plan_hex_jump_sequence orc exwh.in_hex dhex dpos dsys
                        uid s4.1 s4.2
                    else some s4
          | none => do
            let fip ← find_intersystem_path s1.2.system_graph u.in_system dsys
            match fip with
            | none => some (s1.1.withStatus .FAILED, s1.2)
            | some p =>
              if p.length < 2 then some (s1.1.withStatus .FAILED, s1.2)
              else do
                let rr ← planLegs orc uid (p.zip p.tail) u.in_hex s1.1 s1.2
                match rr.2.2 with
                | none => some (rr.1, rr.2.1)
                | some cur =>
                  plan_hex_jump_sequence orc cur dhex dpos dsys uid rr.1 rr.2.1
      else if u.in_hex ≠ dhex then
        plan_hex_jump_sequence orc u.in_hex dhex dpos u.in_system uid s1.1 s1.2
      else
        match u.engines_component with
        | none => some (s1.1.withStatus .FAILED, s1.2)
        | some _ =>
          some (spawnSub s1.1 .REACH_WAYPOINT (destParams dsys dhex dpos) s1.2))
      = some r →
      SubsShape r.1.sub_orders ∧
      (r.1.status = o.status ∨ r.1.status = .FAILED) := by
  intro r h
  by_cases hd1 : u.in_system ≠ dsys
  · rw [if_pos hd1] at h
    cases hhd : u.hyperdrive_component with
    | none =>
      rw [hhd] at h
      simp only [] at h
      rw [Option.some.injEq] at h
      subst h
      exact ⟨by simpa using hsh1, Or.inr (by simp)⟩
    | some hdv =>
      rw [hhd] at h
      simp only [] at h
      cases hfw : find_wormhole_to_system s1.2 u.in_system dsys with
      | some dw =>
        rw [hfw] at h
        simp only [] at h
        cases hexid : dw.exit_wormhole_id with
        | none =>
          rw [hexid] at h
          simp only [] at h
          exact Option.noConfusion h
        | some exid =>
          rw [hexid] at h
          simp only [] at h
          cases hlw : lookupKey s1.2.wormholes exid with
          | none =>
            rw [hlw] at h
            simp only [] at h
            exact Option.noConfusion h
          | some exwh =>
            rw [hlw] at h
            simp only [] at h
            by_cases hih : u.in_hex ≠ dw.in_hex
            · rw [if_pos hih] at h
              cases hs2c : plan_hex_jump_sequence orc u.in_hex dw.in_hex
                  dw.position u.in_system uid s1.1 s1.2 with
              | none =>
                rw [hs2c] at h
                simp only [Option.bind_eq_bind, Option.none_bind] at h
                exact Option.noConfusion h
              | some s2 =>
                rw [hs2c] at h
                simp only [Option.bind_eq_bind, Option.some_bind] at h
                obtain ⟨hsh2, hst2⟩ := plan_hex_jump_sequence_shape orc
                  u.in_hex dw.in_hex dw.position u.in_system uid s1.1 s1.2
                  hsh1 s2 hs2c
                cases hls : lookupKey (spawnSub s2.1 OrderType.REACH_WAYPOINT
                    (destParams dsys exwh.in_hex exwh.position) s2.2).2.systems dsys with
                | none =>
                  rw [hls] at h
                  simp only [] at h
                  exact Option.noConfusion h
                | some sysd =>
                  rw [hls] at h
                  simp only [] at h
                  cases hlh : lookupKey sysd.hexes exwh.in_hex with
                  | none =>
                    rw [hlh] at h
                    simp only [] at h
                    exact Option.noConfusion h
                  | some hexd =>
                    rw [hlh] at h
                    simp only [] at h
                    cases hfz : hexd.get_all_inhibition_zones.find?
                        (fun z => is_point_in_circle exwh.position z) with
                    | none =>
                      rw [hfz] at h
                      simp only [] at h
                      by_cases hlast : exwh.in_hex ≠ dhex
                      · rw [if_pos hlast] at h
                        obtain ⟨ha, hb⟩ := plan_hex_jump_sequence_shape orc exwh.in_hex dhex
                          dpos dsys uid _ _ ((spawnSub_shape _ _ _ _ hsh2).1) r h
                        rw [spawnSub_status] at hb
                        exact ⟨ha, statusChain hb (statusChain hst2 (Or.inl hst1))⟩
                      · rw [if_neg hlast] at h
                        rw [Option.some.injEq] at h
                        subst h
                        refine ⟨(spawnSub_shape _ _ _ _ hsh2).1, ?_⟩
                        rw [spawnSub_status]
                        exact statusChain hst2 (Or.inl hst1)
                    | some zone =>
                      rw [hfz] at h
                      simp only [] at h
                      by_cases hlast : exwh.in_hex ≠ dhex
                      · rw [if_pos hlast] at h
                        obtain ⟨ha, hb⟩ := plan_hex_jump_sequence_shape orc exwh.in_hex dhex
                          dpos dsys uid _ _
                          ((spawnSub_shape _ _ _ _ ((spawnSub_shape _ _ _ _ hsh2).1)).1) r h
                        rw [spawnSub_status, spawnSub_status] at hb
                        exact ⟨ha, statusChain hb (statusChain hst2 (Or.inl hst1))⟩
                      · rw [if_neg hlast] at h
                        rw [Option.some.injEq] at h
                        subst h
                        refine ⟨(spawnSub_shape _ _ _ _ ((spawnSub_shape _ _ _ _ hsh2).1)).1, ?_⟩
                        rw [spawnSub_status, spawnSub_status]
                        exact statusChain hst2 (Or.inl hst1)
            · rw [if_neg hih] at h
              set s2 := spawnSub s1.1 OrderType.REACH_WAYPOINT
                (destParams u.in_system dw.in_hex dw.position) s1.2 with hs2d
              have hsh2 : SubsShape s2.1.sub_orders := by
                rw [hs2d]
                exact (spawnSub_shape _ _ _ _ hsh1).1
              have hst2 : s2.1.status = s1.1.status ∨
                  s2.1.status = .FAILED := by
                rw [hs2d]
                exact Or.inl (spawnSub_status _ _ _ _)
              simp only [Option.bind_eq_bind, Option.some_bind] at h
              cases hls : lookupKey (spawnSub s2.1 OrderType.REACH_WAYPOINT
                  (destParams dsys exwh.in_hex exwh.position) s2.2).2.systems dsys with
              | none =>
                rw [hls] at h
                simp only [] at h
                exact Option.noConfusion h
              | some sysd =>
                rw [hls] at h
                simp only [] at h
                cases hlh : lookupKey sysd.hexes exwh.in_hex with
                | none =>
                  rw [hlh] at h
                  simp only [] at h
                  exact Option.noConfusion h
                | some hexd =>
                  rw [hlh] at h
                  simp only [] at h
                  cases hfz : hexd.get_all_inhibition_zones.find?
                      (fun z => is_point_in_circle exwh.position z) with
                  | none =>
                    rw [hfz] at h
                    simp only [] at h
                    by_cases hlast : exwh.in_hex ≠ dhex
                    · rw [if_pos hlast] at h
                      obtain ⟨ha, hb⟩ := plan_hex_jump_sequence_shape orc exwh.in_hex dhex
                        dpos dsys uid _ _ ((spawnSub_shape _ _ _ _ hsh2).1) r h
                      rw [spawnSub_status] at hb
                      exact ⟨ha, statusChain hb (statusChain hst2 (Or.inl hst1))⟩
                    · rw [if_neg hlast] at h
                      rw [Option.some.injEq] at h
                      subst h
                      refine ⟨(spawnSub_shape _ _ _ _ hsh2).1, ?_⟩
                      rw [spawnSub_status]
                      exact statusChain hst2 (Or.inl hst1)
                  | some zone =>
                    rw [hfz] at h
                    simp only [] at h
                    by_cases hlast : exwh.in_hex ≠ dhex
                    · rw [if_pos hlast] at h
                      obtain ⟨ha, hb⟩ := plan_hex_jump_sequence_shape orc exwh.in_hex dhex
                        dpos dsys uid _ _
                        ((spawnSub_shape _ _ _ _ ((spawnSub_shape _ _ _ _ hsh2).1)).1) r h
                      rw [spawnSub_status, spawnSub_status] at hb
                      exact ⟨ha, statusChain hb (statusChain hst2 (Or.inl hst1))⟩
                    · rw [if_neg hlast] at h
                      rw [Option.some.injEq] at h
                      subst h
                      refine ⟨(spawnSub_shape _ _ _ _ ((spawnSub_shape _ _ _ _ hsh2).1)).1, ?_⟩
                      rw [spawnSub_status, spawnSub_status]
                      exact statusChain hst2 (Or.inl hst1)
      | none =>
        rw [hfw] at h
        simp only [] at h
        cases hfip : find_intersystem_path s1.2.system_graph u.in_system
            dsys with
        | none =>
          rw [hfip] at h
          simp only [Option.bind_eq_bind, Option.none_bind] at h
          exact Option.noConfusion h
        | some fip =>
          rw [hfip] at h
          simp only [Option.bind_eq_bind, Option.some_bind] at h
          cases fip with
          | none =>
            simp only [] at h
            rw [Option.some.injEq] at h
            subst h
            exact ⟨by simpa using hsh1, Or.inr (by simp)⟩
          | some p =>
            simp only [] at h
            by_cases hlen : p.length < 2
            · rw [if_pos hlen] at h
              rw [Option.some.injEq] at h
              subst h
              exact ⟨by simpa using hsh1, Or.inr (by simp)⟩
            · rw [if_neg hlen] at h
              cases hpl : planLegs orc uid (p.zip p.tail) u.in_hex s1.1
                  s1.2 with
              | none =>
                rw [hpl] at h
                simp only [Option.bind_eq_bind, Option.none_bind] at h
                exact Option.noConfusion h
              | some rr =>
                rw [hpl] at h
                simp only [Option.bind_eq_bind, Option.some_bind] at h
                obtain ⟨hshr, hstr⟩ := planLegs_shape orc uid
                  (p.zip p.tail) u.in_hex s1.1 s1.2 hsh1 rr hpl
                cases hr22 : rr.2.2 with
                | none =>
                  rw [hr22] at h
                  simp only [] at h
                  rw [Option.some.injEq] at h
                  subst h
                  exact ⟨hshr, statusChain hstr (Or.inl hst1)⟩
                | some cur2 =>
                  rw [hr22] at h
                  simp only [] at h
                  obtain ⟨ha, hb⟩ := plan_hex_jump_sequence_shape orc
                    cur2 dhex dpos dsys uid rr.1 rr.2.1 hshr r h
                  exact ⟨ha, statusChain hb (statusChain hstr (Or.inl hst1))⟩
  · rw [if_neg hd1] at h
    by_cases hd2 : u.in_hex ≠ dhex
    · rw [if_pos hd2] at h
      obtain ⟨ha, hb⟩ := plan_hex_jump_sequence_shape orc u.in_hex dhex
        dpos u.in_system uid s1.1 s1.2 hsh1 r h
      exact ⟨ha, statusChain hb (Or.inl hst1)⟩
    · rw [if_neg hd2] at h
      cases hen : u.engines_component with
      | none =>
        rw [hen] at h
        simp only [] at h
        rw [Option.some.injEq] at h
        subst h
        exact ⟨by simpa using hsh1, Or.inr (by simp)⟩
      | some env =>
        rw [hen] at h
        simp only [] at h
        rw [Option.some.injEq] at h
        subst h
        refine ⟨(spawnSub_shape _ _ _ _ hsh1).1, ?_⟩
        exact statusChain (Or.inl (spawnSub_status _ _ _ _)) (Or.inl hst1)


theorem plan_route_shape (orc : Oracle) (uid : ℕ) (o : Order) (st : GState)
    (hs : SubsShape o.sub_orders) :
    ∀ r, plan_route orc uid o st = some r →
      SubsShape r.1.sub_orders ∧
      (r.1.status = o.status ∨ r.1.status = .FAILED ∨
        r.1.status = .COMPLETED) := by
  have widen : ∀ x : OrderStatus, (x = o.status ∨ x = .FAILED) →
      (x = o.status ∨ x = .FAILED ∨ x = .COMPLETED) := by
    rintro x (hx | hx)
    · exact Or.inl hx
    · exact Or.inr (Or.inl hx)
  intro r h
  unfold plan_route at h
  cases hg : st.getUnit uid with
  | none =>
    rw [hg] at h
    simp only [] at h
    rw [Option.some.injEq] at h
    subst h
    exact ⟨by simpa using hs, Or.inr (Or.inl (by simp))⟩
  | some u =>
    rw [hg] at h
    simp only [] at h
    cases hp1 : o.parameters.destination_system_name with
    | none =>
      rw [hp1] at h
      simp only [] at h
      rw [Option.some.injEq] at h
      subst h
      exact ⟨by simpa using hs, Or.inr (Or.inl (by simp))⟩
    | some dsys =>
    rw [hp1] at h
    cases hp2 : o.parameters.destination_hex_coord with
    | none =>
      rw [hp2] at h
      simp only [] at h
      rw [Option.some.injEq] at h
      subst h
      exact ⟨by simpa using hs, Or.inr (Or.inl (by simp))⟩
    | some dhex =>
    rw [hp2] at h
    cases hp3 : o.parameters.destination_position with
    | none =>
      rw [hp3] at h
      simp only [] at h
      rw [Option.some.injEq] at h
      subst h
      exact ⟨by simpa using hs, Or.inr (Or.inl (by simp))⟩
    | some dpos =>
    rw [hp3] at h
    simp only [] at h
    by_cases harr : u.in_system = dsys ∧ u.in_hex = dhex ∧
        distance_lt u.position dpos (1 / 100)
    · rw [if_pos harr] at h
      rw [Option.some.injEq] at h
      subst h
      exact ⟨by simpa using hs, Or.inr (Or.inr (by simp))⟩
    · rw [if_neg harr] at h
      by_cases hbr : u.in_system ≠ dsys ∨ u.in_hex ≠ dhex
      · rw [if_pos hbr] at h
        cases hc1 : lookupKey st.systems u.in_system with
        | none =>
          rw [hc1] at h
          simp only [Option.bind_eq_bind, Option.none_bind] at h
          exact Option.noConfusion h
        | some csysObj =>
          rw [hc1] at h
          simp only [] at h
          cases hc2 : lookupKey csysObj.hexes u.in_hex with
          | none =>
            rw [hc2] at h
            simp only [Option.bind_eq_bind, Option.some_bind] at h
            obtain ⟨ha, hb⟩ := plan_route_tail_shape orc uid u dsys dhex dpos
              o (o, st) hs rfl r h
            exact ⟨ha, widen _ hb⟩
          | some chex0 =>
            rw [hc2] at h
            simp only [] at h
            cases hc3 : chex0.get_all_inhibition_zones.find?
                (fun z => is_point_in_circle u.position z) with
            | none =>
              rw [hc3] at h
              simp only [Option.bind_eq_bind, Option.some_bind] at h
              obtain ⟨ha, hb⟩ := plan_route_tail_shape orc uid u dsys dhex
                dpos o (o, st) hs rfl r h
              exact ⟨ha, widen _ hb⟩
            | some zone =>
              rw [hc3] at h
              simp only [Option.bind_eq_bind, Option.some_bind] at h
              obtain ⟨ha, hb⟩ := plan_route_tail_shape orc uid u dsys dhex
                dpos o
                (spawnSub o .REACH_WAYPOINT (destParams u.in_system u.in_hex
                  (get_closest_point_on_circle_edge orc u.position zone)) st)
                ((spawnSub_shape _ _ _ _ hs).1) (spawnSub_status _ _ _ _) r h
              exact ⟨ha, widen _ hb⟩
      · rw [if_neg hbr] at h
        simp only [Option.bind_eq_bind, Option.some_bind] at h
        obtain ⟨ha, hb⟩ := plan_route_tail_shape orc uid u dsys dhex dpos o
          (o, st) hs rfl r h
        exact ⟨ha, widen _ hb⟩


theorem reach_waypoint_shape (uid : ℕ) (o : Order) (st : GState)
    (hs : SubsShape o.sub_orders) :
    ∀ r, _execute_reach_waypoint uid o st = some r →
      SubsShape r.1.sub_orders ∧
      (r.1.status = o.status ∨ r.1.status = .FAILED ∨
        r.1.status = .COMPLETED) := by
  intro r h
  unfold _execute_reach_waypoint at h
  split at h
  all_goals try simp only [] at h
  all_goals try split at h
  all_goals try simp only [] at h
  all_goals try split at h
  all_goals try simp only [] at h
  all_goals try split at h
  all_goals try simp only [] at h
  all_goals try split at h
  all_goals try simp only [] at h
  all_goals try split at h
  all_goals try split at h
  all_goals try split at h
  all_goals try split at h
  all_goals first
    | exact Option.noConfusion h
    | (try rw [Option.some.injEq] at h
       subst h
       constructor
       · first
           | exact hs
           | simpa using hs
           | exact (spawnSub_shape _ _ _ _ hs).1
           | exact (spawnSub_shape _ _ _ _ (spawnSub_shape _ _ _ _ hs).1).1
       · simp only [withStatus_status, spawnSub_status]
         first
           | simp
           | (split
              · simp
              · simp))

theorem toggle_inhibitor_shape (uid : ℕ) (o : Order) (st : GState)
    (hs : SubsShape o.sub_orders) :
    ∀ r, _execute_toggle_inhibitor uid o st = some r →
      SubsShape r.1.sub_orders ∧
      (r.1.status = o.status ∨ r.1.status = .FAILED ∨
        r.1.status = .COMPLETED) := by
  intro r h
  unfold _execute_toggle_inhibitor at h
  split at h
  all_goals try simp only [] at h
  all_goals try split at h
  all_goals try simp only [] at h
  all_goals try split at h
  all_goals try simp only [] at h
  all_goals try split at h
  all_goals try simp only [] at h
  all_goals try split at h
  all_goals try simp only [] at h
  all_goals try split at h
  all_goals try split at h
  all_goals try split at h
  all_goals try split at h
  all_goals first
    | exact Option.noConfusion h
    | (try rw [Option.some.injEq] at h
       subst h
       constructor
       · first
           | exact hs
           | simpa using hs
           | exact (spawnSub_shape _ _ _ _ hs).1
           | exact (spawnSub_shape _ _ _ _ (spawnSub_shape _ _ _ _ hs).1).1
       · simp only [withStatus_status, spawnSub_status]
         first
           | simp
           | (split
              · simp
              · simp))

theorem attack_shape (orc : Oracle) (uid : ℕ) (o : Order) (st : GState)
    (hs : SubsShape o.sub_orders) :
    ∀ r, _execute_attack orc uid o st = some r →
      SubsShape r.1.sub_orders ∧
      (r.1.status = o.status ∨ r.1.status = .FAILED ∨
        r.1.status = .COMPLETED) := by
  intro r h
  unfold _execute_attack at h
  split at h
  all_goals try simp only [] at h
  all_goals try split at h
  all_goals try simp only [] at h
  all_goals try split at h
  all_goals try simp only [] at h
  all_goals try split at h
  all_goals try simp only [] at h
  all_goals try split at h
  all_goals try simp only [] at h
  all_goals try split at h
  all_goals try split at h
  all_goals try split at h
  all_goals try split at h
  all_goals first
    | exact Option.noConfusion h
    | (try rw [Option.some.injEq] at h
       subst h
       constructor
       · first
           | exact hs
           | simpa using hs
           | exact (spawnSub_shape _ _ _ _ hs).1
           | exact (spawnSub_shape _ _ _ _ (spawnSub_shape _ _ _ _ hs).1).1
       · simp only [withStatus_status, spawnSub_status]
         first
           | simp
           | (split
              · simp
              · simp))

theorem colonize_shape (uid : ℕ) (o : Order) (st : GState)
    (hs : SubsShape o.sub_orders) :
    ∀ r, _execute_colonize uid o st = some r →
      SubsShape r.1.sub_orders ∧
      (r.1.status = o.status ∨ r.1.status = .FAILED ∨
        r.1.status = .COMPLETED) := by
  intro r h
  unfold _execute_colonize at h
  split at h
  all_goals try simp only [] at h
  all_goals try split at h
  all_goals try simp only [] at h
  all_goals try split at h
  all_goals try simp only [] at h
  all_goals try split at h
  all_goals try simp only [] at h
  all_goals try split at h
  all_goals try simp only [] at h
  all_goals try split at h
  all_goals try split at h
  all_goals try split at h
  all_goals try split at h
  all_goals first
    | exact Option.noConfusion h
    | (try rw [Option.some.injEq] at h
       subst h
       constructor
       · first
           | exact hs
           | simpa using hs
           | exact (spawnSub_shape _ _ _ _ hs).1
           | exact (spawnSub_shape _ _ _ _ (spawnSub_shape _ _ _ _ hs).1).1
       · simp only [withStatus_status, spawnSub_status]
         first
           | simp
           | (split
              · simp
              · simp))

theorem load_colonists_shape (uid : ℕ) (o : Order) (st : GState)
    (hs : SubsShape o.sub_orders) :
    ∀ r, _execute_load_colonists uid o st = some r →
      SubsShape r.1.sub_orders ∧
      (r.1.status = o.status ∨ r.1.status = .FAILED ∨
        r.1.status = .COMPLETED) := by
  intro r h
  unfold _execute_load_colonists at h
  split at h
  all_goals try simp only [] at h
  all_goals try split at h
  all_goals try simp only [] at h
  all_goals try split at h
  all_goals try simp only [] at h
  all_goals try split at h
  all_goals try simp only [] at h
  all_goals try split at h
  all_goals try simp only [] at h
  all_goals try split at h
  all_goals try split at h
  all_goals try split at h
  all_goals try split at h
  all_goals first
    | exact Option.noConfusion h
    | (try rw [Option.some.injEq] at h
       subst h
       constructor
       · first
           | exact hs
           | simpa using hs
           | exact (spawnSub_shape _ _ _ _ hs).1
           | exact (spawnSub_shape _ _ _ _ (spawnSub_shape _ _ _ _ hs).1).1
       · simp only [withStatus_status, spawnSub_status]
         first
           | simp
           | (split
              · simp
              · simp))

theorem construct_shape (uid : ℕ) (o : Order) (st : GState)
    (hs : SubsShape o.sub_orders) :
    ∀ r, _execute_construct uid o st = some r →
      SubsShape r.1.sub_orders ∧
      (r.1.status = o.status ∨ r.1.status = .FAILED ∨
        r.1.status = .COMPLETED) := by
  intro r h
  unfold _execute_construct at h
  split at h
  all_goals try simp only [] at h
  all_goals try split at h
  all_goals try simp only [] at h
  all_goals try split at h
  all_goals try simp only [] at h
  all_goals try split at h
  all_goals try simp only [] at h
  all_goals try split at h
  all_goals try simp only [] at h
  all_goals try split at h
  all_goals try split at h
  all_goals try split at h
  all_goals try split at h
  all_goals first
    | exact Option.noConfusion h
    | (try rw [Option.some.injEq] at h
       subst h
       constructor
       · first
           | exact hs
           | simpa using hs
           | exact (spawnSub_shape _ _ _ _ hs).1
           | exact (spawnSub_shape _ _ _ _ (spawnSub_shape _ _ _ _ hs).1).1
       · simp only [withStatus_status, spawnSub_status]
         first
           | simp
           | (split
              · simp
              · simp))


theorem check_completion_shape (uid : ℕ) (o : Order) (st : GState) :
    ∀ r, check_completion_conditions uid o st = some r →
      r.1 = o ∨ r.1 = o.withStatus .COMPLETED := by
  intro r h
  unfold check_completion_conditions at h
  split at h
  all_goals try simp only [] at h
  all_goals try split at h
  all_goals try simp only [] at h
  all_goals try split at h
  all_goals try simp only [] at h
  all_goals try split at h
  all_goals try split at h
  all_goals try split at h
  all_goals first
    | exact Option.noConfusion h
    | (try rw [Option.some.injEq] at h
       subst h
       first
         | exact Or.inl rfl
         | exact Or.inr rfl)

theorem execute_treeinv (orc : Oracle) (uid : ℕ) (o : Order) (st : GState)
    (hT : TreeInv o) :
    ∀ r, Order.execute orc uid o st = some r → TreeInv r.1 := by
  intro r h
  rw [Order.execute] at h
  by_cases hp : o.status ≠ .PENDING
  · rw [if_pos hp] at h
    rw [Option.some.injEq] at h
    subst h
    exact hT
  · rw [if_neg hp] at h
    push_neg at hp
    have hsubs : o.sub_orders = [] := (((treeInv_iff o).mp hT).1) hp
    have hshape : SubsShape (o.withStatus .IN_PROGRESS).sub_orders := by
      rw [withStatus_subs, hsubs]
      intro s hs2
      simp at hs2
    have build : ∀ o' : Order, SubsShape o'.sub_orders →
        (o'.status = (o.withStatus .IN_PROGRESS).status ∨
          o'.status = .FAILED ∨ o'.status = .COMPLETED) → TreeInv o' := by
      intro o' hsh hst
      rw [treeInv_iff]
      refine ⟨?_, ?_, subsShape_treeInv hsh⟩
      · intro hpend
        rw [withStatus_status] at hst
        rcases hst with hx | hx | hx <;> rw [hpend] at hx <;>
          exact absurd hx (by simp)
      · intro s hs2
        exact (hsh s (List.mem_of_mem_tail hs2)).1
    cases hty : o.order_type with
    | MOVE =>
      rw [hty] at h
      simp only [] at h
      obtain ⟨ha, hb⟩ := plan_route_shape orc uid _ st hshape r h
      exact build r.1 ha hb
    | REACH_WAYPOINT =>
      rw [hty] at h
      simp only [] at h
      obtain ⟨ha, hb⟩ := reach_waypoint_shape uid _ st hshape r h
      exact build r.1 ha hb
    | TOGGLE_INHIBITOR =>
      rw [hty] at h
      simp only [] at h
      obtain ⟨ha, hb⟩ := toggle_inhibitor_shape uid _ st hshape r h
      exact build r.1 ha hb
    | PATROL =>
      rw [hty] at h
      simp only [] at h
      rw [Option.some.injEq] at h
      subst h
      exact build _ hshape (Or.inl rfl)
    | ATTACK =>
      rw [hty] at h
      simp only [] at h
      obtain ⟨ha, hb⟩ := attack_shape orc uid _ st hshape r h
      exact build r.1 ha hb
    | COLONIZE =>
      rw [hty] at h
      simp only [] at h
      obtain ⟨ha, hb⟩ := colonize_shape uid _ st hshape r h
      exact build r.1 ha hb
    | LOAD_COLONISTS =>
      rw [hty] at h
      simp only [] at h
      obtain ⟨ha, hb⟩ := load_colonists_shape uid _ st hshape r h
      exact build r.1 ha hb
    | CONSTRUCT =>
      rw [hty] at h
      simp only [] at h
      obtain ⟨ha, hb⟩ := construct_shape uid _ st hshape r h
      exact build r.1 ha hb
    | DEFEND =>
      rw [hty] at h
      simp only [] at h
      rw [Option.some.injEq] at h
      subst h
      exact build _ hshape (Or.inl rfl)


theorem updateDrain_inv :
    ∀ fuel : ℕ,
      (∀ (orc : Oracle) (uid : ℕ) (o : Order) (st : GState) r,
        TreeInv o → Order.update orc uid fuel o st = some r → TreeInv r.1) ∧
      (∀ (orc : Oracle) (uid : ℕ) (l : List Order) (st : GState) r,
        (∀ s ∈ l, TreeInv s) → (∀ s ∈ l.tail, s.status = .PENDING) →
        drainSubs orc uid fuel l st = some r →
        (∀ s ∈ r.1, TreeInv s) ∧ (∀ s ∈ r.1.tail, s.status = .PENDING) ∧
        (l = [] → r.1 = [])) := by
  intro fuel
  induction fuel with
  | zero =>
    constructor
    · intro orc uid o st r hT h
      rw [Order.update] at h
      exact Option.noConfusion h
    · intro orc uid l st r hl ht h
      cases l with
      | nil =>
        rw [drainSubs] at h
        rw [Option.some.injEq] at h
        subst h
        exact ⟨by simp, by simp, fun _ => rfl⟩
      | cons a l2 =>
        rw [drainSubs] at h
        exact Option.noConfusion h
  | succ n ih =>
    obtain ⟨ihU, ihD⟩ := ih
    constructor
    · intro orc uid o st r hT h
      rw [Order.update] at h
      cases hd : drainSubs orc uid n o.sub_orders st with
      | none =>
        rw [hd] at h
        simp only [Option.bind_eq_bind, Option.none_bind] at h
        exact Option.noConfusion h
      | some dr =>
        rw [hd] at h
        simp only [Option.bind_eq_bind, Option.some_bind] at h
        obtain ⟨hdr1, hdr2, hdr3⟩ := ihD orc uid o.sub_orders st dr
          (((treeInv_iff o).mp hT).2.2) (((treeInv_iff o).mp hT).2.1) hd
        by_cases he : dr.1.isEmpty
        · rw [if_pos he] at h
          have hnileq : dr.1 = [] := by
            cases hdrr : dr.1 with
            | nil => rfl
            | cons x xs =>
              rw [hdrr] at he
              simp at he
          have hoT : TreeInv (o.withSubs dr.1) := by
            rw [treeInv_iff]
            refine ⟨fun _ => by rw [withSubs_subs]; exact hnileq, ?_, ?_⟩
            · intro s2 hs2
              rw [withSubs_subs] at hs2
              exact hdr2 s2 hs2
            · intro s2 hs2
              rw [withSubs_subs] at hs2
              exact hdr1 s2 hs2
          rcases check_completion_shape uid (o.withSubs dr.1) dr.2 r h with hc | hc
          · rw [hc]
            exact hoT
          · rw [hc]
            rw [treeInv_iff]
            refine ⟨?_, ?_, ?_⟩
            · intro hpend
              rw [withStatus_status] at hpend
              exact absurd hpend (by simp)
            · intro s2 hs2
              rw [withStatus_subs, withSubs_subs] at hs2
              exact hdr2 s2 hs2
            · intro s2 hs2
              rw [withStatus_subs, withSubs_subs] at hs2
              exact hdr1 s2 hs2
        · rw [if_neg he] at h
          rw [Option.some.injEq] at h
          subst h
          rw [treeInv_iff]
          refine ⟨?_, ?_, ?_⟩
          · intro hpend
            rw [withSubs_status] at hpend
            have hps := (((treeInv_iff o).mp hT).1) hpend
            exact absurd (by rw [hdr3 hps]; rfl : dr.1.isEmpty = true) he
          · intro s2 hs2
            rw [withSubs_subs] at hs2
            exact hdr2 s2 hs2
          · intro s2 hs2
            rw [withSubs_subs] at hs2
            exact hdr1 s2 hs2
    · intro orc uid l st r hl ht h
      cases l with
      | nil =>
        rw [drainSubs] at h
        rw [Option.some.injEq] at h
        subst h
        exact ⟨by simp, by simp, fun _ => rfl⟩
      | cons front rest =>
        rw [drainSubs] at h
        by_cases hfp : front.status = .PENDING
        · rw [if_pos hfp] at h
          cases hex : Order.execute orc uid front st with
          | none =>
            rw [hex] at h
            simp only [Option.bind_eq_bind, Option.none_bind] at h
            exact Option.noConfusion h
          | some e =>
            rw [hex] at h
            simp only [Option.bind_eq_bind, Option.some_bind] at h
            have heT : TreeInv e.1 := execute_treeinv orc uid front st
              (hl front (List.mem_cons_self _ _)) e hex
            by_cases hip : e.1.status = OrderStatus.IN_PROGRESS
            · rw [if_pos hip] at h
              cases hup : Order.update orc uid n e.1 e.2 with
              | none =>
                rw [hup] at h
                simp only [Option.bind_eq_bind, Option.none_bind] at h
                exact Option.noConfusion h
              | some uu =>
                rw [hup] at h
                simp only [Option.bind_eq_bind, Option.some_bind] at h
                have huT : TreeInv uu.1 := ihU orc uid e.1 e.2 uu heT hup
                by_cases hterm : uu.1.status = OrderStatus.COMPLETED ∨
                    uu.1.status = OrderStatus.FAILED ∨ uu.1.status = OrderStatus.CANCELLED
                · rw [if_pos hterm] at h
                  obtain ⟨c1, c2, c3⟩ := ihD orc uid rest uu.2 r
                    (fun s hs2 => hl s (List.mem_cons_of_mem _ hs2))
                    (fun s hs2 => ht s (List.mem_of_mem_tail hs2)) h
                  exact ⟨c1, c2, fun hnil => absurd hnil (by simp)⟩
                · rw [if_neg hterm] at h
                  rw [Option.some.injEq] at h
                  subst h
                  refine ⟨?_, ?_, fun hnil => absurd hnil (by simp)⟩
                  · intro s hs2
                    rcases List.mem_cons.mp hs2 with hEq | hs3
                    · rw [hEq]
                      exact huT
                    · exact hl s (List.mem_cons_of_mem _ hs3)
                  · intro s hs2
                    exact ht s hs2
            · rw [if_neg hip] at h
              try simp only [Option.bind_eq_bind, Option.some_bind] at h
              by_cases hterm : e.1.status = OrderStatus.COMPLETED ∨
                  e.1.status = OrderStatus.FAILED ∨ e.1.status = OrderStatus.CANCELLED
              · rw [if_pos hterm] at h
                obtain ⟨c1, c2, c3⟩ := ihD orc uid rest e.2 r
                  (fun s hs2 => hl s (List.mem_cons_of_mem _ hs2))
                  (fun s hs2 => ht s (List.mem_of_mem_tail hs2)) h
                exact ⟨c1, c2, fun hnil => absurd hnil (by simp)⟩
              · rw [if_neg hterm] at h
                rw [Option.some.injEq] at h
                subst h
                refine ⟨?_, ?_, fun hnil => absurd hnil (by simp)⟩
                · intro s hs2
                  rcases List.mem_cons.mp hs2 with hEq | hs3
                  · rw [hEq]
                    exact heT
                  · exact hl s (List.mem_cons_of_mem _ hs3)
                · intro s hs2
                  exact ht s hs2
        · rw [if_neg hfp] at h
          try simp only [Option.bind_eq_bind, Option.some_bind] at h
          try simp only [] at h
          have heT : TreeInv front := hl front (List.mem_cons_self _ _)
          by_cases hip : front.status = OrderStatus.IN_PROGRESS
          · rw [if_pos hip] at h
            cases hup : Order.update orc uid n front st with
            | none =>
              rw [hup] at h
              simp only [Option.bind_eq_bind, Option.none_bind] at h
              exact Option.noConfusion h
            | some uu =>
              rw [hup] at h
              simp only [Option.bind_eq_bind, Option.some_bind] at h
              have huT : TreeInv uu.1 := ihU orc uid front st uu heT hup
              by_cases hterm : uu.1.status = OrderStatus.COMPLETED ∨
                  uu.1.status = OrderStatus.FAILED ∨ uu.1.status = OrderStatus.CANCELLED
              · rw [if_pos hterm] at h
                obtain ⟨c1, c2, c3⟩ := ihD orc uid rest uu.2 r
                  (fun s hs2 => hl s (List.mem_cons_of_mem _ hs2))
                  (fun s hs2 => ht s (List.mem_of_mem_tail hs2)) h
                exact ⟨c1, c2, fun hnil => absurd hnil (by simp)⟩
              · rw [if_neg hterm] at h
                rw [Option.some.injEq] at h
                subst h
                refine ⟨?_, ?_, fun hnil => absurd hnil (by simp)⟩
                · intro s hs2
                  rcases List.mem_cons.mp hs2 with hEq | hs3
                  · rw [hEq]
                    exact huT
                  · exact hl s (List.mem_cons_of_mem _ hs3)
                · intro s hs2
                  exact ht s hs2
          · rw [if_neg hip] at h
            try simp only [Option.bind_eq_bind, Option.some_bind] at h
            by_cases hterm : front.status = OrderStatus.COMPLETED ∨
                front.status = OrderStatus.FAILED ∨ front.status = OrderStatus.CANCELLED
            · rw [if_pos hterm] at h
              obtain ⟨c1, c2, c3⟩ := ihD orc uid rest st r
                (fun s hs2 => hl s (List.mem_cons_of_mem _ hs2))
                (fun s hs2 => ht s (List.mem_of_mem_tail hs2)) h
              exact ⟨c1, c2, fun hnil => absurd hnil (by simp)⟩
            · rw [if_neg hterm] at h
              rw [Option.some.injEq] at h
              subst h
              refine ⟨?_, ?_, fun hnil => absurd hnil (by simp)⟩
              · intro s hs2
                rcases List.mem_cons.mp hs2 with hEq | hs3
                · rw [hEq]
                  exact heT
                · exact hl s (List.mem_cons_of_mem _ hs3)
              · intro s hs2
                exact ht s hs2


theorem start_next_order_inv (orc : Oracle) (fuel uid : ℕ) (c : Commander)
    (st : GState) (hc : CommanderInv c) :
    ∀ r, Commander.start_next_order orc fuel uid c st = some r →
      CommanderInv r.1 := by
  intro r h
  unfold Commander.start_next_order at h
  cases hco : c.current_order with
  | some cur =>
    rw [hco] at h
    simp only [] at h
    rw [Option.some.injEq] at h
    subst h
    exact hc
  | none =>
    rw [hco] at h
    cases hq : c.orders_queue with
    | nil =>
      rw [hq] at h
      simp only [] at h
      rw [Option.some.injEq] at h
      subst h
      exact hc
    | cons hd tl =>
      rw [hq] at h
      simp only [] at h
      cases hex : Order.execute orc uid hd st with
      | none =>
        rw [hex] at h
        simp only [Option.bind_eq_bind, Option.none_bind] at h
        exact Option.noConfusion h
      | some e =>
        rw [hex] at h
        simp only [Option.bind_eq_bind, Option.some_bind] at h
        have heT : TreeInv e.1 := execute_treeinv orc uid hd st
          (hc.2 hd (by rw [hq]; exact List.mem_cons_self _ _)) e hex
        by_cases hip : e.1.status = .IN_PROGRESS
        · rw [if_pos hip] at h
          cases hup : Order.update orc uid fuel e.1 e.2 with
          | none =>
            rw [hup] at h
            simp only [Option.bind_eq_bind, Option.none_bind] at h
            exact Option.noConfusion h
          | some uu =>
            rw [hup] at h
            simp only [Option.bind_eq_bind, Option.some_bind] at h
            rw [Option.some.injEq] at h
            subst h
            have huT := (updateDrain_inv fuel).1 orc uid e.1 e.2 uu heT hup
            constructor
            · intro o2 ho2
              have h2 := Option.some.inj (show some uu.1 = some o2 from ho2)
              rw [← h2]
              exact huT
            · intro o2 ho2
              exact hc.2 o2
                (by rw [hq]; exact List.mem_cons_of_mem _ (show o2 ∈ tl from ho2))
        · rw [if_neg hip] at h
          rw [Option.some.injEq] at h
          subst h
          constructor
          · intro o2 ho2
            have h2 := Option.some.inj (show some e.1 = some o2 from ho2)
            rw [← h2]
            exact heT
          · intro o2 ho2
            exact hc.2 o2
              (by rw [hq]; exact List.mem_cons_of_mem _ (show o2 ∈ tl from ho2))

/-- C5: the depth-first single-active-leaf discipline is an inductive
invariant of the commander operations. If every order tree a commander holds
satisfies `TreeInv` (a PENDING order has no sub-orders, and in every
sub-order queue all entries behind the front one are PENDING, so at most the
front of each queue - hence at most one per depth along a single path - can
be IN_PROGRESS), then after `Commander.update` (the turn-processing step)
and after `Commander.add_order` of a fresh PENDING order, every held tree
still satisfies it. -/
theorem commander_ops_treeinv (orc : Oracle) (fuel uid : ℕ)
    (c : Commander) (st : GState) (hc : CommanderInv c) :
    (∀ r, Commander.update orc fuel uid c st = some r → CommanderInv r.1) ∧
    (∀ o r, o.status = .PENDING → o.sub_orders = [] →
      Commander.add_order orc fuel uid c o st = some r → CommanderInv r.1) := by
  constructor
  · intro r h
    unfold Commander.update at h
    by_cases hni : c.current_order.isNone
    · rw [if_pos hni] at h
      cases hsn : Commander.start_next_order orc fuel uid c st with
      | none =>
        rw [hsn] at h
        simp only [Option.bind_eq_bind, Option.none_bind] at h
        exact Option.noConfusion h
      | some s1 =>
        rw [hsn] at h
        simp only [Option.bind_eq_bind, Option.some_bind] at h
        have hs1 : CommanderInv s1.1 :=
          start_next_order_inv orc fuel uid c st hc s1 hsn
        cases hcur : s1.1.current_order with
        | none =>
          rw [hcur] at h
          simp only [] at h
          rw [Option.some.injEq] at h
          subst h
          exact hs1
        | some cur =>
          rw [hcur] at h
          simp only [] at h
          have hcT : TreeInv cur := hs1.1 cur hcur
          cases hup : Order.update orc uid fuel cur s1.2 with
          | none =>
            rw [hup] at h
            simp only [Option.bind_eq_bind, Option.none_bind] at h
            exact Option.noConfusion h
          | some uu =>
            rw [hup] at h
            simp only [Option.bind_eq_bind, Option.some_bind] at h
            have huT := (updateDrain_inv fuel).1 orc uid cur s1.2 uu hcT hup
            by_cases hterm : uu.1.is_completed = true ∨
                uu.1.status = OrderStatus.FAILED ∨ uu.1.status = OrderStatus.CANCELLED
            · rw [if_pos hterm] at h
              refine start_next_order_inv orc fuel uid
                ⟨none, s1.1.orders_queue⟩ uu.2 ⟨?_, hs1.2⟩ r h
              intro o2 ho2
              exact Option.noConfusion (show (none : Option Order) = some o2 from ho2)
            · rw [if_neg hterm] at h
              rw [Option.some.injEq] at h
              subst h
              constructor
              · intro o2 ho2
                have h2 := Option.some.inj (show some uu.1 = some o2 from ho2)
                rw [← h2]
                exact huT
              · intro o2 ho2
                exact hs1.2 o2 (show o2 ∈ s1.1.orders_queue from ho2)
    · rw [if_neg hni] at h
      try simp only [Option.bind_eq_bind, Option.some_bind] at h
      try simp only [] at h
      cases hcur : c.current_order with
      | none =>
        rw [hcur] at h
        simp only [] at h
        rw [Option.some.injEq] at h
        subst h
        exact hc
      | some cur =>
        rw [hcur] at h
        simp only [] at h
        have hcT : TreeInv cur := hc.1 cur hcur
        cases hup : Order.update orc uid fuel cur st with
        | none =>
          rw [hup] at h
          simp only [Option.bind_eq_bind, Option.none_bind] at h
          exact Option.noConfusion h
        | some uu =>
          rw [hup] at h
          simp only [Option.bind_eq_bind, Option.some_bind] at h
          have huT := (updateDrain_inv fuel).1 orc uid cur st uu hcT hup
          by_cases hterm : uu.1.is_completed = true ∨
              uu.1.status = OrderStatus.FAILED ∨ uu.1.status = OrderStatus.CANCELLED
          · rw [if_pos hterm] at h
            refine start_next_order_inv orc fuel uid
              ⟨none, c.orders_queue⟩ uu.2 ⟨?_, hc.2⟩ r h
            intro o2 ho2
            exact Option.noConfusion (show (none : Option Order) = some o2 from ho2)
          · rw [if_neg hterm] at h
            rw [Option.some.injEq] at h
            subst h
            constructor
            · intro o2 ho2
              have h2 := Option.some.inj (show some uu.1 = some o2 from ho2)
              rw [← h2]
              exact huT
            · intro o2 ho2
              exact hc.2 o2 (show o2 ∈ c.orders_queue from ho2)
  · intro o r hpend hsubs h
    unfold Commander.add_order at h
    have hoT : TreeInv o := by
      rw [treeInv_iff, hsubs]
      exact ⟨fun _ => rfl, by simp, by simp⟩
    have hqinv : ∀ o2 ∈ c.orders_queue ++ [o], TreeInv o2 := by
      intro o2 ho2
      rcases List.mem_append.mp ho2 with hx | hx
      · exact hc.2 o2 hx
      · rw [List.mem_singleton.mp hx]
        exact hoT
    simp only [] at h
    by_cases hni : c.current_order.isNone
    · rw [if_pos hni] at h
      exact start_next_order_inv orc fuel uid
        ⟨c.current_order, c.orders_queue ++ [o]⟩ st ⟨hc.1, hqinv⟩ r h
    · rw [if_neg hni] at h
      rw [Option.some.injEq] at h
      subst h
      refine ⟨?_, hqinv⟩
      intro o2 ho2
      exact hc.1 o2 (show c.current_order = some o2 from ho2)


/-- Witness for C5: the idle commander in the empty game state. -/
theorem commander_ops_treeinv_witness :
    (∀ r, Commander.update oracle0 1 0 ⟨none, []⟩ st0 = some r →
      CommanderInv r.1) ∧
    (∀ o r, o.status = .PENDING → o.sub_orders = [] →
      Commander.add_order oracle0 1 0 ⟨none, []⟩ o st0 = some r →
      CommanderInv r.1) :=
  commander_ops_treeinv oracle0 1 0 ⟨none, []⟩ st0
    ⟨fun o ho => Option.noConfusion ho, fun o ho => absurd ho (by simp)⟩

end WormholeControl
